import Mathlib

/-!
Shallow embedding of the spotify-dl playlist-sync core
(`src/spotify_dl/sync.py`, `src/spotify_dl/youtube.py`, `src/reconcile_cache.py`)
together with proofs about its specification.

Python dicts are modelled as association lists with insert-or-replace update,
Python sets as duplicate-free lists compared up to membership, the filesystem
as explicit state (lists of paths / path-indexed contents), and the external
collaborators (Spotify API, YouTube search and download) as oracle functions
passed in as parameters.
-/

/-! ## Python dictionaries as association lists -/

section Dict

variable {α : Type} {β : Type} [DecidableEq α]

/-- Lookup in a Python dict (association list, unique keys). -/
def dictLookup (k : α) : List (α × β) → Option β
  | [] => none
  | (k', v) :: rest => if k = k' then some v else dictLookup k rest

/-- Python dict assignment `d[k] = v`: replace in place if the key exists,
append otherwise. -/
def dictInsert (k : α) (v : β) : List (α × β) → List (α × β)
  | [] => [(k, v)]
  | (k', v') :: rest => if k = k' then (k, v) :: rest else (k', v') :: dictInsert k v rest

/-- Python in-place mutation `d[k].field = ...` of an existing entry:
modify the value if the key exists, otherwise do nothing. -/
def dictUpdate (k : α) (f : β → β) : List (α × β) → List (α × β)
  | [] => []
  | (k', v') :: rest => if k = k' then (k', f v') :: rest else (k', v') :: dictUpdate k f rest

/-- Python `k in d`. -/
def dictMem (k : α) (l : List (α × β)) : Bool := (dictLookup k l).isSome

theorem dictLookup_dictInsert_self (k : α) (v : β) (l : List (α × β)) :
    dictLookup k (dictInsert k v l) = some v := by
  induction l with
  | nil => simp [dictInsert, dictLookup]
  | cons h t ih =>
    obtain ⟨k', v'⟩ := h
    by_cases hk : k = k' <;> simp [dictInsert, dictLookup, hk, ih]

theorem dictLookup_dictInsert_ne (k k' : α) (v : β) (l : List (α × β)) (h : k' ≠ k) :
    dictLookup k' (dictInsert k v l) = dictLookup k' l := by
  induction l with
  | nil => simp [dictInsert, dictLookup, h]
  | cons hd t ih =>
    obtain ⟨k₀, v₀⟩ := hd
    by_cases hk : k = k₀
    · subst hk
      simp [dictInsert, dictLookup, h]
    · by_cases hk' : k' = k₀ <;> simp [dictInsert, dictLookup, hk, hk', ih]

theorem dictLookup_dictUpdate_self (k : α) (f : β → β) (l : List (α × β)) :
    dictLookup k (dictUpdate k f l) = (dictLookup k l).map f := by
  induction l with
  | nil => simp [dictUpdate, dictLookup]
  | cons hd t ih =>
    obtain ⟨k₀, v₀⟩ := hd
    by_cases hk : k = k₀ <;> simp [dictUpdate, dictLookup, hk, ih]

theorem dictLookup_dictUpdate_ne (k k' : α) (f : β → β) (l : List (α × β)) (h : k' ≠ k) :
    dictLookup k' (dictUpdate k f l) = dictLookup k' l := by
  induction l with
  | nil => simp [dictUpdate, dictLookup]
  | cons hd t ih =>
    obtain ⟨k₀, v₀⟩ := hd
    by_cases hk : k = k₀
    · subst hk
      simp [dictUpdate, dictLookup, h]
    · by_cases hk' : k' = k₀ <;> simp [dictUpdate, dictLookup, hk, hk', ih]

end Dict

/-! ## Text, UTF-8 and filename derivation

Python strings are modelled as Lean `String`s (lists of unicode scalar
values); `str.encode("utf-8")` and `bytes.decode("utf-8", errors="ignore")`
are modelled byte-precisely below. -/

/-- Number of bytes of the UTF-8 encoding of one scalar value
(model of the length contribution of one character to `str.encode`). -/
def utf8CharSize (c : Char) : Nat :=
  if c.toNat < 128 then 1
  else if c.toNat < 2048 then 2
  else if c.toNat < 65536 then 3
  else 4

/-- UTF-8 encoding of one unicode scalar value as a byte list. -/
def utf8EncodeCh (c : Char) : List Nat :=
  if c.toNat < 128 then [c.toNat]
  else if c.toNat < 2048 then [192 + c.toNat / 64, 128 + c.toNat % 64]
  else if c.toNat < 65536 then
    [224 + c.toNat / 4096, 128 + c.toNat / 64 % 64, 128 + c.toNat % 64]
  else
    [240 + c.toNat / 262144, 128 + c.toNat / 4096 % 64, 128 + c.toNat / 64 % 64,
      128 + c.toNat % 64]

/-- Model of Python `s.encode("utf-8")`. -/
def utf8Encode (s : List Char) : List Nat := s.flatMap utf8EncodeCh

/-- Whether a byte is a UTF-8 continuation byte. -/
def isCont (b : Nat) : Prop := 128 ≤ b ∧ b < 192

instance (b : Nat) : Decidable (isCont b) := by unfold isCont; infer_instance

/-- One step of the lenient UTF-8 decoder: given the leading byte `b` and the
remaining bytes `bs`, either decode one scalar value (consuming its
continuation bytes) or drop the offending leading byte; returns the decoded
character (if any) and the not-yet-consumed rest. -/
def decodeStep (b : Nat) (bs : List Nat) : Option Char × List Nat :=
  if b < 128 then (some (Char.ofNat b), bs)
  else if b < 192 then (none, bs)
  else if b < 224 then
    match bs with
    | [] => (none, [])
    | b1 :: bs2 =>
      if isCont b1 then (some (Char.ofNat ((b - 192) * 64 + (b1 - 128))), bs2)
      else (none, bs)
  else if b < 240 then
    match bs with
    | b1 :: b2 :: bs3 =>
      if isCont b1 ∧ isCont b2 then
        (some (Char.ofNat ((b - 224) * 4096 + (b1 - 128) * 64 + (b2 - 128))), bs3)
      else (none, bs)
    | _ => (none, bs)
  else if b < 248 then
    match bs with
    | b1 :: b2 :: b3 :: bs4 =>
      if isCont b1 ∧ isCont b2 ∧ isCont b3 then
        (some (Char.ofNat ((b - 240) * 262144 + (b1 - 128) * 4096 + (b2 - 128) * 64 + (b3 - 128))),
          bs4)
      else (none, bs)
    | _ => (none, bs)
  else (none, bs)

/-- Model of Python `bytes.decode("utf-8", errors="ignore")`:
decode valid sequences, drop invalid or truncated ones and continue.
Written with fuel (one unit per consumed leading byte) so the function is
structurally recursive and evaluates by kernel reduction. -/
def decodeIgnoreF : Nat → List Nat → List Char
  | 0, _ => []
  | _ + 1, [] => []
  | fuel + 1, b :: bs =>
    match decodeStep b bs with
    | (some c, rest) => c :: decodeIgnoreF fuel rest
    | (none, rest) => decodeIgnoreF fuel rest

/-- Model of Python `bytes.decode("utf-8", errors="ignore")`. -/
def decodeIgnore (l : List Nat) : List Char := decodeIgnoreF l.length l

theorem decodeStep_rest_length (b : Nat) (bs : List Nat) :
    (decodeStep b bs).2.length ≤ bs.length := by
  unfold decodeStep
  repeat' split
  all_goals simp_all
  all_goals omega

theorem decodeIgnoreF_congr (f₁ : Nat) :
    ∀ (f₂ : Nat) (l : List Nat), l.length ≤ f₁ → l.length ≤ f₂ →
      decodeIgnoreF f₁ l = decodeIgnoreF f₂ l := by
  induction f₁ with
  | zero =>
    intro f₂ l h₁ _
    have : l = [] := List.length_eq_zero.mp (Nat.le_zero.mp h₁)
    subst this
    cases f₂ <;> rfl
  | succ f ih =>
    intro f₂ l h₁ h₂
    cases l with
    | nil => cases f₂ <;> rfl
    | cons b bs =>
      cases f₂ with
      | zero => simp at h₂
      | succ g =>
        have hrest := decodeStep_rest_length b bs
        simp only [List.length_cons] at h₁ h₂
        rcases hstep : decodeStep b bs with ⟨oc, rest⟩
        cases oc <;> simp only [decodeIgnoreF, hstep] <;>
          rw [ih g rest (by rw [hstep] at hrest; simp at hrest; omega)
            (by rw [hstep] at hrest; simp at hrest; omega)]

theorem decodeIgnore_cons (b : Nat) (bs : List Nat) :
    decodeIgnore (b :: bs) =
      match decodeStep b bs with
      | (some c, rest) => c :: decodeIgnore rest
      | (none, rest) => decodeIgnore rest := by
  have hrest := decodeStep_rest_length b bs
  rcases hstep : decodeStep b bs with ⟨oc, rest⟩
  rw [hstep] at hrest
  simp only at hrest
  cases oc <;>
    simp only [decodeIgnore, List.length_cons, decodeIgnoreF, hstep] <;>
    rw [decodeIgnoreF_congr bs.length rest.length rest hrest (Nat.le_refl _)]

/-- Longest initial segment of a character list whose UTF-8 encoding fits in
`k` bytes (the reference value that byte-truncation plus lenient decoding
is proved to compute). -/
def takeBytes (k : Nat) : List Char → List Char
  | [] => []
  | c :: cs => if utf8CharSize c ≤ k then c :: takeBytes (k - utf8CharSize c) cs else []

/-- Model of Python `str.rstrip()` on a character list. -/
def rstripChars (l : List Char) : List Char :=
  ((l.reverse).dropWhile Char.isWhitespace).reverse

/-- Total UTF-8 byte length of a character list
(model of `len(s.encode("utf-8"))`). -/
def utf8Len (s : List Char) : Nat := (s.map utf8CharSize).sum

theorem char_toNat_lt (c : Char) : c.toNat < 1114112 := by
  rcases c.valid with h | ⟨_, h⟩ <;>
    · have h2 : c.val.toNat < _ := h
      simp [Char.toNat] at h2 ⊢
      omega

theorem utf8EncodeCh_length (c : Char) : (utf8EncodeCh c).length = utf8CharSize c := by
  unfold utf8EncodeCh utf8CharSize
  split_ifs <;> rfl

theorem utf8Encode_length (s : List Char) : (utf8Encode s).length = utf8Len s := by
  induction s with
  | nil => rfl
  | cons c cs ih =>
    simp [utf8Encode, utf8Len] at ih ⊢
    simp [utf8EncodeCh_length c, ih]

theorem decodeIgnore_encodeCh_append (c : Char) (bs : List Nat) :
    decodeIgnore (utf8EncodeCh c ++ bs) = c :: decodeIgnore bs := by
  have hv := char_toNat_lt c
  unfold utf8EncodeCh
  split_ifs with h1 h2 h3
  · rw [List.cons_append, List.nil_append, decodeIgnore_cons]
    simp only [decodeStep, if_pos h1]
    rw [Char.ofNat_toNat]
  · rw [List.cons_append, List.cons_append, List.nil_append, decodeIgnore_cons]
    have e1 : ¬ (192 + c.toNat / 64 < 128) := by omega
    have e2 : ¬ (192 + c.toNat / 64 < 192) := by omega
    have e3 : 192 + c.toNat / 64 < 224 := by omega
    have e4 : isCont (128 + c.toNat % 64) := by unfold isCont; omega
    simp only [decodeStep, if_neg e1, if_neg e2, if_pos e3, if_pos e4]
    have e5 : (192 + c.toNat / 64 - 192) * 64 + (128 + c.toNat % 64 - 128) = c.toNat := by omega
    rw [e5, Char.ofNat_toNat]
  · rw [List.cons_append, List.cons_append, List.cons_append, List.nil_append, decodeIgnore_cons]
    have e1 : ¬ (224 + c.toNat / 4096 < 128) := by omega
    have e2 : ¬ (224 + c.toNat / 4096 < 192) := by omega
    have e3 : ¬ (224 + c.toNat / 4096 < 224) := by omega
    have e4 : 224 + c.toNat / 4096 < 240 := by omega
    have e5 : isCont (128 + c.toNat / 64 % 64) ∧ isCont (128 + c.toNat % 64) := by
      unfold isCont; omega
    simp only [decodeStep, if_neg e1, if_neg e2, if_neg e3, if_pos e4, if_pos e5]
    have e6 : (224 + c.toNat / 4096 - 224) * 4096 + (128 + c.toNat / 64 % 64 - 128) * 64 +
        (128 + c.toNat % 64 - 128) = c.toNat := by omega
    rw [e6, Char.ofNat_toNat]
  · rw [List.cons_append, List.cons_append, List.cons_append, List.cons_append, List.nil_append,
      decodeIgnore_cons]
    have e1 : ¬ (240 + c.toNat / 262144 < 128) := by omega
    have e2 : ¬ (240 + c.toNat / 262144 < 192) := by omega
    have e3 : ¬ (240 + c.toNat / 262144 < 224) := by omega
    have e4 : ¬ (240 + c.toNat / 262144 < 240) := by omega
    have e5 : 240 + c.toNat / 262144 < 248 := by omega
    have e6 : isCont (128 + c.toNat / 4096 % 64) ∧ isCont (128 + c.toNat / 64 % 64) ∧
        isCont (128 + c.toNat % 64) := by unfold isCont; omega
    simp only [decodeStep, if_neg e1, if_neg e2, if_neg e3, if_neg e4, if_pos e5, if_pos e6]
    have e7 : (240 + c.toNat / 262144 - 240) * 262144 + (128 + c.toNat / 4096 % 64 - 128) * 4096 +
        (128 + c.toNat / 64 % 64 - 128) * 64 + (128 + c.toNat % 64 - 128) = c.toNat := by omega
    rw [e7, Char.ofNat_toNat]

theorem decodeIgnore_cont (l : List Nat) (h : ∀ b ∈ l, isCont b) : decodeIgnore l = [] := by
  induction l with
  | nil => rfl
  | cons b bs ih =>
    have hb := h b (List.mem_cons_self b bs)
    rw [decodeIgnore_cons]
    have e1 : ¬ (b < 128) := by unfold isCont at hb; omega
    have e2 : b < 192 := hb.2
    simp only [decodeStep, if_neg e1, if_pos e2]
    exact ih (fun x hx => h x (List.mem_cons_of_mem b hx))

theorem decodeIgnore_take_encodeCh (c : Char) (k : Nat) (h : k < utf8CharSize c) :
    decodeIgnore ((utf8EncodeCh c).take k) = [] := by
  have hv := char_toNat_lt c
  unfold utf8CharSize at h
  unfold utf8EncodeCh
  split_ifs at h ⊢ with h1 h2 h3
  · interval_cases k
    rfl
  · interval_cases k
    · rfl
    · rw [List.take_succ_cons, List.take_zero, decodeIgnore_cons]
      have e1 : ¬ (192 + c.toNat / 64 < 128) := by omega
      have e2 : ¬ (192 + c.toNat / 64 < 192) := by omega
      have e3 : 192 + c.toNat / 64 < 224 := by omega
      simp only [decodeStep, if_neg e1, if_neg e2, if_pos e3]
      rfl
  · interval_cases k
    · rfl
    · rw [List.take_succ_cons, List.take_zero, decodeIgnore_cons]
      have e1 : ¬ (224 + c.toNat / 4096 < 128) := by omega
      have e2 : ¬ (224 + c.toNat / 4096 < 192) := by omega
      have e3 : ¬ (224 + c.toNat / 4096 < 224) := by omega
      have e4 : 224 + c.toNat / 4096 < 240 := by omega
      simp only [decodeStep, if_neg e1, if_neg e2, if_neg e3, if_pos e4]
      rfl
    · rw [List.take_succ_cons, List.take_succ_cons, List.take_zero, decodeIgnore_cons]
      have e1 : ¬ (224 + c.toNat / 4096 < 128) := by omega
      have e2 : ¬ (224 + c.toNat / 4096 < 192) := by omega
      have e3 : ¬ (224 + c.toNat / 4096 < 224) := by omega
      have e4 : 224 + c.toNat / 4096 < 240 := by omega
      simp only [decodeStep, if_neg e1, if_neg e2, if_neg e3, if_pos e4]
      exact decodeIgnore_cont _ (by intro b hb; simp at hb; subst hb; unfold isCont; omega)
  · interval_cases k
    · rfl
    · rw [List.take_succ_cons, List.take_zero, decodeIgnore_cons]
      have e1 : ¬ (240 + c.toNat / 262144 < 128) := by omega
      have e2 : ¬ (240 + c.toNat / 262144 < 192) := by omega
      have e3 : ¬ (240 + c.toNat / 262144 < 224) := by omega
      have e4 : ¬ (240 + c.toNat / 262144 < 240) := by omega
      have e5 : 240 + c.toNat / 262144 < 248 := by omega
      simp only [decodeStep, if_neg e1, if_neg e2, if_neg e3, if_neg e4, if_pos e5]
      rfl
    · rw [List.take_succ_cons, List.take_succ_cons, List.take_zero, decodeIgnore_cons]
      have e1 : ¬ (240 + c.toNat / 262144 < 128) := by omega
      have e2 : ¬ (240 + c.toNat / 262144 < 192) := by omega
      have e3 : ¬ (240 + c.toNat / 262144 < 224) := by omega
      have e4 : ¬ (240 + c.toNat / 262144 < 240) := by omega
      have e5 : 240 + c.toNat / 262144 < 248 := by omega
      simp only [decodeStep, if_neg e1, if_neg e2, if_neg e3, if_neg e4, if_pos e5]
      exact decodeIgnore_cont _ (by intro b hb; simp at hb; subst hb; unfold isCont; omega)
    · rw [List.take_succ_cons, List.take_succ_cons, List.take_succ_cons, List.take_zero,
        decodeIgnore_cons]
      have e1 : ¬ (240 + c.toNat / 262144 < 128) := by omega
      have e2 : ¬ (240 + c.toNat / 262144 < 192) := by omega
      have e3 : ¬ (240 + c.toNat / 262144 < 224) := by omega
      have e4 : ¬ (240 + c.toNat / 262144 < 240) := by omega
      have e5 : 240 + c.toNat / 262144 < 248 := by omega
      simp only [decodeStep, if_neg e1, if_neg e2, if_neg e3, if_neg e4, if_pos e5]
      exact decodeIgnore_cont _
        (by intro b hb; simp at hb; rcases hb with hb | hb <;> subst hb <;> unfold isCont <;> omega)

theorem decodeIgnore_encode_take (s : List Char) :
    ∀ k : Nat, decodeIgnore ((utf8Encode s).take k) = takeBytes k s := by
  induction s with
  | nil => intro k; simp [utf8Encode, takeBytes, decodeIgnore, decodeIgnoreF]
  | cons c cs ih =>
    intro k
    have henc : utf8Encode (c :: cs) = utf8EncodeCh c ++ utf8Encode cs := by
      simp [utf8Encode]
    rw [henc, List.take_append_eq_append_take, utf8EncodeCh_length]
    by_cases hk : utf8CharSize c ≤ k
    · have htake : (utf8EncodeCh c).take k = utf8EncodeCh c :=
        List.take_of_length_le (by rw [utf8EncodeCh_length]; exact hk)
      rw [htake, decodeIgnore_encodeCh_append, ih]
      rw [show takeBytes k (c :: cs) =
        if utf8CharSize c ≤ k then c :: takeBytes (k - utf8CharSize c) cs else [] from rfl]
      rw [if_pos hk]
    · have hk' : k - utf8CharSize c = 0 := by omega
      rw [hk', List.take_zero, List.append_nil, decodeIgnore_take_encodeCh c k (by omega)]
      rw [show takeBytes k (c :: cs) =
        if utf8CharSize c ≤ k then c :: takeBytes (k - utf8CharSize c) cs else [] from rfl]
      rw [if_neg hk]

theorem takeBytes_len_le (s : List Char) : ∀ k : Nat, utf8Len (takeBytes k s) ≤ k := by
  induction s with
  | nil => intro k; simp [takeBytes, utf8Len]
  | cons c cs ih =>
    intro k
    unfold takeBytes
    split_ifs with h
    · have := ih (k - utf8CharSize c)
      simp only [utf8Len, List.map_cons, List.sum_cons] at this ⊢
      omega
    · simp [utf8Len]

theorem takeBytes_isInitial (s : List Char) : ∀ k : Nat, ∃ r, s = takeBytes k s ++ r := by
  induction s with
  | nil => intro k; exact ⟨[], rfl⟩
  | cons c cs ih =>
    intro k
    unfold takeBytes
    split_ifs with h
    · obtain ⟨r, hr⟩ := ih (k - utf8CharSize c)
      exact ⟨r, by rw [List.cons_append]; rw [← hr]⟩
    · exact ⟨c :: cs, rfl⟩

theorem rstripChars_sublist (l : List Char) : List.Sublist (rstripChars l) l := by
  have h := (List.dropWhile_sublist (l := l.reverse) Char.isWhitespace).reverse
  rw [List.reverse_reverse] at h
  exact h

theorem utf8Len_le_of_sublist (s t : List Char) (h : List.Sublist s t) :
    utf8Len s ≤ utf8Len t :=
  List.Sublist.sum_le_sum (h.map utf8CharSize) (fun a _ => Nat.zero_le a)

theorem rstripChars_no_trailing_ws (l : List Char) (c : Char)
    (h : (rstripChars l).getLast? = some c) : c.isWhitespace = false := by
  unfold rstripChars at h
  rw [List.getLast?_reverse] at h
  have := List.head?_dropWhile_not Char.isWhitespace l.reverse
  rw [h] at this
  simpa using this

/-! ## Tracks and filename derivation
(`youtube.py default_filename`, `sync.py generate_filename`) -/

/-- The track fields the sync core reads (`fetch_tracks` supplies more
metadata, used only for tagging, which the embedded claims never touch). -/
structure Track where
  spotify_id : String
  name : String
  artist : String
deriving DecidableEq

/-- Modelled from the spec: `sanitize` lives in `spotify_dl/utils.py`, which
is not among the provided sources; per the spec it sanitizes characters
illegal in filenames, replacing each of them with the given replacement
string. -/
def sanitize (s : String) (repl : String) : String :=
  (s.toList.flatMap (fun c =>
    if c ∈ ['\\', '/', '*', '?', ':', '"', '<', '>', '|'] then repl.toList else [c])).asString

/-- youtube.py `default_filename`: sanitized "artist - name", with `#` as the
replacement for illegal characters. -/
def default_filename (name artist : String) : String :=
  sanitize (artist ++ " - " ++ name) "#"

/-- sync.py `generate_filename`: derive the base filename and, if its UTF-8
encoding exceeds `max_bytes` bytes, truncate the byte string at `max_bytes`,
decode leniently and strip trailing whitespace. The Python default for
`max_bytes` is 200 and every caller uses it. -/
def generate_filename (track : Track) (max_bytes : Nat) : String :=
  let filename := default_filename track.name track.artist
  let encoded := utf8Encode filename.toList
  if encoded.length > max_bytes then
    (rstripChars (decodeIgnore (encoded.take max_bytes))).asString
  else filename

theorem toList_asString (l : List Char) : (l.asString).toList = l := rfl

/-! ## youtube.py download pipeline (single-core)

`download_songs` writes the batch to a reference file and (for
`multi_core <= 1`) hands it to `find_and_download_songs`, which processes the
entries sequentially.  The filesystem state of the cache directory is modelled
explicitly: the set of existing final `.mp3` files, the set of base paths that
have an orphan intermediate audio file (`.webm`/`.m4a`/...), and a log of the
YouTube download invocations actually performed (the acquisition events).
YouTube search, the downloader and ffmpeg conversion are oracles. -/

structure DLState where
  mp3s : List String
  webms : List String
  acquisitions : List String
deriving DecidableEq

structure DLConfig where
  no_overwrites : Bool
  skip_mp3 : Bool
deriving DecidableEq

/-- One line of the reference file as consumed by `find_and_download_songs`:
the track name, artist and the save path attached by `write_tracks`. -/
structure DLEntry where
  name : String
  artist : String
  save_path : String
deriving DecidableEq

/-- The base file path `save_path/<file_name>` of an entry, with
`file_name` produced by the `file_name_f` in use, `default_filename`. -/
def entry_file_path (e : DLEntry) : String :=
  e.save_path ++ "/" ++ (default_filename e.name e.artist)

/-- The search query string: `f"{artist} - {name}"` with `:` and `"` removed. -/
def entry_query (e : DLEntry) : String :=
  ((e.artist ++ " - " ++ e.name).toList.filter (fun c => !(c = ':' || c = '"'))).asString

/-- youtube.py `recover_orphan_webm`: returns whether an mp3 for `file_path`
now exists, converting an orphan intermediate audio file if one is present
(`convert` is the ffmpeg oracle); the source file is removed after a
successful conversion. -/
def recover_orphan_webm (convert : String → Bool) (st : DLState) (file_path : String) :
    Bool × DLState :=
  if (file_path ++ ".mp3") ∈ st.mp3s then (true, st)
  else if file_path ∈ st.webms then
    if convert file_path then
      (true,
        { st with
          mp3s := (file_path ++ ".mp3") :: st.mp3s
          webms := st.webms.erase file_path })
    else (false, st)
  else (false, st)

/-- youtube.py `cleanup_webm_after_download`: remove leftover intermediate
files once the final mp3 exists. -/
def cleanup_webm_after_download (st : DLState) (file_path : String) : DLState :=
  if (file_path ++ ".mp3") ∈ st.mp3s then { st with webms := st.webms.erase file_path }
  else st

/-- The body of the per-entry loop of `find_and_download_songs`:
skip existing files under `no_overwrites`, recover orphan intermediates,
otherwise search (`search` oracle: query to video id, `none` when both the
song and the video search return nothing) and download (`dl` oracle: does the
downloader produce the audio for this video id), then post-process.
Appending to `acquisitions` records that `ydl.download` was invoked
(`attempt_download` below). -/
def attempt_download (dl : String → Bool) (vid fp mp3p : String) (st1 : DLState) : DLState :=
  let st2 := { st1 with acquisitions := fp :: st1.acquisitions }
  if dl vid then { st2 with mp3s := mp3p :: st2.mp3s } else st2

/-- The post-download block of the per-entry loop: if the final mp3 is
missing, try recovering from an orphan intermediate; clean up leftover
source files when the mp3 exists. -/
def post_download (cfg : DLConfig) (convert : String → Bool) (fp mp3p : String)
    (st3 : DLState) : DLState :=
  if ¬ cfg.skip_mp3 then
    if mp3p ∈ st3.mp3s then cleanup_webm_after_download st3 fp
    else
      let rec2 := recover_orphan_webm convert st3 fp
      if rec2.1 then cleanup_webm_after_download rec2.2 fp else rec2.2
  else st3

def process_entry (cfg : DLConfig) (search : String → Option String) (dl : String → Bool)
    (convert : String → Bool) (st : DLState) (e : DLEntry) : DLState :=
  let fp := entry_file_path e
  let mp3p := fp ++ ".mp3"
  if cfg.no_overwrites ∧ ¬ cfg.skip_mp3 ∧ mp3p ∈ st.mp3s then st
  else
    let rec1 := if ¬ cfg.skip_mp3 then recover_orphan_webm convert st fp else (false, st)
    if rec1.1 then rec1.2
    else
      match search (entry_query e) with
      | none => rec1.2
      | some vid => post_download cfg convert fp mp3p (attempt_download dl vid fp mp3p rec1.2)

/-- youtube.py `find_and_download_songs` (as invoked by the sync path:
`remove_trailing_tracks="n"`, so the trailing-file deletion block is inert). -/
def find_and_download_songs (cfg : DLConfig) (search : String → Option String)
    (dl : String → Bool) (convert : String → Bool) (entries : List DLEntry)
    (st : DLState) : DLState :=
  entries.foldl (process_entry cfg search dl convert) st

/-! ## youtube.py multi-core partitioning (`multicore_find_and_download_songs`) -/

/-- The per-worker segment sizes: `songs_per_cpu = n // cpu_count` each, the
first `n % cpu_count` workers getting one extra song. -/
def cpu_count_list (number_of_songs cpu_count : Nat) : List Nat :=
  (List.range cpu_count).map (fun cpu =>
    if cpu < number_of_songs % cpu_count then number_of_songs / cpu_count + 1
    else number_of_songs / cpu_count)

/-- The slicing loop: `segment = lines[index:cpu+index]; index += cpu`. -/
def file_segments_go (lines : List α) : Nat → List Nat → List (List α)
  | _, [] => []
  | index, cpu :: rest => (lines.drop index).take cpu :: file_segments_go lines (index + cpu) rest

/-- The file segments handed to the worker processes. -/
def file_segments (lines : List α) (counts : List Nat) : List (List α) :=
  file_segments_go lines 0 counts

/-- The complete static partition computed by
`multicore_find_and_download_songs` before spawning workers. -/
def multicore_segments (lines : List α) (cpu_count : Nat) : List (List α) :=
  file_segments lines (cpu_count_list lines.length cpu_count)

/-! ## Manifest data model and persistence (sync.py) -/

structure CacheEntry where
  name : String
  artist : String
  filename : String
  downloaded_at : String
  reconciled : Option Bool
deriving DecidableEq

structure PlaylistRecord where
  name : String
  url : String
  folder : Option String
  songs : List String
  last_synced : Option String
deriving DecidableEq

/-- The persisted manifest document.  `playlist_url_cache` is an `Option`
because the persisted JSON object may lack the key entirely — run_sync
explicitly tests `"playlist_url_cache" not in manifest`. -/
structure Manifest where
  version : Nat
  cache : List (String × CacheEntry)
  playlists : List (String × PlaylistRecord)
  playlist_url_cache : Option (List (String × (String × String)))
deriving DecidableEq

/-- constants.py `MANIFEST_FILENAME`. -/
def MANIFEST_FILENAME : String := ".spotify_dl_manifest.json"

/-- sync.py `load_manifest`: the persisted document when the manifest file
exists, the fresh structure `{"version": 1, "cache": {}, "playlists": {}}`
otherwise; `persisted` abstracts existence plus `json.load` of the file. -/
def load_manifest (persisted : Option Manifest) : Manifest :=
  match persisted with
  | some m => m
  | none => { version := 1, cache := [], playlists := [], playlist_url_cache := none }

/-- Point update of a path-indexed filesystem. -/
def fsSet (fs : String → Option String) (p : String) (v : Option String) :
    String → Option String :=
  fun q => if q = p then v else fs q

/-- Failure injection points for `save_manifest`, all after the temporary
file has been created: a failure while writing it (`json.dump` or the close
of `os.fdopen`), or a failure of `os.replace`. -/
inductive SaveFailure where
  | duringWrite
  | duringReplace
deriving DecidableEq

/-- sync.py `save_manifest` at the filesystem level: `tempfile.mkstemp`
creates an (empty) temporary file `tmp_base` inside `output_dir`, the JSON
text is written to it and `os.replace` renames it over the manifest path;
any exception after the temp file exists removes the temp file and
propagates.  Returns the final filesystem and whether an error propagated. -/
def save_manifest (fs : String → Option String) (output_dir tmp_base : String)
    (content : String) (failure : Option SaveFailure) :
    (String → Option String) × Bool :=
  let manifest_path := output_dir ++ "/" ++ MANIFEST_FILENAME
  let tmp_path := output_dir ++ "/" ++ tmp_base
  let fs1 := fsSet fs tmp_path (some "")
  match failure with
  | some SaveFailure.duringWrite => (fsSet fs1 tmp_path none, true)
  | some SaveFailure.duringReplace =>
    let fs2 := fsSet fs1 tmp_path (some content)
    (fsSet fs2 tmp_path none, true)
  | none =>
    let fs2 := fsSet fs1 tmp_path (some content)
    (fsSet (fsSet fs2 tmp_path none) manifest_path (some content), false)

/-! ## sync.py folder mapping -/

/-- Strip a trailing `.json` (5 characters) from a playlist name. -/
def strip_json_suffix (name : String) : String :=
  if name.endsWith ".json" then name.dropRight 5 else name

/-- The loop of `load_folder_mapping` building the reverse mapping
playlist-name to folder-name and the set of playlist names. -/
def build_reverse_mapping (folder_mapping : List (String × List String)) :
    List (String × String) × List String :=
  folder_mapping.foldl (fun acc p =>
    p.2.foldl (fun acc2 nm =>
      let clean := strip_json_suffix nm
      (dictInsert clean p.1 acc2.1,
        if clean ∈ acc2.2 then acc2.2 else acc2.2 ++ [clean])) acc) ([], [])

/-- sync.py `load_folder_mapping`.  `folders_file`/`folders` are the two
optional config keys; `read_folders_file` abstracts path resolution relative
to the config file plus existence check plus `json.load` (`none` when the
file does not exist, in which case only a warning is emitted). -/
def load_folder_mapping (folders_file : Option String)
    (folders : Option (List (String × List String)))
    (read_folders_file : String → Option (List (String × List String))) :
    List (String × String) × List String :=
  let folder_mapping :=
    match folders_file with
    | some p =>
      match read_folders_file p with
      | some m => m
      | none => []
    | none =>
      match folders with
      | some m => m
      | none => []
  build_reverse_mapping folder_mapping

/-- sync.py `get_playlist_folder`. -/
def get_playlist_folder (playlist_name : String) (folder_mapping : List (String × String)) :
    Option String :=
  dictLookup playlist_name folder_mapping

/-! ## sync.py run_sync -/

/-- One playlist to sync: id, url and display name (the model takes the
resolved list as input; URL parsing and name lookup against the remote
catalog happen before the part of run_sync modelled here). -/
structure RemotePlaylist where
  id : String
  url : String
  name : String
deriving DecidableEq

/-- The per-playlist entry of the `actions` dict computed by the planner. -/
structure SyncAction where
  playlist_name : String
  folder : Option String
  playlist_dir : String
  songs : List (String × Track)
  to_add : List String
  to_remove : List String
  needs_download : List String
  needs_copy : List String
deriving DecidableEq

/-- `{t["spotify_id"]: t for t in tracks}`. -/
def build_song_dict (tracks : List Track) : List (String × Track) :=
  tracks.foldl (fun d t => dictInsert t.spotify_id t d) []

/-- Registration of one playlist in the manifest (run_sync first loop):
insert a fresh record for unseen playlists, otherwise refresh `folder`. -/
def register_playlist (folder_mapping : List (String × String)) (m : Manifest)
    (p : RemotePlaylist) : Manifest :=
  let folder := get_playlist_folder p.name folder_mapping
  let fresh : PlaylistRecord :=
    { name := p.name, url := p.url, folder := folder, songs := [], last_synced := none }
  if dictMem p.id m.playlists then
    { m with playlists :=
        dictUpdate p.id (fun r => { r with folder := folder }) m.playlists }
  else
    { m with playlists := dictInsert p.id fresh m.playlists }

def register_all (folder_mapping : List (String × String)) (m : Manifest)
    (ps : List RemotePlaylist) : Manifest :=
  ps.foldl (register_playlist folder_mapping) m

def build_playlist_songs (fetch : String → List Track) (ps : List RemotePlaylist) :
    List (String × List (String × Track)) :=
  ps.foldl (fun d p => dictInsert p.id (build_song_dict (fetch p.id)) d) []

def build_playlist_names (ps : List RemotePlaylist) : List (String × String) :=
  ps.foldl (fun d p => dictInsert p.id p.name d) []

/-- The planner body for one playlist (run_sync second loop): membership
diff against the manifest record, partitioned by cache presence. -/
def compute_action (output_dir : String) (folder_mapping : List (String × String))
    (m : Manifest) (playlist_name playlist_id : String)
    (songs : List (String × Track)) : SyncAction :=
  let folder := get_playlist_folder playlist_name folder_mapping
  let playlist_dir :=
    match folder with
    | some f => output_dir ++ "/" ++ sanitize f "" ++ "/" ++ sanitize playlist_name ""
    | none => output_dir ++ "/" ++ sanitize playlist_name ""
  let prev_songs :=
    (match dictLookup playlist_id m.playlists with
      | some r => r.songs
      | none => []).dedup
  let curr_songs := (songs.map Prod.fst).dedup
  let to_add := curr_songs.filter (fun sid => decide (sid ∉ prev_songs))
  let to_remove := prev_songs.filter (fun sid => decide (sid ∉ curr_songs))
  { playlist_name := playlist_name
    folder := folder
    playlist_dir := playlist_dir
    songs := songs
    to_add := to_add
    to_remove := to_remove
    needs_download := to_add.filter (fun sid => !(dictMem sid m.cache))
    needs_copy := to_add.filter (fun sid => dictMem sid m.cache) }

def compute_actions (output_dir : String) (folder_mapping : List (String × String))
    (m : Manifest) (playlist_names : List (String × String))
    (playlist_songs : List (String × List (String × Track))) :
    List (String × SyncAction) :=
  playlist_songs.foldl (fun acc pr =>
    dictInsert pr.1
      (compute_action output_dir folder_mapping m ((dictLookup pr.1 playlist_names).getD "")
        pr.1 pr.2) acc) []

/-- Result of sync.py `download_to_cache_batch`: the success dict
`spotify_id -> filename`, the `to_download` list actually handed to the
collaborator, and the final cache-directory state. -/
structure BatchResult where
  results : List (String × String)
  to_download : List (String × Track × String)
  st : DLState

/-- The first loop of `download_to_cache_batch`: partition the batch into
the already-cached results dict and the `to_download` list (each item with
its derived filename). -/
def batch_partition (cache_dir : String) (st0 : DLState) (tracks : List (String × Track)) :
    List (String × String) × List (String × Track × String) :=
  tracks.foldl
    (fun (acc : List (String × String) × List (String × Track × String)) p =>
      let filename := generate_filename p.2 200 ++ ".mp3"
      if (cache_dir ++ "/" ++ filename) ∈ st0.mp3s then (dictInsert p.1 filename acc.1, acc.2)
      else (acc.1, acc.2 ++ [(p.1, p.2, filename)])) ([], [])

/-- The final loop of `download_to_cache_batch`: record every to-download
track whose derived file now exists. -/
def batch_collect_results (cache_dir : String) (st1 : DLState)
    (to_download : List (String × Track × String)) (results0 : List (String × String)) :
    List (String × String) :=
  to_download.foldl (fun r q =>
    if (cache_dir ++ "/" ++ q.2.2) ∈ st1.mp3s then dictInsert q.1 q.2.2 r else r) results0

/-- sync.py `download_to_cache_batch`: split the batch into already-cached
tracks and tracks to download, hand the latter to
`download_songs`/`find_and_download_songs` (single-core path), then record
as successful every track whose derived file exists afterwards. -/
def download_to_cache_batch (cache_dir : String) (cfg : DLConfig)
    (search : String → Option String) (dl : String → Bool) (convert : String → Bool)
    (st0 : DLState) (tracks : List (String × Track)) : BatchResult :=
  let part := batch_partition cache_dir st0 tracks
  if part.2.isEmpty then { results := part.1, to_download := [], st := st0 }
  else
    let entries := part.2.map (fun q =>
      ({ name := q.2.1.name, artist := q.2.1.artist, save_path := cache_dir } : DLEntry))
    let st1 := find_and_download_songs cfg search dl convert entries st0
    { results := batch_collect_results cache_dir st1 part.2 part.1,
      to_download := part.2, st := st1 }

/-- Phase-1 manifest update of run_sync: a CacheEntry per successful
download (`downloaded_at` is the wall clock `now`; a freshly downloaded
entry has no `reconciled` key). -/
def apply_downloads (now : String) (all_downloads : List (String × Track))
    (results : List (String × String)) (m : Manifest) : Manifest :=
  results.foldl (fun acc pr =>
    match all_downloads.find? (fun q => q.1 == pr.1) with
    | some q =>
      let e : CacheEntry :=
        { name := q.2.name, artist := q.2.artist, filename := pr.2,
          downloaded_at := now, reconciled := none }
      { acc with cache := dictInsert pr.1 e acc.cache }
    | none => acc) m

/-- State threaded through run_sync phase 2: the manifest, the contents of
every playlist directory (path-indexed), and the log of copies and removals
performed, as `(playlist_id, filename)` pairs. -/
structure ExecState where
  manifest : Manifest
  dirs : String → List String
  copies : List (String × String)
  removals : List (String × String)

/-- Phase-2 copy loop body: copy the cached file of a `to_add` track into
the playlist directory when the source exists and the destination does not. -/
def copy_step (cache_dir dir pid : String) (cacheMap : List (String × CacheEntry))
    (mp3s : List String) (es : ExecState) (sid : String) : ExecState :=
  match dictLookup sid cacheMap with
  | none => es
  | some e =>
    if (cache_dir ++ "/" ++ e.filename) ∈ mp3s ∧ ¬ e.filename ∈ es.dirs dir then
      { es with
        dirs := fun d => if d = dir then e.filename :: es.dirs d else es.dirs d
        copies := es.copies ++ [(pid, e.filename)] }
    else es

/-- Phase-2 removal loop body: unlink the file of a `to_remove` track from
the playlist directory if present. -/
def remove_step (dir pid : String) (cacheMap : List (String × CacheEntry))
    (es : ExecState) (sid : String) : ExecState :=
  match dictLookup sid cacheMap with
  | none => es
  | some e =>
    if e.filename ∈ es.dirs dir then
      { es with
        dirs := fun d => if d = dir then (es.dirs d).erase e.filename else es.dirs d
        removals := es.removals ++ [(pid, e.filename)] }
    else es

/-- Phase 2 for one playlist: copies, removals, then the per-playlist
manifest commit (`songs` replaced by the full current membership,
`last_synced` stamped). -/
def run_playlist_phase2 (cache_dir : String) (cacheMap : List (String × CacheEntry))
    (mp3s : List String) (now : String) (es : ExecState) (pa : String × SyncAction) :
    ExecState :=
  let es1 := pa.2.to_add.foldl (copy_step cache_dir pa.2.playlist_dir pa.1 cacheMap mp3s) es
  let es2 := pa.2.to_remove.foldl (remove_step pa.2.playlist_dir pa.1 cacheMap) es1
  let newPlaylists :=
    dictUpdate pa.1
      (fun r => { r with songs := pa.2.songs.map Prod.fst, last_synced := some now })
      es2.manifest.playlists
  { es2 with manifest := { es2.manifest with playlists := newPlaylists } }

/-- Everything run_sync produced: the manifest as last saved, the plan, the
batch handed to the collaborator, the final cache-directory state, and the
copies/removals performed. -/
structure SyncResult where
  manifest : Manifest
  actions : List (String × SyncAction)
  planned_downloads : List (String × Track)
  attempted_downloads : List (String × Track × String)
  dl_state : DLState
  copies : List (String × String)
  removals : List (String × String)
  dirs : String → List String

/-- The truncation `if limit and len(l) > limit: l = l[:limit]` applied to
both the playlist list and the download list (0 means no limit). -/
def apply_limit (limit : Nat) (l : List σ) : List σ :=
  if limit ≠ 0 ∧ l.length > limit then l.take limit else l

/-- run_sync initialisation of `playlist_url_cache` when the key is absent. -/
def url_cache_init (m : Manifest) : Manifest :=
  match m.playlist_url_cache with
  | some _ => m
  | none => { m with playlist_url_cache := some [] }

/-- Phase-1 collection: all `needs_download` tracks across all playlists
into one global batch. -/
def sync_all_downloads (actions : List (String × SyncAction)) : List (String × Track) :=
  actions.foldl (fun acc pa =>
    acc ++ pa.2.needs_download.filterMap
      (fun sid => (dictLookup sid pa.2.songs).map (fun t => (sid, t)))) []

/-- Phase 1 of run_sync: batch download (if anything needs downloading) and
the manifest update with the successful results; returns the manifest, the
`to_download` list handed to the collaborator and the cache-dir state. -/
def run_phase1 (cache_dir : String) (cfg : DLConfig) (search : String → Option String)
    (dl : String → Bool) (convert : String → Bool) (st0 : DLState) (now : String)
    (m1 : Manifest) (all_downloads : List (String × Track)) :
    Manifest × List (String × Track × String) × DLState :=
  if all_downloads.isEmpty then (m1, [], st0)
  else
    let br := download_to_cache_batch cache_dir cfg search dl convert st0 all_downloads
    (apply_downloads now all_downloads br.results m1, br.to_download, br.st)

/-- sync.py `run_sync` from the point where the list of playlists to sync is
known (config loading, credential checks and remote name resolution are
upstream of this slice; `fetch` abstracts `fetch_tracks`).  The source
fetches, registers and plans inside per-playlist loops whose iterations are
independent, so the model runs each stage as its own pass with identical
results.  Single-core download path (`multi_core <= 1`); `dry_run` returns
the plan and persists nothing. -/
def run_sync (m0 : Manifest) (playlists_to_sync : List RemotePlaylist)
    (fetch : String → List Track) (output_dir : String)
    (folder_mapping : List (String × String)) (cfg : DLConfig)
    (search : String → Option String) (dl : String → Bool) (convert : String → Bool)
    (st0 : DLState) (dirs0 : String → List String) (now : String)
    (dry_run : Bool) (limit : Nat) (limit_playlists : Nat) : SyncResult :=
  let cache_dir := output_dir ++ "/" ++ ".cache"
  let mInit := url_cache_init m0
  let pls := apply_limit limit_playlists playlists_to_sync
  let playlist_songs := build_playlist_songs fetch pls
  let playlist_names := build_playlist_names pls
  let m1 := register_all folder_mapping mInit pls
  let actions := compute_actions output_dir folder_mapping m1 playlist_names playlist_songs
  if dry_run then
    { manifest := m0, actions := actions, planned_downloads := [],
      attempted_downloads := [], dl_state := st0, copies := [], removals := [],
      dirs := dirs0 }
  else
    let all_downloads := apply_limit limit (sync_all_downloads actions)
    let phase1 := run_phase1 cache_dir cfg search dl convert st0 now m1 all_downloads
    let es := actions.foldl (run_playlist_phase2 cache_dir phase1.1.cache phase1.2.2.mp3s now)
      { manifest := phase1.1, dirs := dirs0, copies := [], removals := [] }
    { manifest := es.manifest, actions := actions, planned_downloads := all_downloads,
      attempted_downloads := phase1.2.1, dl_state := phase1.2.2, copies := es.copies,
      removals := es.removals, dirs := es.dirs }

/-! ## reconcile_cache.py -/

/-- Lexicographic comparison on scalar values (the order Python `sorted`
uses on strings). -/
def charListLe : List Char → List Char → Bool
  | [], _ => true
  | _ :: _, [] => false
  | a :: as, b :: bs =>
    if a.toNat < b.toNat then true
    else if b.toNat < a.toNat then false
    else charListLe as bs

def pyStrLe (a b : String) : Bool := charListLe a.toList b.toList

def insertSorted (x : String) : List String → List String
  | [] => [x]
  | y :: ys => if pyStrLe x y then x :: y :: ys else y :: insertSorted x ys

/-- Model of Python `sorted` on a list of strings. -/
def sortStrings (l : List String) : List String :=
  l.foldr insertSorted []

/-- Outcome of `reconcile`: the untracked filenames, the matched count, the
unmatched listing, the manifest as left by the run and whether
`save_manifest` was invoked. -/
structure ReconcileResult where
  untracked : List String
  matched : Nat
  unmatched : List String
  manifest : Manifest
  saved : Bool

/-- reconcile_cache.py `reconcile` past config/cache-dir loading:
`cache_mp3s` abstracts the `*.mp3` glob of the cache directory, `lookup` the
`build_track_lookup` result (filename to `(spotify_id, track)`).  Untracked
filenames are the cache files minus the filenames referenced by cache
entries; when none, the function returns with no changes; otherwise each
untracked filename is matched by exact equality against the lookup, matches
adding a reconciled CacheEntry keyed by the track id (unless `dry_run`),
non-matches being reported unmatched. -/
def reconcile_step (lookup : List (String × (String × Track))) (dry_run : Bool)
    (now : String) (acc : Manifest × Nat × List String) (filename : String) :
    Manifest × Nat × List String :=
  match dictLookup filename lookup with
  | some q =>
    let e : CacheEntry :=
      { name := q.2.name, artist := q.2.artist, filename := filename,
        downloaded_at := now, reconciled := some true }
    (if dry_run then acc.1 else { acc.1 with cache := dictInsert q.1 e acc.1.cache },
      acc.2.1 + 1, acc.2.2)
  | none => (acc.1, acc.2.1, acc.2.2 ++ [filename])

def reconcile (manifest : Manifest) (cache_mp3s : List String)
    (lookup : List (String × (String × Track))) (dry_run : Bool) (now : String) :
    ReconcileResult :=
  let tracked_filenames := manifest.cache.map (fun pr => pr.2.filename)
  let untracked := cache_mp3s.dedup.filter (fun f => decide (f ∉ tracked_filenames))
  if untracked.isEmpty then
    { untracked := untracked, matched := 0, unmatched := [], manifest := manifest,
      saved := false }
  else
    let res := (sortStrings untracked).foldl (reconcile_step lookup dry_run now)
      (manifest, 0, [])
    { untracked := untracked, matched := res.2.1, unmatched := res.2.2,
      manifest := res.1, saved := !dry_run }

/-! ## C8: multi-core partitioning -/

theorem cpu_count_list_length (n c : Nat) : (cpu_count_list n c).length = c := by
  simp [cpu_count_list]

theorem sum_range_if (c k q : Nat) :
    ((List.range c).map (fun i => if i < k then q + 1 else q)).sum = c * q + min k c := by
  induction c with
  | zero => simp
  | succ c ih =>
    rw [List.range_succ, List.map_append, List.sum_append, ih]
    simp only [List.map_cons, List.map_nil, List.sum_cons, List.sum_nil]
    rw [Nat.succ_mul]
    by_cases hc : c < k <;> simp [hc] <;> omega

theorem cpu_count_list_sum (n c : Nat) (h : 1 ≤ c) : (cpu_count_list n c).sum = n := by
  unfold cpu_count_list
  rw [sum_range_if]
  have h1 : n % c < c := Nat.mod_lt n h
  have h2 : c * (n / c) + n % c = n := Nat.div_add_mod n c
  omega

theorem file_segments_go_join (lines : List α) (counts : List Nat) :
    ∀ idx : Nat, (file_segments_go lines idx counts).flatten = (lines.drop idx).take counts.sum := by
  induction counts with
  | nil => intro idx; simp [file_segments_go]
  | cons c cs ih =>
    intro idx
    simp only [file_segments_go, List.flatten_cons, ih (idx + c), List.sum_cons]
    rw [List.take_add, List.drop_drop]

theorem file_segments_go_length (lines : List α) (counts : List Nat) (idx : Nat) :
    (file_segments_go lines idx counts).length = counts.length := by
  induction counts generalizing idx with
  | nil => rfl
  | cons c cs ih => simp [file_segments_go, ih]

theorem file_segments_go_get (lines : List α) (counts : List Nat) :
    ∀ (idx : Nat), idx + counts.sum ≤ lines.length →
      ∀ (i : Nat) (hi : i < (file_segments_go lines idx counts).length),
        ((file_segments_go lines idx counts).get ⟨i, hi⟩).length =
          counts.get ⟨i, by rwa [← file_segments_go_length lines counts idx]⟩ := by
  induction counts with
  | nil => intro idx _ i hi; simp [file_segments_go] at hi
  | cons c cs ih =>
    intro idx hsum i hi
    cases i with
    | zero =>
      simp only [file_segments_go, List.get]
      rw [List.length_take, List.length_drop]
      simp only [List.sum_cons] at hsum
      simp
      omega
    | succ j =>
      simp only [file_segments_go, List.get]
      simp only [List.sum_cons] at hsum
      exact ih (idx + c) (by omega) j _

/-- C8 (confirmed): for every pending-download list of `n` items and every
worker count `c >= 1`, the partitioner of
`multicore_find_and_download_songs` produces exactly `c` contiguous segments
whose concatenation is the original list, each of `n / c` items with the
first `n % c` workers receiving one extra item. -/
theorem multicore_partition_spec (lines : List α) (c : Nat) (h : 1 ≤ c) :
    (multicore_segments lines c).length = c ∧
    (multicore_segments lines c).flatten = lines ∧
    ∀ (i : Nat) (hi : i < (multicore_segments lines c).length),
      ((multicore_segments lines c).get ⟨i, hi⟩).length =
        lines.length / c + (if i < lines.length % c then 1 else 0) := by
  unfold multicore_segments file_segments
  refine ⟨?_, ?_, ?_⟩
  · rw [file_segments_go_length, cpu_count_list_length]
  · rw [file_segments_go_join, cpu_count_list_sum lines.length c h]
    simp
  · intro i hi
    have hsum : 0 + (cpu_count_list lines.length c).sum ≤ lines.length := by
      rw [cpu_count_list_sum lines.length c h]; omega
    rw [file_segments_go_get lines (cpu_count_list lines.length c) 0 hsum i hi]
    have hic : i < c := by
      have := hi
      rw [file_segments_go_length, cpu_count_list_length] at this
      exact this
    simp [cpu_count_list, List.get_eq_getElem]
    split <;> omega

theorem multicore_partition_spec_witness :
    (multicore_segments [10, 20, 30, 40, 50] 2).length = 2 ∧
    (multicore_segments [10, 20, 30, 40, 50] 2).flatten = [10, 20, 30, 40, 50] := by
  have h := multicore_partition_spec [10, 20, 30, 40, 50] 2 (by omega)
  exact ⟨h.1, h.2.1⟩

/-! ## C4: atomic manifest persistence -/

theorem string_append_cancel (s a b : String) (h : s ++ a = s ++ b) : a = b := by
  have hd := congrArg String.data h
  simp only [String.data_append] at hd
  exact String.ext (List.append_cancel_left hd)

/-- C4 (confirmed): `save_manifest` writes to a temporary file in the same
directory and renames it over the target; on every failure after the
temporary file is created the temporary file is removed, the error is
propagated and the previously persisted manifest (indeed, every file) is
byte-for-byte unchanged; on success the manifest path holds exactly the new
content and nothing else changed. -/
theorem save_manifest_atomic (fs : String → Option String)
    (output_dir tmp_base content : String) (failure : Option SaveFailure)
    (hfresh : fs (output_dir ++ "/" ++ tmp_base) = none)
    (hne : tmp_base ≠ MANIFEST_FILENAME) :
    (failure ≠ none →
      (save_manifest fs output_dir tmp_base content failure).2 = true ∧
      (save_manifest fs output_dir tmp_base content failure).1
        (output_dir ++ "/" ++ tmp_base) = none ∧
      ∀ p, (save_manifest fs output_dir tmp_base content failure).1 p = fs p) ∧
    (failure = none →
      (save_manifest fs output_dir tmp_base content failure).2 = false ∧
      (save_manifest fs output_dir tmp_base content failure).1
        (output_dir ++ "/" ++ MANIFEST_FILENAME) = some content ∧
      (save_manifest fs output_dir tmp_base content failure).1
        (output_dir ++ "/" ++ tmp_base) = none ∧
      ∀ p, p ≠ output_dir ++ "/" ++ MANIFEST_FILENAME →
        (save_manifest fs output_dir tmp_base content failure).1 p = fs p) := by
  have hpathne : output_dir ++ "/" ++ tmp_base ≠ output_dir ++ "/" ++ MANIFEST_FILENAME := by
    intro hcontra
    exact hne (string_append_cancel (output_dir ++ "/") tmp_base MANIFEST_FILENAME hcontra)
  constructor
  · intro hf
    cases failure with
    | none => exact absurd rfl hf
    | some f =>
      cases f <;>
        refine ⟨rfl, by simp [save_manifest, fsSet], ?_⟩ <;>
        · intro p
          by_cases hp : p = output_dir ++ "/" ++ tmp_base <;>
            simp [save_manifest, fsSet, hp, hfresh]
  · intro hf
    subst hf
    refine ⟨rfl, by simp [save_manifest, fsSet, hpathne], by simp [save_manifest, fsSet, Ne.symm hpathne, hpathne], ?_⟩
    intro p hp
    by_cases hp2 : p = output_dir ++ "/" ++ tmp_base <;>
      simp [save_manifest, fsSet, hp, hp2, hfresh, hpathne]

theorem save_manifest_atomic_witness :
    ((save_manifest (fun _ => none) "out" "tmp123.tmp" "data"
        (some SaveFailure.duringReplace)).1 ("out/" ++ MANIFEST_FILENAME) = none) ∧
    ((save_manifest (fun _ => none) "out" "tmp123.tmp" "data"
        (some SaveFailure.duringReplace)).2 = true) := by
  have h := (save_manifest_atomic (fun _ => none) "out" "tmp123.tmp" "data"
    (some SaveFailure.duringReplace) rfl (by decide)).1 (by simp)
  exact ⟨(h.2.2 ("out/" ++ MANIFEST_FILENAME)).trans rfl, h.1⟩

/-! ## C9: load_manifest -/

/-- C9 counterexample: the fresh manifest returned when no file exists does
not contain the `playlist_url_cache` map of the manifest data model at all —
the key is absent (and later initialised by run_sync), not an empty map. -/
theorem load_manifest_url_cache_absent :
    (load_manifest none).playlist_url_cache ≠ some [] ∧
    (load_manifest none).playlist_url_cache = none := by
  exact ⟨by decide, rfl⟩

/-- C9 (corrected): loading returns the persisted document when the manifest
file exists, and otherwise (without failing) the fresh structure with
`version = 1`, empty `cache` and `playlists` maps, and no
`playlist_url_cache` key (that map is absent rather than empty; run_sync
initialises it to empty before use). -/
theorem load_manifest_spec (persisted : Option Manifest) :
    (∀ m, persisted = some m → load_manifest persisted = m) ∧
    (persisted = none →
      load_manifest persisted =
        { version := 1, cache := [], playlists := [], playlist_url_cache := none }) := by
  constructor
  · intro m hm; rw [hm]; rfl
  · intro hm; rw [hm]; rfl

theorem load_manifest_spec_witness :
    load_manifest none =
      { version := 1, cache := [], playlists := [], playlist_url_cache := none } :=
  (load_manifest_spec none).2 rfl

/-! ## C10: folders_file shadows the inline folders mapping -/

/-- C10 (confirmed): when the config has a `folders_file` key, the inline
`folders` mapping is ignored entirely (the result does not depend on it);
in particular when the referenced file does not exist the resulting
reverse mapping and set of playlist names are both empty. -/
theorem folders_file_shadows_inline (p : String)
    (read_folders_file : String → Option (List (String × List String))) :
    (∀ f₁ f₂ : Option (List (String × List String)),
      load_folder_mapping (some p) f₁ read_folders_file =
        load_folder_mapping (some p) f₂ read_folders_file) ∧
    (read_folders_file p = none →
      ∀ folders, load_folder_mapping (some p) folders read_folders_file = ([], [])) := by
  constructor
  · intro f₁ f₂; rfl
  · intro hmiss folders
    simp [load_folder_mapping, hmiss, build_reverse_mapping]

theorem folders_file_shadows_inline_witness :
    load_folder_mapping (some "folders.json")
      (some [("Chill", ["A.json", "B"])]) (fun _ => none) = ([], []) :=
  (folders_file_shadows_inline "folders.json" (fun _ => none)).2 rfl
    (some [("Chill", ["A.json", "B"])])

/-! ## C2: planner diff correctness -/

/-- Concrete manifest for the spec example: previous membership {a, b, c}. -/
def c2_manifest : Manifest :=
  { version := 1, cache := [],
    playlists := [("p",
      { name := "P", url := "u", folder := none, songs := ["a", "b", "c"],
        last_synced := none })],
    playlist_url_cache := none }

/-- Concrete remote membership for the spec example: {b, c, d}. -/
def c2_songs : List (String × Track) :=
  [("b", { spotify_id := "b", name := "nb", artist := "rb" }),
   ("c", { spotify_id := "c", name := "nc", artist := "rc" }),
   ("d", { spotify_id := "d", name := "nd", artist := "rd" })]

/-- C2 (confirmed): the planner computes `to_add` as exactly
`songs_now - songs_prev` and `to_remove` as exactly `songs_prev - songs_now`
(as sets), where `songs_prev` is the playlist record's membership in the
manifest and `songs_now` the keys of the fetched track dict; and on the
spec's example prev = {a,b,c}, now = {b,c,d} the plan is to_add = {d},
to_remove = {a}. -/
theorem sync_planner_diff_correct :
    (∀ (output_dir : String) (folder_mapping : List (String × String)) (m : Manifest)
        (playlist_name playlist_id : String) (songs : List (String × Track)),
      (compute_action output_dir folder_mapping m playlist_name playlist_id songs).to_add.toFinset
          = (songs.map Prod.fst).toFinset \
            ((dictLookup playlist_id m.playlists).elim [] PlaylistRecord.songs).toFinset ∧
      (compute_action output_dir folder_mapping m playlist_name playlist_id
            songs).to_remove.toFinset
          = ((dictLookup playlist_id m.playlists).elim [] PlaylistRecord.songs).toFinset \
            (songs.map Prod.fst).toFinset) ∧
    ((compute_action "o" [] c2_manifest "P" "p" c2_songs).to_add.toFinset
        = ({"d"} : Finset String) ∧
     (compute_action "o" [] c2_manifest "P" "p" c2_songs).to_remove.toFinset
        = ({"a"} : Finset String)) := by
  constructor
  · intro output_dir folder_mapping m playlist_name playlist_id songs
    cases hlook : dictLookup playlist_id m.playlists with
    | none =>
      constructor <;> · ext x; simp [compute_action, hlook]
    | some r =>
      constructor <;> · ext x; simp [compute_action, hlook]
  · constructor <;> decide

/-! ## C6: filename derivation -/

theorem generate_filename_eq (track : Track) (mb : Nat) :
    generate_filename track mb =
      if (utf8Encode (default_filename track.name track.artist).toList).length > mb then
        (rstripChars (decodeIgnore
          ((utf8Encode (default_filename track.name track.artist).toList).take mb))).asString
      else default_filename track.name track.artist := rfl

/-- C6 (confirmed; `sanitize` modelled from the spec): filename derivation is
a pure function of (name, artist); the UTF-8 length of the result never
exceeds 200 bytes for the 200-byte limit every caller uses; and when
truncation occurs the result is the longest valid character sequence whose
encoding fits in 200 bytes (a truncated trailing multi-byte sequence is
dropped, never emitted) with trailing whitespace stripped. -/
theorem generate_filename_spec :
    (∀ (t₁ t₂ : Track) (mb : Nat), t₁.name = t₂.name → t₁.artist = t₂.artist →
      generate_filename t₁ mb = generate_filename t₂ mb) ∧
    (∀ t : Track, utf8Len (generate_filename t 200).toList ≤ 200) ∧
    (∀ t : Track, utf8Len (default_filename t.name t.artist).toList > 200 →
      generate_filename t 200 =
        (rstripChars (takeBytes 200 (default_filename t.name t.artist).toList)).asString ∧
      (∃ r, (default_filename t.name t.artist).toList =
        takeBytes 200 (default_filename t.name t.artist).toList ++ r) ∧
      ∀ c, (generate_filename t 200).toList.getLast? = some c → c.isWhitespace = false) := by
  refine ⟨?_, ?_, ?_⟩
  · intro t₁ t₂ mb h1 h2
    simp only [generate_filename, h1, h2]
  · intro t
    rw [generate_filename_eq]
    split_ifs with h
    · rw [toList_asString]
      calc utf8Len (rstripChars (decodeIgnore
              ((utf8Encode (default_filename t.name t.artist).toList).take 200)))
          ≤ utf8Len (decodeIgnore
              ((utf8Encode (default_filename t.name t.artist).toList).take 200)) :=
            utf8Len_le_of_sublist _ _ (rstripChars_sublist _)
        _ = utf8Len (takeBytes 200 (default_filename t.name t.artist).toList) := by
            rw [decodeIgnore_encode_take]
        _ ≤ 200 := takeBytes_len_le _ 200
    · rw [← utf8Encode_length]
      omega
  · intro t h
    have hgt : (utf8Encode (default_filename t.name t.artist).toList).length > 200 := by
      rw [utf8Encode_length]; exact h
    constructor
    · rw [generate_filename_eq, if_pos hgt, decodeIgnore_encode_take]
    constructor
    · exact takeBytes_isInitial _ 200
    · intro c hc
      rw [generate_filename_eq, if_pos hgt, toList_asString] at hc
      exact rstripChars_no_trailing_ws _ c hc

/-- A track whose derived filename exceeds 200 UTF-8 bytes. -/
def c6_track : Track :=
  { spotify_id := "x", name := (List.replicate 120 'é').asString, artist := "a" }

set_option maxRecDepth 10000 in
theorem generate_filename_spec_witness :
    utf8Len (default_filename c6_track.name c6_track.artist).toList > 200 ∧
    generate_filename c6_track 200 =
      (rstripChars (takeBytes 200 (default_filename c6_track.name c6_track.artist).toList)).asString := by
  refine ⟨by decide, ?_⟩
  exact (generate_filename_spec.2.2 c6_track (by decide)).1

/-! ## Dictionary infrastructure for the run_sync proofs -/

section DictLemmas

variable {α : Type} {β : Type} {γ : Type} {σ : Type} [DecidableEq α]

theorem mem_of_dictLookup (k : α) (v : β) (l : List (α × β)) (h : dictLookup k l = some v) :
    (k, v) ∈ l := by
  induction l with
  | nil => simp [dictLookup] at h
  | cons hd t ih =>
    obtain ⟨k₀, v₀⟩ := hd
    by_cases hk : k = k₀
    · subst hk
      simp [dictLookup] at h
      subst h
      exact List.mem_cons_self _ _
    · simp [dictLookup, hk] at h
      exact List.mem_cons_of_mem _ (ih h)

theorem dictLookup_eq_none_of_not_mem_keys (k : α) (l : List (α × β))
    (h : k ∉ l.map Prod.fst) : dictLookup k l = none := by
  induction l with
  | nil => rfl
  | cons hd t ih =>
    obtain ⟨k₀, v₀⟩ := hd
    simp only [List.map_cons, List.mem_cons, not_or] at h
    simp [dictLookup, h.1, ih h.2]

theorem dictLookup_of_mem (k : α) (v : β) (l : List (α × β))
    (hnd : (l.map Prod.fst).Nodup) (h : (k, v) ∈ l) : dictLookup k l = some v := by
  induction l with
  | nil => simp at h
  | cons hd t ih =>
    obtain ⟨k₀, v₀⟩ := hd
    simp only [List.map_cons, List.nodup_cons] at hnd
    rcases List.mem_cons.mp h with heq | hmem
    · cases heq
      simp [dictLookup]
    · have hk : k ≠ k₀ := by
        intro he
        subst he
        exact hnd.1 (List.mem_map_of_mem Prod.fst hmem)
      simp [dictLookup, hk]
      exact ih hnd.2 hmem

theorem mem_keys_dictInsert (x k : α) (v : β) (l : List (α × β)) :
    x ∈ (dictInsert k v l).map Prod.fst ↔ x = k ∨ x ∈ l.map Prod.fst := by
  induction l with
  | nil => simp [dictInsert]
  | cons hd t ih =>
    obtain ⟨k₀, v₀⟩ := hd
    by_cases hk : k = k₀
    · subst hk
      simp [dictInsert]
    · simp [dictInsert, hk, ih]
      tauto

theorem nodup_keys_dictInsert (k : α) (v : β) (l : List (α × β))
    (hnd : (l.map Prod.fst).Nodup) : ((dictInsert k v l).map Prod.fst).Nodup := by
  induction l with
  | nil => simp [dictInsert]
  | cons hd t ih =>
    obtain ⟨k₀, v₀⟩ := hd
    simp only [List.map_cons, List.nodup_cons] at hnd
    by_cases hk : k = k₀
    · subst hk
      have he : dictInsert k v ((k, v₀) :: t) = (k, v) :: t := by simp [dictInsert]
      rw [he, List.map_cons, List.nodup_cons]
      exact ⟨hnd.1, hnd.2⟩
    · simp only [dictInsert, if_neg hk, List.map_cons, List.nodup_cons]
      refine ⟨?_, ih hnd.2⟩
      rw [mem_keys_dictInsert]
      push_neg
      exact ⟨fun he => hk he.symm, hnd.1⟩

theorem mem_dictInsert (k' k : α) (v' v : β) (l : List (α × β))
    (h : (k', v') ∈ dictInsert k v l) : (k' = k ∧ v' = v) ∨ (k', v') ∈ l := by
  induction l with
  | nil => simp [dictInsert] at h; tauto
  | cons hd t ih =>
    obtain ⟨k₀, v₀⟩ := hd
    by_cases hk : k = k₀
    · subst hk
      simp [dictInsert] at h
      rcases h with h | h
      · exact Or.inl ⟨h.1, h.2⟩
      · exact Or.inr (List.mem_cons_of_mem _ h)
    · simp only [dictInsert, if_neg hk] at h
      rcases List.mem_cons.mp h with h | h
      · exact Or.inr (h ▸ List.mem_cons_self _ _)
      · rcases ih h with h | h
        · exact Or.inl h
        · exact Or.inr (List.mem_cons_of_mem _ h)

theorem foldl_dictInsert_nodup (key : σ → α) (val : σ → β) (l : List σ) :
    ∀ acc : List (α × β), (acc.map Prod.fst).Nodup →
      ((l.foldl (fun acc s => dictInsert (key s) (val s) acc) acc).map Prod.fst).Nodup := by
  induction l with
  | nil => intro acc h; exact h
  | cons s t ih =>
    intro acc h
    exact ih _ (nodup_keys_dictInsert (key s) (val s) acc h)

theorem mem_foldl_dictInsert (key : σ → α) (val : σ → β) (l : List σ) :
    ∀ (acc : List (α × β)) (k : α) (v : β),
      (k, v) ∈ l.foldl (fun acc s => dictInsert (key s) (val s) acc) acc →
      (k, v) ∈ acc ∨ ∃ s ∈ l, key s = k ∧ v = val s := by
  induction l with
  | nil => intro acc k v h; exact Or.inl h
  | cons s t ih =>
    intro acc k v h
    rcases ih _ k v h with h | ⟨s', hs', hk, hv⟩
    · rcases mem_dictInsert k (key s) v (val s) acc h with ⟨hk, hv⟩ | h
      · exact Or.inr ⟨s, List.mem_cons_self _ _, hk.symm, hv⟩
      · exact Or.inl h
    · exact Or.inr ⟨s', List.mem_cons_of_mem _ hs', hk, hv⟩

theorem foldl_dictInsert_lookup_assoc (g : α → β → γ) (l : List (α × β))
    (hnd : (l.map Prod.fst).Nodup) (k : α) :
    ∀ acc, dictLookup k (l.foldl (fun acc pr => dictInsert pr.1 (g pr.1 pr.2) acc) acc) =
      match dictLookup k l with
      | some v => some (g k v)
      | none => dictLookup k acc := by
  induction l with
  | nil => intro acc; simp [dictLookup]
  | cons hd t ih =>
    obtain ⟨k₀, v₀⟩ := hd
    simp only [List.map_cons, List.nodup_cons] at hnd
    intro acc
    by_cases hk : k = k₀
    · subst hk
      rw [List.foldl_cons, ih hnd.2]
      have hnone : dictLookup k t = none :=
        dictLookup_eq_none_of_not_mem_keys k t hnd.1
      simp [dictLookup, hnone, dictLookup_dictInsert_self]
    · rw [List.foldl_cons, ih hnd.2]
      cases htl : dictLookup k t with
      | some v => simp [dictLookup, hk, htl]
      | none => simp [dictLookup, hk, htl, dictLookup_dictInsert_ne _ _ _ _ hk]

theorem dictMem_dictInsert_of_dictMem (k k' : α) (v : β) (l : List (α × β))
    (h : dictMem k l = true) : dictMem k (dictInsert k' v l) = true := by
  by_cases hk : k = k'
  · subst hk
    simp [dictMem, dictLookup_dictInsert_self]
  · simpa [dictMem, dictLookup_dictInsert_ne k' k v l hk] using h

end DictLemmas

/-! ## Stage lemmas about run_sync -/

theorem url_cache_init_playlists (m : Manifest) :
    (url_cache_init m).playlists = m.playlists := by
  unfold url_cache_init
  cases m.playlist_url_cache <;> rfl

theorem url_cache_init_cache (m : Manifest) :
    (url_cache_init m).cache = m.cache := by
  unfold url_cache_init
  cases m.playlist_url_cache <;> rfl

theorem register_playlist_cache (fm : List (String × String)) (m : Manifest)
    (p : RemotePlaylist) : (register_playlist fm m p).cache = m.cache := by
  unfold register_playlist
  split <;> rfl

theorem register_all_cache (fm : List (String × String)) (ps : List RemotePlaylist) :
    ∀ m : Manifest, (register_all fm m ps).cache = m.cache := by
  induction ps with
  | nil => intro m; rfl
  | cons p t ih =>
    intro m
    unfold register_all at ih ⊢
    rw [List.foldl_cons, ih, register_playlist_cache]

theorem register_playlist_songs_preserved (fm : List (String × String)) (m : Manifest)
    (p : RemotePlaylist) (pid : String) (r : PlaylistRecord)
    (h : dictLookup pid m.playlists = some r) :
    ∃ r', dictLookup pid (register_playlist fm m p).playlists = some r' ∧
      r'.songs = r.songs := by
  unfold register_playlist
  by_cases hid : pid = p.id
  · have hmem : dictMem p.id m.playlists = true := by
      rw [← hid]
      simp [dictMem, h]
    refine ⟨{ r with folder := get_playlist_folder p.name fm }, ?_, rfl⟩
    simp only [hmem, eq_self_iff_true, if_true]
    rw [hid] at h
    rw [hid, dictLookup_dictUpdate_self, h]
    rfl
  · dsimp only
    split
    · exact ⟨r, by dsimp only; rwa [dictLookup_dictUpdate_ne _ _ _ _ hid], rfl⟩
    · exact ⟨r, by dsimp only; rwa [dictLookup_dictInsert_ne _ _ _ _ hid], rfl⟩

theorem register_all_songs_preserved (fm : List (String × String)) (ps : List RemotePlaylist) :
    ∀ (m : Manifest) (pid : String) (r : PlaylistRecord),
      dictLookup pid m.playlists = some r →
      ∃ r', dictLookup pid (register_all fm m ps).playlists = some r' ∧
        r'.songs = r.songs := by
  induction ps with
  | nil => intro m pid r h; exact ⟨r, h, rfl⟩
  | cons p t ih =>
    intro m pid r h
    obtain ⟨r₁, h₁, hs₁⟩ := register_playlist_songs_preserved fm m p pid r h
    obtain ⟨r₂, h₂, hs₂⟩ := ih (register_playlist fm m p) pid r₁ h₁
    exact ⟨r₂, h₂, hs₂.trans hs₁⟩

theorem register_all_songs_new (fm : List (String × String)) (ps : List RemotePlaylist) :
    ∀ (m : Manifest) (pid : String),
      dictLookup pid m.playlists = none → pid ∈ ps.map RemotePlaylist.id →
      ∃ r', dictLookup pid (register_all fm m ps).playlists = some r' ∧ r'.songs = [] := by
  induction ps with
  | nil => intro m pid _ hin; simp at hin
  | cons p t ih =>
    intro m pid hnone hin
    by_cases hid : pid = p.id
    · have hmem : dictMem p.id m.playlists = false := by
        rw [← hid]
        simp [dictMem, hnone]
      have hreg : dictLookup pid (register_playlist fm m p).playlists = some
          { name := p.name, url := p.url, folder := get_playlist_folder p.name fm,
            songs := [], last_synced := none } := by
        unfold register_playlist
        simp only [hmem, Bool.false_eq_true, if_false]
        rw [hid]
        exact dictLookup_dictInsert_self _ _ _
      obtain ⟨r', h', hs'⟩ :=
        register_all_songs_preserved fm t (register_playlist fm m p) pid _ hreg
      exact ⟨r', h', hs'⟩
    · have hstill : dictLookup pid (register_playlist fm m p).playlists = none := by
        unfold register_playlist
        dsimp only
        split
        · dsimp only
          rw [dictLookup_dictUpdate_ne _ _ _ _ hid]
          exact hnone
        · dsimp only
          rw [dictLookup_dictInsert_ne _ _ _ _ hid]
          exact hnone
      have hin' : pid ∈ t.map RemotePlaylist.id := by
        simp only [List.map_cons, List.mem_cons] at hin
        tauto
      exact ih (register_playlist fm m p) pid hstill hin'

theorem register_all_lookup_songs (fm : List (String × String)) (ps : List RemotePlaylist)
    (m : Manifest) (pid : String) (hin : pid ∈ ps.map RemotePlaylist.id) :
    ∃ r', dictLookup pid (register_all fm m ps).playlists = some r' ∧
      r'.songs = (dictLookup pid m.playlists).elim [] PlaylistRecord.songs := by
  cases h : dictLookup pid m.playlists with
  | some r =>
    obtain ⟨r', h', hs'⟩ := register_all_songs_preserved fm ps m pid r h
    exact ⟨r', h', by simpa using hs'⟩
  | none =>
    obtain ⟨r', h', hs'⟩ := register_all_songs_new fm ps m pid h hin
    exact ⟨r', h', by simpa using hs'⟩

theorem apply_downloads_playlists (now : String) (ad : List (String × Track))
    (rs : List (String × String)) : ∀ m : Manifest,
    (apply_downloads now ad rs m).playlists = m.playlists := by
  induction rs with
  | nil => intro m; rfl
  | cons pr t ih =>
    intro m
    unfold apply_downloads at ih ⊢
    rw [List.foldl_cons]
    cases hf : ad.find? (fun q => q.1 == pr.1) <;> simp only [hf] <;> rw [ih]

theorem run_phase1_playlists (cache_dir : String) (cfg : DLConfig)
    (search : String → Option String) (dl : String → Bool) (convert : String → Bool)
    (st0 : DLState) (now : String) (m1 : Manifest) (ad : List (String × Track)) :
    (run_phase1 cache_dir cfg search dl convert st0 now m1 ad).1.playlists = m1.playlists := by
  unfold run_phase1
  split
  · rfl
  · exact apply_downloads_playlists now ad _ m1

theorem copy_step_manifest (cd dir pid : String) (cm : List (String × CacheEntry))
    (mp : List String) (es : ExecState) (sid : String) :
    (copy_step cd dir pid cm mp es sid).manifest = es.manifest := by
  unfold copy_step
  split
  · rfl
  · split <;> rfl

theorem remove_step_manifest (dir pid : String) (cm : List (String × CacheEntry))
    (es : ExecState) (sid : String) :
    (remove_step dir pid cm es sid).manifest = es.manifest := by
  unfold remove_step
  split
  · rfl
  · split <;> rfl

theorem copy_fold_manifest (cd dir pid : String) (cm : List (String × CacheEntry))
    (mp : List String) (l : List String) : ∀ es : ExecState,
    (l.foldl (copy_step cd dir pid cm mp) es).manifest = es.manifest := by
  induction l with
  | nil => intro es; rfl
  | cons sid t ih =>
    intro es
    rw [List.foldl_cons, ih, copy_step_manifest]

theorem remove_fold_manifest (dir pid : String) (cm : List (String × CacheEntry))
    (l : List String) : ∀ es : ExecState,
    (l.foldl (remove_step dir pid cm) es).manifest = es.manifest := by
  induction l with
  | nil => intro es; rfl
  | cons sid t ih =>
    intro es
    rw [List.foldl_cons, ih, remove_step_manifest]

theorem run_playlist_phase2_manifest (cd : String) (cm : List (String × CacheEntry))
    (mp : List String) (now : String) (es : ExecState) (pa : String × SyncAction) :
    (run_playlist_phase2 cd cm mp now es pa).manifest =
      { es.manifest with playlists := dictUpdate pa.1 (fun r => { r with songs := pa.2.songs.map Prod.fst, last_synced := some now }) es.manifest.playlists } := by
  unfold run_playlist_phase2
  dsimp only
  rw [remove_fold_manifest, copy_fold_manifest]

theorem phase2_fold_cache (cd : String) (cm : List (String × CacheEntry)) (mp : List String)
    (now : String) (actions : List (String × SyncAction)) : ∀ es : ExecState,
    ((actions.foldl (run_playlist_phase2 cd cm mp now) es).manifest).cache =
      es.manifest.cache := by
  induction actions with
  | nil => intro es; rfl
  | cons pa t ih =>
    intro es
    rw [List.foldl_cons, ih, run_playlist_phase2_manifest]

theorem phase2_fold_playlists_untouched (cd : String) (cm : List (String × CacheEntry))
    (mp : List String) (now : String) (actions : List (String × SyncAction)) :
    ∀ (es : ExecState) (pid : String), pid ∉ actions.map Prod.fst →
    dictLookup pid ((actions.foldl (run_playlist_phase2 cd cm mp now) es).manifest).playlists =
      dictLookup pid es.manifest.playlists := by
  induction actions with
  | nil => intro es pid _; rfl
  | cons pa t ih =>
    intro es pid hpid
    simp only [List.map_cons, List.mem_cons, not_or] at hpid
    rw [List.foldl_cons, ih _ pid hpid.2, run_playlist_phase2_manifest]
    exact dictLookup_dictUpdate_ne _ _ _ _ hpid.1

theorem phase2_fold_songs (cd : String) (cm : List (String × CacheEntry)) (mp : List String)
    (now : String) (actions : List (String × SyncAction))
    (hnd : (actions.map Prod.fst).Nodup) :
    ∀ (es : ExecState) (pid : String) (a : SyncAction), (pid, a) ∈ actions →
    dictLookup pid ((actions.foldl (run_playlist_phase2 cd cm mp now) es).manifest).playlists =
      (dictLookup pid es.manifest.playlists).map
        (fun r => { r with songs := a.songs.map Prod.fst, last_synced := some now }) := by
  induction actions with
  | nil => intro es pid a h; simp at h
  | cons pa t ih =>
    intro es pid a hmem
    simp only [List.map_cons, List.nodup_cons] at hnd
    rcases List.mem_cons.mp hmem with heq | hmem'
    · cases heq
      have hpid_not : pid ∉ t.map Prod.fst := hnd.1
      rw [List.foldl_cons, phase2_fold_playlists_untouched cd cm mp now t _ pid hpid_not,
        run_playlist_phase2_manifest]
      dsimp only
      exact dictLookup_dictUpdate_self pid _ es.manifest.playlists
    · have hne : pid ≠ pa.1 := by
        intro he
        exact hnd.1 (he ▸ List.mem_map_of_mem Prod.fst hmem')
      rw [List.foldl_cons, ih hnd.2 _ pid a hmem', run_playlist_phase2_manifest]
      dsimp only
      rw [dictLookup_dictUpdate_ne _ _ _ _ hne]

/-! ## Projections of run_sync (non-dry), restating its stages -/

/-- The plan computed by a non-dry run_sync. -/
def sync_plan (m0 : Manifest) (pls : List RemotePlaylist) (fetch : String → List Track)
    (od : String) (fm : List (String × String)) (lp : Nat) : List (String × SyncAction) :=
  compute_actions od fm (register_all fm (url_cache_init m0) (apply_limit lp pls))
    (build_playlist_names (apply_limit lp pls))
    (build_playlist_songs fetch (apply_limit lp pls))

/-- Phase-1 outcome of a non-dry run_sync. -/
def sync_phase1 (m0 : Manifest) (pls : List RemotePlaylist) (fetch : String → List Track)
    (od : String) (fm : List (String × String)) (cfg : DLConfig)
    (search : String → Option String) (dl : String → Bool) (convert : String → Bool)
    (st0 : DLState) (now : String) (limit lp : Nat) :
    Manifest × List (String × Track × String) × DLState :=
  run_phase1 (od ++ "/" ++ ".cache") cfg search dl convert st0 now
    (register_all fm (url_cache_init m0) (apply_limit lp pls))
    (apply_limit limit (sync_all_downloads (sync_plan m0 pls fetch od fm lp)))

theorem run_sync_false_actions (m0 : Manifest) (pls : List RemotePlaylist)
    (fetch : String → List Track) (od : String) (fm : List (String × String)) (cfg : DLConfig)
    (search : String → Option String) (dl : String → Bool) (convert : String → Bool)
    (st0 : DLState) (dirs0 : String → List String) (now : String) (limit lp : Nat) :
    (run_sync m0 pls fetch od fm cfg search dl convert st0 dirs0 now false limit lp).actions =
      sync_plan m0 pls fetch od fm lp := rfl

theorem run_sync_false_planned (m0 : Manifest) (pls : List RemotePlaylist)
    (fetch : String → List Track) (od : String) (fm : List (String × String)) (cfg : DLConfig)
    (search : String → Option String) (dl : String → Bool) (convert : String → Bool)
    (st0 : DLState) (dirs0 : String → List String) (now : String) (limit lp : Nat) :
    (run_sync m0 pls fetch od fm cfg search dl convert st0 dirs0 now false limit
        lp).planned_downloads =
      apply_limit limit (sync_all_downloads (sync_plan m0 pls fetch od fm lp)) := rfl

theorem run_sync_false_attempted (m0 : Manifest) (pls : List RemotePlaylist)
    (fetch : String → List Track) (od : String) (fm : List (String × String)) (cfg : DLConfig)
    (search : String → Option String) (dl : String → Bool) (convert : String → Bool)
    (st0 : DLState) (dirs0 : String → List String) (now : String) (limit lp : Nat) :
    (run_sync m0 pls fetch od fm cfg search dl convert st0 dirs0 now false limit
        lp).attempted_downloads =
      (sync_phase1 m0 pls fetch od fm cfg search dl convert st0 now limit lp).2.1 := rfl

theorem run_sync_false_dl_state (m0 : Manifest) (pls : List RemotePlaylist)
    (fetch : String → List Track) (od : String) (fm : List (String × String)) (cfg : DLConfig)
    (search : String → Option String) (dl : String → Bool) (convert : String → Bool)
    (st0 : DLState) (dirs0 : String → List String) (now : String) (limit lp : Nat) :
    (run_sync m0 pls fetch od fm cfg search dl convert st0 dirs0 now false limit lp).dl_state =
      (sync_phase1 m0 pls fetch od fm cfg search dl convert st0 now limit lp).2.2 := rfl

theorem run_sync_false_manifest (m0 : Manifest) (pls : List RemotePlaylist)
    (fetch : String → List Track) (od : String) (fm : List (String × String)) (cfg : DLConfig)
    (search : String → Option String) (dl : String → Bool) (convert : String → Bool)
    (st0 : DLState) (dirs0 : String → List String) (now : String) (limit lp : Nat) :
    (run_sync m0 pls fetch od fm cfg search dl convert st0 dirs0 now false limit lp).manifest =
      ((sync_plan m0 pls fetch od fm lp).foldl
        (run_playlist_phase2 (od ++ "/" ++ ".cache")
          (sync_phase1 m0 pls fetch od fm cfg search dl convert st0 now limit lp).1.cache
          (sync_phase1 m0 pls fetch od fm cfg search dl convert st0 now limit lp).2.2.mp3s now)
        { manifest := (sync_phase1 m0 pls fetch od fm cfg search dl convert st0 now limit lp).1,
          dirs := dirs0, copies := [], removals := [] }).manifest := rfl

theorem run_sync_false_copies (m0 : Manifest) (pls : List RemotePlaylist)
    (fetch : String → List Track) (od : String) (fm : List (String × String)) (cfg : DLConfig)
    (search : String → Option String) (dl : String → Bool) (convert : String → Bool)
    (st0 : DLState) (dirs0 : String → List String) (now : String) (limit lp : Nat) :
    (run_sync m0 pls fetch od fm cfg search dl convert st0 dirs0 now false limit lp).copies =
      ((sync_plan m0 pls fetch od fm lp).foldl
        (run_playlist_phase2 (od ++ "/" ++ ".cache")
          (sync_phase1 m0 pls fetch od fm cfg search dl convert st0 now limit lp).1.cache
          (sync_phase1 m0 pls fetch od fm cfg search dl convert st0 now limit lp).2.2.mp3s now)
        { manifest := (sync_phase1 m0 pls fetch od fm cfg search dl convert st0 now limit lp).1,
          dirs := dirs0, copies := [], removals := [] }).copies := rfl

theorem run_sync_false_removals (m0 : Manifest) (pls : List RemotePlaylist)
    (fetch : String → List Track) (od : String) (fm : List (String × String)) (cfg : DLConfig)
    (search : String → Option String) (dl : String → Bool) (convert : String → Bool)
    (st0 : DLState) (dirs0 : String → List String) (now : String) (limit lp : Nat) :
    (run_sync m0 pls fetch od fm cfg search dl convert st0 dirs0 now false limit lp).removals =
      ((sync_plan m0 pls fetch od fm lp).foldl
        (run_playlist_phase2 (od ++ "/" ++ ".cache")
          (sync_phase1 m0 pls fetch od fm cfg search dl convert st0 now limit lp).1.cache
          (sync_phase1 m0 pls fetch od fm cfg search dl convert st0 now limit lp).2.2.mp3s now)
        { manifest := (sync_phase1 m0 pls fetch od fm cfg search dl convert st0 now limit lp).1,
          dirs := dirs0, copies := [], removals := [] }).removals := rfl

theorem compute_action_songs (od : String) (fm : List (String × String)) (m : Manifest)
    (nm pid : String) (songs : List (String × Track)) :
    (compute_action od fm m nm pid songs).songs = songs := rfl

theorem build_playlist_songs_nodup (fetch : String → List Track) (pls : List RemotePlaylist) :
    ((build_playlist_songs fetch pls).map Prod.fst).Nodup :=
  foldl_dictInsert_nodup RemotePlaylist.id (fun p => build_song_dict (fetch p.id)) pls []
    (by simp)

theorem build_playlist_songs_mem_ids (fetch : String → List Track) (pls : List RemotePlaylist)
    (pid : String) (songs : List (String × Track))
    (h : (pid, songs) ∈ build_playlist_songs fetch pls) : pid ∈ pls.map RemotePlaylist.id := by
  rcases mem_foldl_dictInsert RemotePlaylist.id (fun p => build_song_dict (fetch p.id)) pls []
      pid songs h with h | ⟨p, hp, hk, _⟩
  · simp at h
  · exact hk ▸ List.mem_map_of_mem RemotePlaylist.id hp

theorem compute_actions_nodup (od : String) (fm : List (String × String)) (m : Manifest)
    (names : List (String × String)) (PS : List (String × List (String × Track))) :
    ((compute_actions od fm m names PS).map Prod.fst).Nodup :=
  foldl_dictInsert_nodup Prod.fst
    (fun pr => compute_action od fm m ((dictLookup pr.1 names).getD "") pr.1 pr.2) PS []
    (by simp)

theorem compute_actions_lookup (od : String) (fm : List (String × String)) (m : Manifest)
    (names : List (String × String)) (PS : List (String × List (String × Track)))
    (hnd : (PS.map Prod.fst).Nodup) (pid : String) (songs : List (String × Track))
    (hlook : dictLookup pid PS = some songs) :
    dictLookup pid (compute_actions od fm m names PS) =
      some (compute_action od fm m ((dictLookup pid names).getD "") pid songs) := by
  have h := foldl_dictInsert_lookup_assoc
    (fun k v => compute_action od fm m ((dictLookup k names).getD "") k v) PS hnd pid []
  rw [hlook] at h
  exact h

theorem compute_actions_mem (od : String) (fm : List (String × String)) (m : Manifest)
    (names : List (String × String)) (PS : List (String × List (String × Track)))
    (pid : String) (a : SyncAction) (h : (pid, a) ∈ compute_actions od fm m names PS) :
    ∃ songs, (pid, songs) ∈ PS ∧
      a = compute_action od fm m ((dictLookup pid names).getD "") pid songs := by
  rcases mem_foldl_dictInsert Prod.fst
      (fun pr => compute_action od fm m ((dictLookup pr.1 names).getD "") pr.1 pr.2) PS []
      pid a h with h | ⟨pr, hpr, hk, hv⟩
  · simp at h
  · refine ⟨pr.2, ?_, by rw [hv, hk]⟩
    rw [← hk]
    rw [Prod.mk.eta]
    exact hpr

/-- After a completed (non-dry) run, the manifest's record for every synced
playlist holds exactly the current remote membership. -/
theorem run_sync_manifest_songs (m0 : Manifest) (pls : List RemotePlaylist)
    (fetch : String → List Track) (od : String) (fm : List (String × String)) (cfg : DLConfig)
    (search : String → Option String) (dl : String → Bool) (convert : String → Bool)
    (st0 : DLState) (dirs0 : String → List String) (now : String) (limit lp : Nat)
    (pid : String) (songs : List (String × Track))
    (hlook : dictLookup pid (build_playlist_songs fetch (apply_limit lp pls)) = some songs) :
    ∃ r', dictLookup pid
        (run_sync m0 pls fetch od fm cfg search dl convert st0 dirs0 now false limit
          lp).manifest.playlists = some r' ∧
      r'.songs = songs.map Prod.fst := by
  rw [run_sync_false_manifest]
  unfold sync_plan
  have hndPS := build_playlist_songs_nodup fetch (apply_limit lp pls)
  have hact := compute_actions_lookup od fm
    (register_all fm (url_cache_init m0) (apply_limit lp pls))
    (build_playlist_names (apply_limit lp pls))
    (build_playlist_songs fetch (apply_limit lp pls)) hndPS pid songs hlook
  have hamem := mem_of_dictLookup _ _ _ hact
  have hndA := compute_actions_nodup od fm
    (register_all fm (url_cache_init m0) (apply_limit lp pls))
    (build_playlist_names (apply_limit lp pls))
    (build_playlist_songs fetch (apply_limit lp pls))
  rw [phase2_fold_songs _ _ _ _ _ hndA _ pid _ hamem]
  have hports : (sync_phase1 m0 pls fetch od fm cfg search dl convert st0 now limit
      lp).1.playlists = (register_all fm (url_cache_init m0) (apply_limit lp pls)).playlists :=
    run_phase1_playlists _ _ _ _ _ _ _ _ _
  dsimp only
  rw [hports]
  have hin : pid ∈ (apply_limit lp pls).map RemotePlaylist.id :=
    build_playlist_songs_mem_ids fetch (apply_limit lp pls) pid songs
      (mem_of_dictLookup _ _ _ hlook)
  obtain ⟨r', hr', _⟩ := register_all_lookup_songs fm (apply_limit lp pls)
    (url_cache_init m0) pid hin
  rw [hr']
  exact ⟨_, rfl, by rw [compute_action_songs]⟩

theorem compute_action_same_membership (od : String) (fm : List (String × String))
    (m : Manifest) (nm pid : String) (songs : List (String × Track)) (r : PlaylistRecord)
    (hl : dictLookup pid m.playlists = some r) (hs : r.songs = songs.map Prod.fst) :
    (compute_action od fm m nm pid songs).to_add = [] ∧
    (compute_action od fm m nm pid songs).to_remove = [] ∧
    (compute_action od fm m nm pid songs).needs_download = [] ∧
    (compute_action od fm m nm pid songs).needs_copy = [] := by
  have hta : ∀ l : List String, l.dedup.filter (fun sid => decide (sid ∉ l.dedup)) = [] := by
    intro l
    rw [List.filter_eq_nil_iff]
    intro a ha
    simp [ha]
  unfold compute_action
  rw [hl]
  dsimp only
  rw [hs]
  refine ⟨hta _, hta _, ?_, ?_⟩ <;> rw [hta _] <;> rfl

/-- The central idempotence fact: every action planned by a second non-dry
run against the same remote state (same playlists, same fetch results, same
playlist limit) has empty diffs. -/
theorem run_sync_rerun_plan_empty (m0 : Manifest) (pls : List RemotePlaylist)
    (fetch : String → List Track) (od : String) (fm : List (String × String)) (cfg : DLConfig)
    (search : String → Option String) (dl : String → Bool) (convert : String → Bool)
    (st0 : DLState) (dirs0 : String → List String) (now : String) (limit lp : Nat)
    (od₂ : String) (fm₂ : List (String × String)) (cfg₂ : DLConfig)
    (search₂ : String → Option String) (dl₂ : String → Bool) (convert₂ : String → Bool)
    (st₂ : DLState) (dirs₂ : String → List String) (now₂ : String) (limit₂ : Nat) :
    ∀ pa ∈ (run_sync
        (run_sync m0 pls fetch od fm cfg search dl convert st0 dirs0 now false limit lp).manifest
        pls fetch od₂ fm₂ cfg₂ search₂ dl₂ convert₂ st₂ dirs₂ now₂ false limit₂ lp).actions,
      pa.2.to_add = [] ∧ pa.2.to_remove = [] ∧
      pa.2.needs_download = [] ∧ pa.2.needs_copy = [] := by
  intro pa hpa
  rw [run_sync_false_actions] at hpa
  unfold sync_plan at hpa
  obtain ⟨pid, a⟩ := pa
  obtain ⟨songs, hmemPS, hval⟩ := compute_actions_mem _ _ _ _ _ _ _ hpa
  have hndPS := build_playlist_songs_nodup fetch (apply_limit lp pls)
  have hlook : dictLookup pid (build_playlist_songs fetch (apply_limit lp pls)) = some songs :=
    dictLookup_of_mem _ _ _ hndPS hmemPS
  obtain ⟨rec, hrec, hsongs⟩ := run_sync_manifest_songs m0 pls fetch od fm cfg search dl convert
    st0 dirs0 now limit lp pid songs hlook
  have hrec' : dictLookup pid (url_cache_init
      (run_sync m0 pls fetch od fm cfg search dl convert st0 dirs0 now false limit
        lp).manifest).playlists = some rec := by
    rw [url_cache_init_playlists]
    exact hrec
  obtain ⟨rec₂, hrec₂, hsongs₂⟩ := register_all_songs_preserved fm₂ (apply_limit lp pls) _ pid
    rec hrec'
  have := compute_action_same_membership od₂ fm₂
    (register_all fm₂ (url_cache_init
      (run_sync m0 pls fetch od fm cfg search dl convert st0 dirs0 now false limit lp).manifest)
      (apply_limit lp pls))
    ((dictLookup pid (build_playlist_names (apply_limit lp pls))).getD "") pid songs rec₂ hrec₂
    (hsongs₂.trans hsongs)
  rw [hval]
  exact this

theorem sync_all_downloads_nil (actions : List (String × SyncAction))
    (h : ∀ pa ∈ actions, pa.2.needs_download = []) : sync_all_downloads actions = [] := by
  unfold sync_all_downloads
  have haux : ∀ (l : List (String × SyncAction)) (acc : List (String × Track)),
      (∀ pa ∈ l, pa.2.needs_download = []) →
      l.foldl (fun acc pa =>
        acc ++ pa.2.needs_download.filterMap
          (fun sid => (dictLookup sid pa.2.songs).map (fun t => (sid, t)))) acc = acc := by
    intro l
    induction l with
    | nil => intro acc _; rfl
    | cons pa t ih =>
      intro acc hall
      rw [List.foldl_cons, hall pa (List.mem_cons_self _ _)]
      simp only [List.filterMap_nil, List.append_nil]
      exact ih acc (fun x hx => hall x (List.mem_cons_of_mem _ hx))
  exact haux actions [] h

theorem apply_limit_nil (limit : Nat) : apply_limit limit ([] : List σ) = [] := by
  unfold apply_limit
  simp

theorem phase2_fold_no_ops (cd : String) (cm : List (String × CacheEntry)) (mp : List String)
    (now : String) (actions : List (String × SyncAction))
    (h : ∀ pa ∈ actions, pa.2.to_add = [] ∧ pa.2.to_remove = []) :
    ∀ es : ExecState,
      (actions.foldl (run_playlist_phase2 cd cm mp now) es).copies = es.copies ∧
      (actions.foldl (run_playlist_phase2 cd cm mp now) es).removals = es.removals := by
  induction actions with
  | nil => intro es; exact ⟨rfl, rfl⟩
  | cons pa t ih =>
    intro es
    have hpa := h pa (List.mem_cons_self _ _)
    have hc : (run_playlist_phase2 cd cm mp now es pa).copies = es.copies := by
      unfold run_playlist_phase2
      rw [hpa.1, hpa.2]
      rfl
    have hr : (run_playlist_phase2 cd cm mp now es pa).removals = es.removals := by
      unfold run_playlist_phase2
      rw [hpa.1, hpa.2]
      rfl
    rw [List.foldl_cons]
    obtain ⟨ihc, ihr⟩ := ih (fun x hx => h x (List.mem_cons_of_mem _ hx))
      (run_playlist_phase2 cd cm mp now es pa)
    exact ⟨ihc.trans hc, ihr.trans hr⟩

/-- C3 (confirmed): a second non-dry sync against an unchanged remote state,
starting from the manifest left by a completed first run, plans empty diffs
for every playlist and performs zero downloads, zero copies and zero
removals. -/
theorem run_sync_idempotent (m0 : Manifest) (pls : List RemotePlaylist)
    (fetch : String → List Track) (od : String) (fm : List (String × String)) (cfg : DLConfig)
    (search : String → Option String) (dl : String → Bool) (convert : String → Bool)
    (st0 : DLState) (dirs0 : String → List String) (now : String) (limit lp : Nat)
    (st₂ : DLState) (dirs₂ : String → List String) (now₂ : String) :
    (∀ pa ∈ (run_sync
        (run_sync m0 pls fetch od fm cfg search dl convert st0 dirs0 now false limit lp).manifest
        pls fetch od fm cfg search dl convert st₂ dirs₂ now₂ false limit lp).actions,
      pa.2.to_add = [] ∧ pa.2.to_remove = [] ∧
      pa.2.needs_download = [] ∧ pa.2.needs_copy = []) ∧
    (run_sync
        (run_sync m0 pls fetch od fm cfg search dl convert st0 dirs0 now false limit lp).manifest
        pls fetch od fm cfg search dl convert st₂ dirs₂ now₂ false limit lp).planned_downloads
      = [] ∧
    (run_sync
        (run_sync m0 pls fetch od fm cfg search dl convert st0 dirs0 now false limit lp).manifest
        pls fetch od fm cfg search dl convert st₂ dirs₂ now₂ false limit lp).attempted_downloads
      = [] ∧
    (run_sync
        (run_sync m0 pls fetch od fm cfg search dl convert st0 dirs0 now false limit lp).manifest
        pls fetch od fm cfg search dl convert st₂ dirs₂ now₂ false limit lp).copies = [] ∧
    (run_sync
        (run_sync m0 pls fetch od fm cfg search dl convert st0 dirs0 now false limit lp).manifest
        pls fetch od fm cfg search dl convert st₂ dirs₂ now₂ false limit lp).removals = [] := by
  have hplan := run_sync_rerun_plan_empty m0 pls fetch od fm cfg search dl convert st0 dirs0 now
    limit lp od fm cfg search dl convert st₂ dirs₂ now₂ limit
  have hplan' : ∀ pa ∈ sync_plan
      (run_sync m0 pls fetch od fm cfg search dl convert st0 dirs0 now false limit lp).manifest
      pls fetch od fm lp,
      pa.2.to_add = [] ∧ pa.2.to_remove = [] ∧
      pa.2.needs_download = [] ∧ pa.2.needs_copy = [] := by
    intro pa hpa
    exact hplan pa (by rwa [run_sync_false_actions])
  have hdl : apply_limit limit (sync_all_downloads (sync_plan
      (run_sync m0 pls fetch od fm cfg search dl convert st0 dirs0 now false limit lp).manifest
      pls fetch od fm lp)) = [] := by
    rw [sync_all_downloads_nil _ (fun pa hpa => (hplan' pa hpa).2.2.1), apply_limit_nil]
  refine ⟨fun pa hpa => hplan pa hpa, ?_, ?_, ?_, ?_⟩
  · rw [run_sync_false_planned, hdl]
  · rw [run_sync_false_attempted]
    unfold sync_phase1
    rw [hdl]
    rfl
  · rw [run_sync_false_copies]
    exact ((phase2_fold_no_ops _ _ _ _ _
      (fun pa hpa => ⟨(hplan' pa hpa).1, (hplan' pa hpa).2.1⟩)) _).1
  · rw [run_sync_false_removals]
    exact ((phase2_fold_no_ops _ _ _ _ _
      (fun pa hpa => ⟨(hplan' pa hpa).1, (hplan' pa hpa).2.1⟩)) _).2

/-! ## Batch download lemmas -/

theorem recover_orphan_webm_mp3s_mono (convert : String → Bool) (st : DLState) (fp p : String)
    (h : p ∈ st.mp3s) : p ∈ (recover_orphan_webm convert st fp).2.mp3s := by
  unfold recover_orphan_webm
  split_ifs <;> simp_all

theorem cleanup_webm_mp3s (st : DLState) (fp : String) :
    (cleanup_webm_after_download st fp).mp3s = st.mp3s := by
  unfold cleanup_webm_after_download
  split <;> rfl

theorem attempt_download_mp3s_mono (dl : String → Bool) (vid fp mp3p : String)
    (st1 : DLState) (p : String) (h : p ∈ st1.mp3s) :
    p ∈ (attempt_download dl vid fp mp3p st1).mp3s := by
  unfold attempt_download
  split
  · exact List.mem_cons_of_mem _ h
  · exact h

theorem post_download_mp3s_mono (cfg : DLConfig) (convert : String → Bool) (fp mp3p : String)
    (st3 : DLState) (p : String) (h : p ∈ st3.mp3s) :
    p ∈ (post_download cfg convert fp mp3p st3).mp3s := by
  unfold post_download
  split
  · split
    · rw [cleanup_webm_mp3s]
      exact h
    · dsimp only
      split
      · rw [cleanup_webm_mp3s]
        exact recover_orphan_webm_mp3s_mono convert st3 fp p h
      · exact recover_orphan_webm_mp3s_mono convert st3 fp p h
  · exact h

theorem process_entry_mp3s_mono (cfg : DLConfig) (search : String → Option String)
    (dl : String → Bool) (convert : String → Bool) (st : DLState) (e : DLEntry) (p : String)
    (h : p ∈ st.mp3s) : p ∈ (process_entry cfg search dl convert st e).mp3s := by
  have hrec1 : p ∈ (if ¬ cfg.skip_mp3 then
      recover_orphan_webm convert st (entry_file_path e) else (false, st)).2.mp3s := by
    split
    · exact recover_orphan_webm_mp3s_mono convert st _ p h
    · exact h
  unfold process_entry
  dsimp only
  split
  · exact h
  · generalize hg : (if ¬ cfg.skip_mp3 then
      recover_orphan_webm convert st (entry_file_path e) else (false, st)) = r at hrec1 ⊢
    split
    · exact hrec1
    · split
      · exact hrec1
      · exact post_download_mp3s_mono cfg convert _ _ _ p
          (attempt_download_mp3s_mono dl _ _ _ _ p hrec1)

theorem find_and_download_mp3s_mono (cfg : DLConfig) (search : String → Option String)
    (dl : String → Bool) (convert : String → Bool) (entries : List DLEntry) :
    ∀ (st : DLState) (p : String), p ∈ st.mp3s →
      p ∈ (find_and_download_songs cfg search dl convert entries st).mp3s := by
  induction entries with
  | nil => intro st p h; exact h
  | cons e t ih =>
    intro st p h
    exact ih _ p (process_entry_mp3s_mono cfg search dl convert st e p h)

theorem dictLookup_isSome_of_mem_keys {α β : Type} [DecidableEq α] (k : α)
    (l : List (α × β)) (h : k ∈ l.map Prod.fst) : (dictLookup k l).isSome = true := by
  induction l with
  | nil => simp at h
  | cons hd t ih =>
    obtain ⟨k₀, v₀⟩ := hd
    by_cases hk : k = k₀
    · simp [dictLookup, hk]
    · simp only [List.map_cons, List.mem_cons] at h
      rcases h with h | h
      · exact absurd h hk
      · simp only [dictLookup, if_neg hk]
        exact ih h

theorem batch_partition_fst_char (cd : String) (st0 : DLState) (tracks : List (String × Track))
    (sid fn : String) :
    dictLookup sid (batch_partition cd st0 tracks).1 = some fn →
    ∃ t, (sid, t) ∈ tracks ∧ fn = generate_filename t 200 ++ ".mp3" ∧
      (cd ++ "/" ++ fn) ∈ st0.mp3s := by
  unfold batch_partition
  have haux : ∀ (l : List (String × Track))
      (acc : List (String × String) × List (String × Track × String)),
      dictLookup sid (l.foldl (fun acc p =>
        let filename := generate_filename p.2 200 ++ ".mp3"
        if (cd ++ "/" ++ filename) ∈ st0.mp3s then (dictInsert p.1 filename acc.1, acc.2)
        else (acc.1, acc.2 ++ [(p.1, p.2, filename)])) acc).1 = some fn →
      dictLookup sid acc.1 = some fn ∨
        ∃ t, (sid, t) ∈ l ∧ fn = generate_filename t 200 ++ ".mp3" ∧
          (cd ++ "/" ++ fn) ∈ st0.mp3s := by
    intro l
    induction l with
    | nil => intro acc h; exact Or.inl h
    | cons p t ih =>
      intro acc h
      rw [List.foldl_cons] at h
      rcases ih _ h with h' | ⟨t', ht', hfn, hmem⟩
      · dsimp only at h'
        by_cases hc : (cd ++ "/" ++ (generate_filename p.2 200 ++ ".mp3")) ∈ st0.mp3s
        · rw [if_pos hc] at h'
          by_cases hsid : sid = p.1
          · subst hsid
            rw [dictLookup_dictInsert_self] at h'
            have hfn := Option.some.inj h'
            refine Or.inr ⟨p.2, ?_, hfn.symm, hfn ▸ hc⟩
            rw [Prod.mk.eta]
            exact List.mem_cons_self _ _
          · rw [dictLookup_dictInsert_ne _ _ _ _ hsid] at h'
            exact Or.inl h'
        · rw [if_neg hc] at h'
          exact Or.inl h'
      · exact Or.inr ⟨t', List.mem_cons_of_mem _ ht', hfn, hmem⟩
  intro h
  rcases haux tracks ([], []) h with h' | h'
  · simp [dictLookup] at h'
  · exact h'

theorem batch_partition_snd_char (cd : String) (st0 : DLState) (tracks : List (String × Track))
    (sid fn : String) (tr : Track) :
    (sid, tr, fn) ∈ (batch_partition cd st0 tracks).2 →
    (sid, tr) ∈ tracks ∧ fn = generate_filename tr 200 ++ ".mp3" := by
  unfold batch_partition
  have haux : ∀ (l : List (String × Track))
      (acc : List (String × String) × List (String × Track × String)),
      (sid, tr, fn) ∈ (l.foldl (fun acc p =>
        let filename := generate_filename p.2 200 ++ ".mp3"
        if (cd ++ "/" ++ filename) ∈ st0.mp3s then (dictInsert p.1 filename acc.1, acc.2)
        else (acc.1, acc.2 ++ [(p.1, p.2, filename)])) acc).2 →
      (sid, tr, fn) ∈ acc.2 ∨
        ((sid, tr) ∈ l ∧ fn = generate_filename tr 200 ++ ".mp3") := by
    intro l
    induction l with
    | nil => intro acc h; exact Or.inl h
    | cons p t ih =>
      intro acc h
      rw [List.foldl_cons] at h
      rcases ih _ h with h' | ⟨hmem, hfn⟩
      · dsimp only at h'
        by_cases hc : (cd ++ "/" ++ (generate_filename p.2 200 ++ ".mp3")) ∈ st0.mp3s
        · rw [if_pos hc] at h'
          exact Or.inl h'
        · rw [if_neg hc] at h'
          rcases List.mem_append.mp h' with h'' | h''
          · exact Or.inl h''
          · simp only [List.mem_singleton, Prod.mk.injEq] at h''
            obtain ⟨he1, he2, he3⟩ := h''
            refine Or.inr ⟨?_, ?_⟩
            · rw [he1, he2, Prod.mk.eta]
              exact List.mem_cons_self _ _
            · rw [he2]
              exact he3
      · exact Or.inr ⟨List.mem_cons_of_mem _ hmem, hfn⟩
  intro h
  rcases haux tracks ([], []) h with h' | h'
  · simp at h'
  · exact h'

theorem batch_collect_results_char (cd : String) (st1 : DLState)
    (td : List (String × Track × String)) (sid fn : String) :
    ∀ r0, dictLookup sid (batch_collect_results cd st1 td r0) = some fn →
      dictLookup sid r0 = some fn ∨
        ∃ t, (sid, t, fn) ∈ td ∧ (cd ++ "/" ++ fn) ∈ st1.mp3s := by
  unfold batch_collect_results
  induction td with
  | nil => intro r0 h; exact Or.inl h
  | cons q t ih =>
    intro r0 h
    rw [List.foldl_cons] at h
    rcases ih _ h with h' | ⟨t', ht', hmem⟩
    · by_cases hc : (cd ++ "/" ++ q.2.2) ∈ st1.mp3s
      · rw [if_pos hc] at h'
        by_cases hsid : sid = q.1
        · subst hsid
          rw [dictLookup_dictInsert_self] at h'
          have hfn := Option.some.inj h'
          refine Or.inr ⟨q.2.1, ?_, hfn ▸ hc⟩
          rw [← hfn, Prod.mk.eta]
          exact List.mem_cons_self _ _
        · rw [dictLookup_dictInsert_ne _ _ _ _ hsid] at h'
          exact Or.inl h'
      · rw [if_neg hc] at h'
        exact Or.inl h'
    · exact Or.inr ⟨t', List.mem_cons_of_mem _ ht', hmem⟩

theorem batch_collect_results_preserves_mem (cd : String) (st1 : DLState)
    (td : List (String × Track × String)) (sid : String) :
    ∀ r0, dictMem sid r0 = true → dictMem sid (batch_collect_results cd st1 td r0) = true := by
  unfold batch_collect_results
  induction td with
  | nil => intro r0 h; exact h
  | cons q t ih =>
    intro r0 h
    rw [List.foldl_cons]
    apply ih
    split
    · exact dictMem_dictInsert_of_dictMem _ _ _ _ h
    · exact h

theorem batch_collect_results_mem_of (cd : String) (st1 : DLState)
    (td : List (String × Track × String)) (sid fn : String) (tr : Track) :
    ∀ r0, (sid, tr, fn) ∈ td → (cd ++ "/" ++ fn) ∈ st1.mp3s →
      dictMem sid (batch_collect_results cd st1 td r0) = true := by
  induction td with
  | nil => intro r0 h _; simp at h
  | cons q t ih =>
    intro r0 hmem hfs
    rcases List.mem_cons.mp hmem with heq | hmem'
    · unfold batch_collect_results
      rw [List.foldl_cons]
      rw [← heq]
      dsimp only
      rw [if_pos hfs]
      exact batch_collect_results_preserves_mem cd st1 t sid _
        (by simp [dictMem, dictLookup_dictInsert_self])
    · unfold batch_collect_results at ih ⊢
      rw [List.foldl_cons]
      exact ih _ hmem' hfs

theorem batch_results_char (cd : String) (cfg : DLConfig) (search : String → Option String)
    (dl : String → Bool) (convert : String → Bool) (st0 : DLState)
    (tracks : List (String × Track)) (sid fn : String)
    (h : dictLookup sid (download_to_cache_batch cd cfg search dl convert st0 tracks).results
      = some fn) :
    ∃ t, (sid, t) ∈ tracks ∧ fn = generate_filename t 200 ++ ".mp3" ∧
      (cd ++ "/" ++ fn) ∈ (download_to_cache_batch cd cfg search dl convert st0 tracks).st.mp3s
    := by
  unfold download_to_cache_batch at h ⊢
  dsimp only at h ⊢
  by_cases hemp : (batch_partition cd st0 tracks).2.isEmpty = true
  · rw [if_pos hemp] at h ⊢
    obtain ⟨t, hmem, hfn, hfs⟩ := batch_partition_fst_char cd st0 tracks sid fn h
    exact ⟨t, hmem, hfn, hfs⟩
  · rw [if_neg hemp] at h ⊢
    rcases batch_collect_results_char cd _ _ sid fn _ h with h' | ⟨t, hmem, hfs⟩
    · obtain ⟨t, hmem, hfn, hfs⟩ := batch_partition_fst_char cd st0 tracks sid fn h'
      exact ⟨t, hmem, hfn, find_and_download_mp3s_mono cfg search dl convert _ st0 _ hfs⟩
    · obtain ⟨hmem', hfn⟩ := batch_partition_snd_char cd st0 tracks sid fn t hmem
      exact ⟨t, hmem', hfn, hfs⟩

theorem batch_to_download_char (cd : String) (cfg : DLConfig) (search : String → Option String)
    (dl : String → Bool) (convert : String → Bool) (st0 : DLState)
    (tracks : List (String × Track)) (sid fn : String) (tr : Track)
    (h : (sid, tr, fn) ∈ (download_to_cache_batch cd cfg search dl convert st0
      tracks).to_download) :
    (sid, tr) ∈ tracks ∧ fn = generate_filename tr 200 ++ ".mp3" := by
  unfold download_to_cache_batch at h
  dsimp only at h
  by_cases hemp : (batch_partition cd st0 tracks).2.isEmpty = true
  · rw [if_pos hemp] at h
    simp at h
  · rw [if_neg hemp] at h
    exact batch_partition_snd_char cd st0 tracks sid fn tr h

theorem batch_success_recorded (cd : String) (cfg : DLConfig) (search : String → Option String)
    (dl : String → Bool) (convert : String → Bool) (st0 : DLState)
    (tracks : List (String × Track)) (sid fn : String) (tr : Track)
    (h : (sid, tr, fn) ∈ (download_to_cache_batch cd cfg search dl convert st0
      tracks).to_download)
    (hfs : (cd ++ "/" ++ fn) ∈ (download_to_cache_batch cd cfg search dl convert st0
      tracks).st.mp3s) :
    dictMem sid (download_to_cache_batch cd cfg search dl convert st0 tracks).results = true
    := by
  unfold download_to_cache_batch at h hfs ⊢
  dsimp only at h hfs ⊢
  by_cases hemp : (batch_partition cd st0 tracks).2.isEmpty = true
  · rw [if_pos hemp] at h
    simp at h
  · rw [if_neg hemp] at h hfs ⊢
    exact batch_collect_results_mem_of cd _ _ sid fn tr _ h hfs

theorem apply_downloads_cache_not_mem (now : String) (ad : List (String × Track)) :
    ∀ (rs : List (String × String)) (m : Manifest) (sid : String),
      sid ∉ rs.map Prod.fst →
      dictLookup sid (apply_downloads now ad rs m).cache = dictLookup sid m.cache := by
  intro rs
  induction rs with
  | nil => intro m sid _; rfl
  | cons pr t ih =>
    intro m sid hsid
    simp only [List.map_cons, List.mem_cons, not_or] at hsid
    unfold apply_downloads at ih ⊢
    rw [List.foldl_cons]
    cases hf : ad.find? (fun q => q.1 == pr.1) with
    | none =>
      simp only [hf]
      exact ih m sid hsid.2
    | some q =>
      simp only [hf]
      rw [ih _ sid hsid.2]
      dsimp only
      exact dictLookup_dictInsert_ne _ _ _ _ hsid.1

theorem apply_downloads_preserves_mem (now : String) (ad : List (String × Track)) :
    ∀ (rs : List (String × String)) (m : Manifest) (sid : String),
      dictMem sid m.cache = true →
      dictMem sid (apply_downloads now ad rs m).cache = true := by
  intro rs
  induction rs with
  | nil => intro m sid h; exact h
  | cons pr t ih =>
    intro m sid h
    unfold apply_downloads at ih ⊢
    rw [List.foldl_cons]
    cases hf : ad.find? (fun q => q.1 == pr.1) with
    | none =>
      simp only [hf]
      exact ih m sid h
    | some q =>
      simp only [hf]
      apply ih
      dsimp only
      exact dictMem_dictInsert_of_dictMem _ _ _ _ h

theorem apply_downloads_cache_mem (now : String) (ad : List (String × Track)) :
    ∀ (rs : List (String × String)) (m : Manifest) (sid fn : String),
      (sid, fn) ∈ rs → (∃ t, (sid, t) ∈ ad) →
      dictMem sid (apply_downloads now ad rs m).cache = true := by
  intro rs
  induction rs with
  | nil => intro m sid fn h _; simp at h
  | cons pr t ih =>
    intro m sid fn hmem hex
    rcases List.mem_cons.mp hmem with heq | hmem'
    · obtain ⟨tr, htr⟩ := hex
      have hfind : (ad.find? (fun q => q.1 == sid)).isSome = true := by
        rw [List.find?_isSome]
        exact ⟨(sid, tr), htr, by simp⟩
      obtain ⟨q, hq⟩ := Option.isSome_iff_exists.mp hfind
      unfold apply_downloads
      rw [List.foldl_cons, ← heq]
      dsimp only
      rw [hq]
      apply apply_downloads_preserves_mem now ad t
      dsimp only
      simp [dictMem, dictLookup_dictInsert_self]
    · unfold apply_downloads at ih ⊢
      rw [List.foldl_cons]
      cases hf : ad.find? (fun q => q.1 == pr.1) <;> simp only [hf] <;> exact ih _ sid fn hmem' hex

theorem apply_limit_zero (l : List σ) : apply_limit 0 l = l := by
  unfold apply_limit
  simp

theorem foldl_append_subset {γ : Type} (f : String × SyncAction → List γ)
    (l : List (String × SyncAction)) :
    ∀ acc : List γ, acc ⊆ l.foldl (fun acc pa => acc ++ f pa) acc := by
  induction l with
  | nil => intro acc; exact fun x hx => hx
  | cons pa t ih =>
    intro acc
    rw [List.foldl_cons]
    exact fun x hx => ih (acc ++ f pa) (List.mem_append_left _ hx)

theorem foldl_append_mem {γ : Type} (f : String × SyncAction → List γ)
    (l : List (String × SyncAction)) (pa0 : String × SyncAction) (x : γ) :
    ∀ acc, pa0 ∈ l → x ∈ f pa0 → x ∈ l.foldl (fun acc pa => acc ++ f pa) acc := by
  induction l with
  | nil => intro acc h _; simp at h
  | cons pa t ih =>
    intro acc hmem hx
    rcases List.mem_cons.mp hmem with heq | hmem'
    · rw [List.foldl_cons]
      apply foldl_append_subset
      apply List.mem_append_right
      rw [← heq]
      exact hx
    · rw [List.foldl_cons]
      exact ih _ hmem' hx

theorem sync_all_downloads_mem (actions : List (String × SyncAction)) (pid : String)
    (a : SyncAction) (sid : String) (t : Track)
    (hpa : (pid, a) ∈ actions) (hlook : dictLookup sid a.songs = some t)
    (hnd : sid ∈ a.needs_download) : (sid, t) ∈ sync_all_downloads actions := by
  unfold sync_all_downloads
  have hx : (sid, t) ∈ (pid, a).2.needs_download.filterMap
      (fun sid => (dictLookup sid (pid, a).2.songs).map (fun t => (sid, t))) := by
    rw [List.mem_filterMap]
    exact ⟨sid, hnd, by rw [hlook]; rfl⟩
  exact foldl_append_mem
    (fun pa => pa.2.needs_download.filterMap
      (fun sid => (dictLookup sid pa.2.songs).map (fun t => (sid, t))))
    actions (pid, a) (sid, t) [] hpa hx

theorem compute_action_needs_download_spec (od : String) (fm : List (String × String))
    (m : Manifest) (nm pid sid : String) (songs : List (String × Track))
    (h : sid ∈ (compute_action od fm m nm pid songs).needs_download) :
    dictMem sid m.cache = false ∧ sid ∈ songs.map Prod.fst := by
  unfold compute_action at h
  dsimp only at h
  rw [List.mem_filter] at h
  obtain ⟨hta, hcache⟩ := h
  refine ⟨by simpa using hcache, ?_⟩
  rw [List.mem_filter] at hta
  exact List.mem_dedup.mp hta.1

theorem run_phase1_cache_none (cd : String) (cfg : DLConfig)
    (search : String → Option String) (dl : String → Bool) (convert : String → Bool)
    (st0 : DLState) (now : String) (m1 : Manifest) (ad : List (String × Track)) (sid : String)
    (hnone : dictLookup sid m1.cache = none)
    (hfail : ∀ t : Track, (sid, t) ∈ ad →
      (cd ++ "/" ++ (generate_filename t 200 ++ ".mp3")) ∉
        (run_phase1 cd cfg search dl convert st0 now m1 ad).2.2.mp3s) :
    dictLookup sid (run_phase1 cd cfg search dl convert st0 now m1 ad).1.cache = none := by
  unfold run_phase1 at hfail ⊢
  by_cases hemp : ad.isEmpty = true
  · rw [if_pos hemp]
    exact hnone
  · rw [if_neg hemp] at hfail ⊢
    dsimp only at hfail ⊢
    by_cases hkey : sid ∈ (download_to_cache_batch cd cfg search dl convert st0
        ad).results.map Prod.fst
    · exfalso
      have hsome := dictLookup_isSome_of_mem_keys sid _ hkey
      obtain ⟨fn, hfn⟩ := Option.isSome_iff_exists.mp hsome
      obtain ⟨t, hmem, hfneq, hfs⟩ := batch_results_char cd cfg search dl convert st0 ad sid
        fn hfn
      exact hfail t hmem (hfneq ▸ hfs)
    · rw [apply_downloads_cache_not_mem now ad _ m1 sid hkey]
      exact hnone

theorem run_phase1_success_mem (cd : String) (cfg : DLConfig)
    (search : String → Option String) (dl : String → Bool) (convert : String → Bool)
    (st0 : DLState) (now : String) (m1 : Manifest) (ad : List (String × Track))
    (sid fn : String) (tr : Track)
    (hmem : (sid, tr, fn) ∈ (run_phase1 cd cfg search dl convert st0 now m1 ad).2.1)
    (hfs : (cd ++ "/" ++ fn) ∈ (run_phase1 cd cfg search dl convert st0 now m1 ad).2.2.mp3s) :
    dictMem sid (run_phase1 cd cfg search dl convert st0 now m1 ad).1.cache = true := by
  unfold run_phase1 at hmem hfs ⊢
  by_cases hemp : ad.isEmpty = true
  · rw [if_pos hemp] at hmem
    simp at hmem
  · rw [if_neg hemp] at hmem hfs ⊢
    dsimp only at hmem hfs ⊢
    have hrec := batch_success_recorded cd cfg search dl convert st0 ad sid fn tr hmem hfs
    obtain ⟨fn', hfn'⟩ := Option.isSome_iff_exists.mp hrec
    have hpair := mem_of_dictLookup sid fn' _ hfn'
    obtain ⟨hinad, _⟩ := batch_to_download_char cd cfg search dl convert st0 ad sid fn tr hmem
    exact apply_downloads_cache_mem now ad _ m1 sid fn' hpair ⟨tr, hinad⟩

theorem run_sync_false_cache (m0 : Manifest) (pls : List RemotePlaylist)
    (fetch : String → List Track) (od : String) (fm : List (String × String)) (cfg : DLConfig)
    (search : String → Option String) (dl : String → Bool) (convert : String → Bool)
    (st0 : DLState) (dirs0 : String → List String) (now : String) (limit lp : Nat) :
    (run_sync m0 pls fetch od fm cfg search dl convert st0 dirs0 now false limit
      lp).manifest.cache =
      (sync_phase1 m0 pls fetch od fm cfg search dl convert st0 now limit lp).1.cache := by
  rw [run_sync_false_manifest]
  exact phase2_fold_cache _ _ _ _ _ _

/-- C1 (corrected): for a track whose acquisition fails (no file at the
derived cache path after the batch), the track is excluded from this run's
manifest cache update and the batch is not aborted (every other attempted
track whose file does exist still gets its cache entry); however, on the
next run against the same remote state the track does NOT appear again in
`needs_download` — phase 2 records the full current membership regardless of
download failures, so the next diff is empty and the track is never
retried. -/
theorem run_sync_failed_download_spec (m0 : Manifest) (pls : List RemotePlaylist)
    (fetch : String → List Track) (od : String) (fm : List (String × String)) (cfg : DLConfig)
    (search : String → Option String) (dl : String → Bool) (convert : String → Bool)
    (st0 : DLState) (dirs0 : String → List String) (now : String) (lp : Nat)
    (st₂ : DLState) (dirs₂ : String → List String) (now₂ : String) (limit₂ : Nat)
    (pid sid : String) (a : SyncAction)
    (hact : dictLookup pid (run_sync m0 pls fetch od fm cfg search dl convert st0 dirs0 now
      false 0 lp).actions = some a)
    (hnd : sid ∈ a.needs_download)
    (hfail : ∀ q ∈ (run_sync m0 pls fetch od fm cfg search dl convert st0 dirs0 now false 0
        lp).planned_downloads, q.1 = sid →
      (od ++ "/" ++ ".cache" ++ "/" ++ (generate_filename q.2 200 ++ ".mp3")) ∉
        (run_sync m0 pls fetch od fm cfg search dl convert st0 dirs0 now false 0
          lp).dl_state.mp3s) :
    dictLookup sid (run_sync m0 pls fetch od fm cfg search dl convert st0 dirs0 now false 0
      lp).manifest.cache = none ∧
    (∀ (sid' fn' : String) (t' : Track),
      (sid', t', fn') ∈ (run_sync m0 pls fetch od fm cfg search dl convert st0 dirs0 now
        false 0 lp).attempted_downloads →
      (od ++ "/" ++ ".cache" ++ "/" ++ fn') ∈ (run_sync m0 pls fetch od fm cfg search dl
        convert st0 dirs0 now false 0 lp).dl_state.mp3s →
      dictMem sid' (run_sync m0 pls fetch od fm cfg search dl convert st0 dirs0 now false 0
        lp).manifest.cache = true) ∧
    (∀ a₂ : SyncAction,
      dictLookup pid (run_sync
        (run_sync m0 pls fetch od fm cfg search dl convert st0 dirs0 now false 0 lp).manifest
        pls fetch od fm cfg search dl convert st₂ dirs₂ now₂ false limit₂ lp).actions
        = some a₂ →
      a₂.needs_download = [] ∧ sid ∉ a₂.needs_download) := by
  have hPSfact : ∃ songs, (pid, songs) ∈ build_playlist_songs fetch (apply_limit lp pls) ∧
      a = compute_action od fm (register_all fm (url_cache_init m0) (apply_limit lp pls))
        ((dictLookup pid (build_playlist_names (apply_limit lp pls))).getD "") pid songs := by
    have h := hact
    rw [run_sync_false_actions] at h
    unfold sync_plan at h
    exact compute_actions_mem _ _ _ _ _ _ _ (mem_of_dictLookup _ _ _ h)
  obtain ⟨songs, hPS, hval⟩ := hPSfact
  have hndspec := compute_action_needs_download_spec od fm
    (register_all fm (url_cache_init m0) (apply_limit lp pls))
    ((dictLookup pid (build_playlist_names (apply_limit lp pls))).getD "") pid sid songs
    (hval ▸ hnd)
  have hnone : dictLookup sid
      (register_all fm (url_cache_init m0) (apply_limit lp pls)).cache = none := by
    have := hndspec.1
    unfold dictMem at this
    exact Option.not_isSome_iff_eq_none.mp (by simp [this])
  have hsome : (dictLookup sid songs).isSome = true :=
    dictLookup_isSome_of_mem_keys sid songs hndspec.2
  obtain ⟨t, hlookt⟩ := Option.isSome_iff_exists.mp hsome
  have hlookta : dictLookup sid a.songs = some t := by
    rw [hval, compute_action_songs]
    exact hlookt
  have hamem : (pid, a) ∈ sync_plan m0 pls fetch od fm lp := by
    have h := hact
    rw [run_sync_false_actions] at h
    exact mem_of_dictLookup _ _ _ h
  have hsad : (sid, t) ∈ sync_all_downloads (sync_plan m0 pls fetch od fm lp) :=
    sync_all_downloads_mem _ pid a sid t hamem hlookta hnd
  have hfail' : ∀ tq : Track,
      (sid, tq) ∈ sync_all_downloads (sync_plan m0 pls fetch od fm lp) →
      (od ++ "/" ++ ".cache" ++ "/" ++ (generate_filename tq 200 ++ ".mp3")) ∉
        (run_phase1 (od ++ "/" ++ ".cache") cfg search dl convert st0 now
          (register_all fm (url_cache_init m0) (apply_limit lp pls))
          (sync_all_downloads (sync_plan m0 pls fetch od fm lp))).2.2.mp3s := by
    intro tq htq
    have h := hfail (sid, tq)
      (by rw [run_sync_false_planned, apply_limit_zero]; exact htq) rfl
    rw [run_sync_false_dl_state] at h
    unfold sync_phase1 at h
    rw [apply_limit_zero] at h
    exact h
  refine ⟨?_, ?_, ?_⟩
  · rw [run_sync_false_cache]
    unfold sync_phase1
    rw [apply_limit_zero]
    exact run_phase1_cache_none _ cfg search dl convert st0 now _ _ sid hnone hfail'
  · intro sid' fn' t' hmem' hfs'
    rw [run_sync_false_attempted] at hmem'
    rw [run_sync_false_dl_state] at hfs'
    rw [run_sync_false_cache]
    unfold sync_phase1 at hmem' hfs' ⊢
    rw [apply_limit_zero] at hmem' hfs' ⊢
    exact run_phase1_success_mem _ cfg search dl convert st0 now _ _ sid' fn' t' hmem' hfs'
  · intro a₂ hlook₂
    have hmem₂ := mem_of_dictLookup _ _ _ hlook₂
    have h := run_sync_rerun_plan_empty m0 pls fetch od fm cfg search dl convert st0 dirs0 now
      0 lp od fm cfg search dl convert st₂ dirs₂ now₂ limit₂ (pid, a₂) hmem₂
    refine ⟨h.2.2.1, ?_⟩
    rw [h.2.2.1]
    simp

/-! ## Concrete sync scenario: one playlist, one track -/

/-- The single remote track of the concrete scenario. -/
def demo_track : Track := { spotify_id := "t1", name := "Song", artist := "Artist" }

def demo_m0 : Manifest := { version := 1, cache := [], playlists := [], playlist_url_cache := none }

def demo_pls : List RemotePlaylist := [{ id := "p1", url := "u1", name := "P" }]

def demo_fetch : String → List Track := fun _ => [demo_track]

def demo_cfg : DLConfig := { no_overwrites := true, skip_mp3 := false }

def demo_st : DLState := { mp3s := [], webms := [], acquisitions := [] }

/-- First run in which the download collaborator fails (never produces a file). -/
def demo_r1fail : SyncResult :=
  run_sync demo_m0 demo_pls demo_fetch "out" [] demo_cfg (fun _ => some "vid") (fun _ => false)
    (fun _ => false) demo_st (fun _ => []) "n1" false 0 0

/-- Second run against the unchanged remote, starting from the first run's manifest. -/
def demo_r2fail : SyncResult :=
  run_sync demo_r1fail.manifest demo_pls demo_fetch "out" [] demo_cfg (fun _ => some "vid")
    (fun _ => false) (fun _ => false) demo_st (fun _ => []) "n2" false 0 0

/-- The plan computed for playlist p1 in the first run: t1 is new and uncached. -/
def demo_action : SyncAction :=
  { playlist_name := "P", folder := none, playlist_dir := "out/P",
    songs := [("t1", demo_track)], to_add := ["t1"], to_remove := [],
    needs_download := ["t1"], needs_copy := [] }

/-- The plan computed for playlist p1 in the second run: empty diffs. -/
def demo_action2 : SyncAction :=
  { playlist_name := "P", folder := none, playlist_dir := "out/P",
    songs := [("t1", demo_track)], to_add := [], to_remove := [],
    needs_download := [], needs_copy := [] }

/-- First run with a succeeding download collaborator. -/
def demo_r1ok : SyncResult :=
  run_sync demo_m0 demo_pls demo_fetch "out" [] demo_cfg (fun _ => some "vid") (fun _ => true)
    (fun _ => false) demo_st (fun _ => []) "n1" false 0 0

/-- Second run after the successful first run, unchanged remote. -/
def demo_r2ok : SyncResult :=
  run_sync demo_r1ok.manifest demo_pls demo_fetch "out" [] demo_cfg (fun _ => some "vid")
    (fun _ => true) (fun _ => false) demo_st (fun _ => []) "n2" false 0 0

set_option maxRecDepth 10000 in
/-- C1 counterexample: in the first run t1 is planned for download and the
acquisition fails (no mp3 ever appears), so t1 is excluded from the manifest
cache update; yet on the second run against the same remote state the plan for
p1 has an empty needs_download — the failed track is NOT retried, because
phase 2 (sync.py line 494) records the full current membership in
manifest.playlists regardless of download success, so the rerun diff is empty. -/
theorem run_sync_failed_download_counterexample :
    (dictLookup "p1" demo_r1fail.actions).map SyncAction.needs_download = some ["t1"] ∧
    demo_r1fail.dl_state.mp3s = [] ∧
    dictLookup "t1" demo_r1fail.manifest.cache = none ∧
    (dictLookup "p1" demo_r2fail.actions).map SyncAction.needs_download = some [] := by
  decide

set_option maxRecDepth 10000 in
/-- C1 (amended) witness: the failed-download theorem applied to the concrete
scenario — t1 is absent from the first run's manifest cache, and the second
run's plan has an empty needs_download not containing t1. -/
theorem run_sync_failed_download_spec_witness :
    dictLookup "t1" demo_r1fail.manifest.cache = none ∧
    demo_action2.needs_download = [] ∧ "t1" ∉ demo_action2.needs_download := by
  have h := run_sync_failed_download_spec demo_m0 demo_pls demo_fetch "out" [] demo_cfg
    (fun _ => some "vid") (fun _ => false) (fun _ => false) demo_st (fun _ => []) "n1" 0
    demo_st (fun _ => []) "n2" 0 "p1" "t1" demo_action (by decide) (by decide) (by decide)
  have h3 := h.2.2 demo_action2 (by decide)
  exact ⟨h.1, h3.1, h3.2⟩

set_option maxRecDepth 10000 in
/-- C3 witness: idempotence at the concrete scenario — after a completed
successful run, the rerun performs zero downloads, copies and removals, and
the rerun plan for p1 has empty diffs. -/
theorem run_sync_idempotent_witness :
    demo_r2ok.planned_downloads = [] ∧ demo_r2ok.attempted_downloads = [] ∧
    demo_r2ok.copies = [] ∧ demo_r2ok.removals = [] ∧
    demo_action2.to_add = [] ∧ demo_action2.to_remove = [] := by
  have h := run_sync_idempotent demo_m0 demo_pls demo_fetch "out" [] demo_cfg
    (fun _ => some "vid") (fun _ => true) (fun _ => false) demo_st (fun _ => []) "n1" 0 0
    demo_st (fun _ => []) "n2"
  have ha := h.1 ("p1", demo_action2) (by decide)
  exact ⟨h.2.1, h.2.2.1, h.2.2.2.1, h.2.2.2.2, ha.1, ha.2.1⟩

/-! ## reconcile_cache.py: reconciliation of untracked cache files -/


theorem mem_insertSorted (x y : String) (l : List String) :
    y ∈ insertSorted x l ↔ y = x ∨ y ∈ l := by
  induction l with
  | nil => simp [insertSorted]
  | cons z zs ih =>
    simp only [insertSorted]
    split
    · simp [List.mem_cons]
    · simp only [List.mem_cons, ih]
      tauto

theorem mem_sortStrings (x : String) (l : List String) :
    x ∈ sortStrings l ↔ x ∈ l := by
  unfold sortStrings
  induction l with
  | nil => simp
  | cons y ys ih =>
    simp only [List.foldr_cons, mem_insertSorted, List.mem_cons, ih]

theorem reconcile_fold_unmatched (lookup : List (String × (String × Track))) (dr : Bool)
    (now : String) :
    ∀ (L : List String) (acc : Manifest × Nat × List String),
    (L.foldl (reconcile_step lookup dr now) acc).2.2
      = acc.2.2 ++ L.filter (fun f => (dictLookup f lookup).isNone) := by
  intro L
  induction L with
  | nil => intro acc; simp
  | cons f rest ih =>
    intro acc
    rw [List.foldl_cons, ih]
    cases h : dictLookup f lookup with
    | none => simp [reconcile_step, h, List.filter_cons]
    | some q => simp [reconcile_step, h, List.filter_cons]

theorem reconcile_fold_cache_ne (lookup : List (String × (String × Track))) (now : String)
    (k : String) :
    ∀ (L : List String) (acc : Manifest × Nat × List String),
    (∀ f ∈ L, ∀ q, dictLookup f lookup = some q → q.1 ≠ k) →
    dictLookup k (L.foldl (reconcile_step lookup false now) acc).1.cache
      = dictLookup k acc.1.cache := by
  intro L
  induction L with
  | nil => intro acc _; simp
  | cons f rest ih =>
    intro acc hk
    rw [List.foldl_cons, ih _ (fun f2 h2 => hk f2 (List.mem_cons_of_mem _ h2))]
    cases h : dictLookup f lookup with
    | none => simp [reconcile_step, h]
    | some q =>
      have hne : q.1 ≠ k := hk f (List.mem_cons_self _ _) q h
      simp only [reconcile_step, h, Bool.false_eq_true, if_false]
      exact dictLookup_dictInsert_ne q.1 k _ _ hne.symm

theorem reconcile_fold_cache_match (lookup : List (String × (String × Track))) (now : String)
    (sid : String) (t : Track) (f : String) :
    ∀ (L : List String) (acc : Manifest × Nat × List String),
    f ∈ L →
    dictLookup f lookup = some (sid, t) →
    (∀ f2 ∈ L, ∀ q2, dictLookup f2 lookup = some q2 → q2.1 = sid → f2 = f) →
    dictLookup sid (L.foldl (reconcile_step lookup false now) acc).1.cache
      = some { name := t.name, artist := t.artist, filename := f,
               downloaded_at := now, reconciled := some true } := by
  intro L
  induction L with
  | nil => intro acc h; cases h
  | cons g rest ih =>
    intro acc hmem hl hinj
    rw [List.foldl_cons]
    by_cases hfr : f ∈ rest
    · exact ih _ hfr hl (fun f2 h2 => hinj f2 (List.mem_cons_of_mem _ h2))
    · have hgf : g = f := by
        rcases List.mem_cons.mp hmem with h | h
        · exact h.symm
        · exact absurd h hfr
      subst hgf
      have hrest : ∀ f2 ∈ rest, ∀ q2, dictLookup f2 lookup = some q2 → q2.1 ≠ sid := by
        intro f2 h2 q2 hq2 hq2s
        exact hfr ((hinj f2 (List.mem_cons_of_mem _ h2) q2 hq2 hq2s) ▸ h2)
      rw [reconcile_fold_cache_ne lookup now sid rest _ hrest]
      simp only [reconcile_step, hl, Bool.false_eq_true, if_false]
      exact dictLookup_dictInsert_self sid _ _

theorem reconcile_untracked_eq (m : Manifest) (cache : List String)
    (lookup : List (String × (String × Track))) (dr : Bool) (now : String) :
    (reconcile m cache lookup dr now).untracked
      = cache.dedup.filter
          (fun f => decide (f ∉ m.cache.map (fun pr => pr.2.filename))) := by
  unfold reconcile
  dsimp only
  split <;> rfl

theorem reconcile_empty_state (m : Manifest) (cache : List String)
    (lookup : List (String × (String × Track))) (dr : Bool) (now : String)
    (h : (reconcile m cache lookup dr now).untracked = []) :
    (reconcile m cache lookup dr now).manifest = m ∧
    (reconcile m cache lookup dr now).matched = 0 ∧
    (reconcile m cache lookup dr now).unmatched = [] ∧
    (reconcile m cache lookup dr now).saved = false := by
  rw [reconcile_untracked_eq] at h
  unfold reconcile
  dsimp only
  rw [h]
  simp

theorem reconcile_unmatched_eq (m : Manifest) (cache : List String)
    (lookup : List (String × (String × Track))) (dr : Bool) (now : String) :
    (reconcile m cache lookup dr now).unmatched
      = (sortStrings ((reconcile m cache lookup dr now).untracked)).filter
          (fun f => (dictLookup f lookup).isNone) := by
  rw [reconcile_untracked_eq]
  unfold reconcile
  dsimp only
  split
  · rename_i hemp
    rw [List.isEmpty_iff] at hemp
    rw [hemp]
    rfl
  · rw [reconcile_fold_unmatched]
    simp

theorem reconcile_cache_match (m : Manifest) (cache : List String)
    (lookup : List (String × (String × Track))) (now : String)
    (f sid : String) (t : Track)
    (hmem : f ∈ (reconcile m cache lookup false now).untracked)
    (hl : dictLookup f lookup = some (sid, t))
    (hinj : ∀ f2 ∈ (reconcile m cache lookup false now).untracked, ∀ q2,
      dictLookup f2 lookup = some q2 → q2.1 = sid → f2 = f) :
    dictLookup sid (reconcile m cache lookup false now).manifest.cache
      = some { name := t.name, artist := t.artist, filename := f,
               downloaded_at := now, reconciled := some true } := by
  rw [reconcile_untracked_eq] at hmem hinj
  unfold reconcile
  dsimp only
  split
  · rename_i hemp
    rw [List.isEmpty_iff] at hemp
    rw [hemp] at hmem
    cases hmem
  · exact reconcile_fold_cache_match lookup now sid t f _ _
      ((mem_sortStrings _ _).mpr hmem) hl
      (fun f2 h2 => hinj f2 ((mem_sortStrings _ _).mp h2))

theorem reconcile_cache_untouched (m : Manifest) (cache : List String)
    (lookup : List (String × (String × Track))) (now : String) (k : String)
    (hk : ∀ f ∈ (reconcile m cache lookup false now).untracked, ∀ q,
      dictLookup f lookup = some q → q.1 ≠ k) :
    dictLookup k (reconcile m cache lookup false now).manifest.cache
      = dictLookup k m.cache := by
  rw [reconcile_untracked_eq] at hk
  unfold reconcile
  dsimp only
  split
  · rfl
  · exact reconcile_fold_cache_ne lookup now k _ _
      (fun f2 h2 => hk f2 ((mem_sortStrings _ _).mp h2))

/-- Concrete reconciliation scenario of the spec: two cache files, one tracked. -/
def c7_track : Track := { spotify_id := "bid", name := "Other", artist := "B" }

def c7_entryA : CacheEntry :=
  { name := "Song", artist := "A", filename := "A - Song.mp3",
    downloaded_at := "t0", reconciled := none }

def c7_m : Manifest :=
  { version := 1, cache := [("aid", c7_entryA)], playlists := [], playlist_url_cache := none }

def c7_cache : List String := ["A - Song.mp3", "B - Other.mp3"]

def c7_lookup : List (String × (String × Track)) := [("B - Other.mp3", ("bid", c7_track))]

def c7_res : ReconcileResult := reconcile c7_m c7_cache c7_lookup false "t1"

/-- C7: reconciliation computes untracked as exactly the cache-directory mp3
filenames minus the filenames referenced by manifest cache entries; an empty
untracked set means no changes at all; every untracked filename with an exact
match in the playlist-derived lookup yields a cache entry marked reconciled,
keyed by the resolved track id (under the stated no-collision hypothesis on
resolved ids); every non-matching filename is reported unmatched and keys not
resolved from any untracked file are left unchanged in the manifest; on the
spec's concrete example exactly one entry is added and nothing is unmatched. -/
theorem reconcile_spec (m : Manifest) (cache : List String)
    (lookup : List (String × (String × Track))) (dr : Bool) (now : String)
    (hinj : ∀ f1 ∈ cache, ∀ f2 ∈ cache,
      (dictLookup f1 lookup).isSome = true →
      (dictLookup f1 lookup).map (fun q => q.1) = (dictLookup f2 lookup).map (fun q => q.1) →
      f1 = f2) :
    (reconcile m cache lookup dr now).untracked.toFinset
      = cache.toFinset \ (m.cache.map (fun pr => pr.2.filename)).toFinset ∧
    ((reconcile m cache lookup dr now).untracked = [] →
      (reconcile m cache lookup dr now).manifest = m ∧
      (reconcile m cache lookup dr now).matched = 0 ∧
      (reconcile m cache lookup dr now).unmatched = [] ∧
      (reconcile m cache lookup dr now).saved = false) ∧
    (∀ f ∈ (reconcile m cache lookup false now).untracked, ∀ sid t,
      dictLookup f lookup = some (sid, t) →
      dictLookup sid (reconcile m cache lookup false now).manifest.cache
        = some { name := t.name, artist := t.artist, filename := f,
                 downloaded_at := now, reconciled := some true }) ∧
    (∀ f, f ∈ (reconcile m cache lookup dr now).unmatched ↔
      f ∈ (reconcile m cache lookup dr now).untracked ∧ dictLookup f lookup = none) ∧
    (∀ k, (∀ f ∈ (reconcile m cache lookup false now).untracked, ∀ q,
        dictLookup f lookup = some q → q.1 ≠ k) →
      dictLookup k (reconcile m cache lookup false now).manifest.cache
        = dictLookup k m.cache) ∧
    (c7_res.untracked = ["B - Other.mp3"] ∧ c7_res.matched = 1 ∧ c7_res.unmatched = [] ∧
      dictLookup "bid" c7_res.manifest.cache
        = some { name := "Other", artist := "B", filename := "B - Other.mp3",
                 downloaded_at := "t1", reconciled := some true } ∧
      dictLookup "aid" c7_res.manifest.cache = some c7_entryA ∧
      c7_res.manifest.cache.length = c7_m.cache.length + 1) := by
  have hsub : ∀ f ∈ (reconcile m cache lookup false now).untracked, f ∈ cache := by
    intro f hf
    rw [reconcile_untracked_eq] at hf
    exact List.mem_dedup.mp (List.mem_filter.mp hf).1
  refine ⟨?_, reconcile_empty_state m cache lookup dr now, ?_, ?_, ?_, by decide⟩
  · rw [reconcile_untracked_eq]
    ext x
    simp [List.mem_filter, List.mem_dedup]
  · intro f hf sid t hl
    refine reconcile_cache_match m cache lookup now f sid t hf hl ?_
    intro f2 h2 q2 hq2 hq2s
    have := hinj f2 (hsub f2 h2) f (hsub f hf) (by rw [hq2]; rfl)
      (by rw [hq2, hl]; simpa using hq2s)
    exact this
  · intro f
    rw [reconcile_unmatched_eq]
    constructor
    · intro hf
      have h1 := List.mem_filter.mp hf
      exact ⟨(mem_sortStrings _ _).mp h1.1, Option.isNone_iff_eq_none.mp h1.2⟩
    · intro ⟨h1, h2⟩
      exact List.mem_filter.mpr ⟨(mem_sortStrings _ _).mpr h1, by simp [h2]⟩
  · intro k hk
    exact reconcile_cache_untouched m cache lookup now k hk

/-- C7 witness: the reconcile specification applied to the concrete scenario,
with the id-collision-freedom hypothesis discharged by computation. -/
theorem reconcile_spec_witness :
    c7_res.matched = 1 ∧ c7_res.unmatched = [] ∧
    dictLookup "bid" c7_res.manifest.cache
      = some { name := "Other", artist := "B", filename := "B - Other.mp3",
               downloaded_at := "t1", reconciled := some true } := by
  have h := reconcile_spec c7_m c7_cache c7_lookup false "t1" (by decide)
  have hF := h.2.2.2.2.2
  exact ⟨hF.2.1, hF.2.2.1, hF.2.2.2.1⟩

/-! ## C5: content dedup across playlists (one global batch, per-folder copies) -/


theorem string_append_cancel_right (a b s : String) (h : a ++ s = b ++ s) : a = b := by
  have hd := congrArg String.data h
  simp only [String.data_append] at hd
  exact String.ext (List.append_cancel_right hd)

theorem generate_eq_default (t : Track)
    (h : utf8Len (default_filename t.name t.artist).toList ≤ 200) :
    generate_filename t 200 = default_filename t.name t.artist := by
  rw [generate_filename_eq, if_neg]
  rw [utf8Encode_length]
  omega

theorem recover_webms_sub (convert : String → Bool) (st : DLState) (fp p : String)
    (h : p ∈ (recover_orphan_webm convert st fp).2.webms) : p ∈ st.webms := by
  unfold recover_orphan_webm at h
  split at h
  · exact h
  · split at h
    · split at h
      · exact List.mem_of_mem_erase (by simpa using h)
      · exact h
    · exact h

theorem cleanup_webms_sub (st : DLState) (fp p : String)
    (h : p ∈ (cleanup_webm_after_download st fp).webms) : p ∈ st.webms := by
  unfold cleanup_webm_after_download at h
  split at h
  · exact List.mem_of_mem_erase (by simpa using h)
  · exact h

theorem attempt_download_webms (dl : String → Bool) (vid fp mp3p : String) (st : DLState) :
    (attempt_download dl vid fp mp3p st).webms = st.webms := by
  unfold attempt_download
  dsimp only
  split <;> rfl

theorem post_download_webms_sub (cfg : DLConfig) (convert : String → Bool)
    (fp mp3p p : String) (st : DLState)
    (h : p ∈ (post_download cfg convert fp mp3p st).webms) : p ∈ st.webms := by
  unfold post_download at h
  split at h
  · split at h
    · exact cleanup_webms_sub _ _ _ h
    · dsimp only at h
      split at h
      · exact recover_webms_sub convert st fp p (cleanup_webms_sub _ _ _ h)
      · exact recover_webms_sub convert st fp p h
  · exact h

theorem process_entry_webms_sub (cfg : DLConfig) (search : String → Option String)
    (dl : String → Bool) (convert : String → Bool) (st : DLState) (e : DLEntry) (p : String)
    (h : p ∈ (process_entry cfg search dl convert st e).webms) : p ∈ st.webms := by
  unfold process_entry at h
  dsimp only at h
  have hrec : ∀ q : String, q ∈ (if ¬ cfg.skip_mp3 then
      recover_orphan_webm convert st (entry_file_path e) else (false, st)).2.webms →
      q ∈ st.webms := by
    intro q hq
    split at hq
    · exact recover_webms_sub convert st _ q hq
    · exact hq
  split at h
  · exact h
  · generalize hg : (if ¬ cfg.skip_mp3 then
        recover_orphan_webm convert st (entry_file_path e) else (false, st)) = r at h hrec
    split at h
    · exact hrec p h
    · split at h
      · exact hrec p h
      · exact hrec p ((attempt_download_webms dl _ _ _ r.2) ▸
          post_download_webms_sub cfg convert _ _ p _ h)

theorem recover_acq (convert : String → Bool) (st : DLState) (fp : String) :
    (recover_orphan_webm convert st fp).2.acquisitions = st.acquisitions := by
  unfold recover_orphan_webm
  split
  · rfl
  · split
    · split <;> rfl
    · rfl

theorem recover_mp3s_char (convert : String → Bool) (st : DLState) (fp q : String)
    (h : q ∈ (recover_orphan_webm convert st fp).2.mp3s) :
    q = fp ++ ".mp3" ∨ q ∈ st.mp3s := by
  unfold recover_orphan_webm at h
  split at h
  · exact Or.inr h
  · split at h
    · split at h
      · rcases List.mem_cons.mp (by simpa using h) with h1 | h1
        · exact Or.inl h1
        · exact Or.inr h1
      · exact Or.inr h
    · exact Or.inr h

theorem cleanup_mp3s (st : DLState) (fp : String) :
    (cleanup_webm_after_download st fp).mp3s = st.mp3s := by
  unfold cleanup_webm_after_download
  split <;> rfl

theorem cleanup_acq (st : DLState) (fp : String) :
    (cleanup_webm_after_download st fp).acquisitions = st.acquisitions := by
  unfold cleanup_webm_after_download
  split <;> rfl

theorem attempt_acq (dl : String → Bool) (vid fp mp3p : String) (st : DLState) :
    (attempt_download dl vid fp mp3p st).acquisitions = fp :: st.acquisitions := by
  unfold attempt_download
  dsimp only
  split <;> rfl

theorem attempt_mp3s_char (dl : String → Bool) (vid fp mp3p q : String) (st : DLState)
    (h : q ∈ (attempt_download dl vid fp mp3p st).mp3s) : q = mp3p ∨ q ∈ st.mp3s := by
  unfold attempt_download at h
  dsimp only at h
  split at h
  · rcases List.mem_cons.mp (by simpa using h) with h1 | h1
    · exact Or.inl h1
    · exact Or.inr h1
  · exact Or.inr h

theorem post_acq (cfg : DLConfig) (convert : String → Bool) (fp mp3p : String)
    (st : DLState) : (post_download cfg convert fp mp3p st).acquisitions = st.acquisitions := by
  unfold post_download
  split
  · split
    · exact cleanup_acq _ _
    · dsimp only
      split
      · rw [cleanup_acq, recover_acq]
      · rw [recover_acq]
  · rfl

theorem post_mp3s_char (cfg : DLConfig) (convert : String → Bool) (fp mp3p q : String)
    (st : DLState) (h : q ∈ (post_download cfg convert fp mp3p st).mp3s) :
    q = fp ++ ".mp3" ∨ q ∈ st.mp3s := by
  unfold post_download at h
  split at h
  · split at h
    · rw [cleanup_mp3s] at h
      exact Or.inr h
    · dsimp only at h
      split at h
      · rw [cleanup_mp3s] at h
        exact recover_mp3s_char convert st fp q h
      · exact recover_mp3s_char convert st fp q h
  · exact Or.inr h

theorem process_entry_other_path (cfg : DLConfig) (search : String → Option String)
    (dl : String → Bool) (convert : String → Bool) (st : DLState) (e : DLEntry)
    (fp : String) (hne : entry_file_path e ≠ fp) :
    ((fp ++ ".mp3") ∈ (process_entry cfg search dl convert st e).mp3s ↔
      (fp ++ ".mp3") ∈ st.mp3s) ∧
    (process_entry cfg search dl convert st e).acquisitions.count fp
      = st.acquisitions.count fp := by
  have hmpne : entry_file_path e ++ ".mp3" ≠ fp ++ ".mp3" := by
    intro hc
    exact hne (string_append_cancel_right _ _ _ hc)
  unfold process_entry
  dsimp only
  have hrecm : ∀ q, q ∈ (if ¬ cfg.skip_mp3 then
      recover_orphan_webm convert st (entry_file_path e) else (false, st)).2.mp3s →
      q = entry_file_path e ++ ".mp3" ∨ q ∈ st.mp3s := by
    intro q hq
    split at hq
    · exact recover_mp3s_char convert st _ q hq
    · exact Or.inr hq
  have hrecmono : ∀ q, q ∈ st.mp3s → q ∈ (if ¬ cfg.skip_mp3 then
      recover_orphan_webm convert st (entry_file_path e) else (false, st)).2.mp3s := by
    intro q hq
    split
    · exact recover_orphan_webm_mp3s_mono convert st _ q hq
    · exact hq
  have hreca : (if ¬ cfg.skip_mp3 then
      recover_orphan_webm convert st (entry_file_path e) else (false, st)).2.acquisitions
      = st.acquisitions := by
    split
    · exact recover_acq _ _ _
    · rfl
  split
  · exact ⟨Iff.rfl, rfl⟩
  · generalize hg : (if ¬ cfg.skip_mp3 then
        recover_orphan_webm convert st (entry_file_path e) else (false, st)) = r
        at hrecm hrecmono hreca
    split
    · constructor
      · constructor
        · intro hq
          rcases hrecm _ hq with h1 | h1
          · exact absurd h1 hmpne.symm
          · exact h1
        · exact hrecmono _
      · rw [hreca]
    · cases hs : search (entry_query e) with
      | none =>
        constructor
        · constructor
          · intro hq
            rcases hrecm _ hq with h1 | h1
            · exact absurd h1 hmpne.symm
            · exact h1
          · exact hrecmono _
        · rw [hreca]
      | some vid =>
        constructor
        · constructor
          · intro hq
            rcases post_mp3s_char cfg convert _ _ _ _ hq with h1 | h1
            · exact absurd h1 hmpne.symm
            · rcases attempt_mp3s_char dl vid _ _ _ _ h1 with h2 | h2
              · exact absurd h2 hmpne.symm
              · rcases hrecm _ h2 with h3 | h3
                · exact absurd h3 hmpne.symm
                · exact h3
          · intro hq
            exact post_download_mp3s_mono cfg convert _ _ _ _
              (attempt_download_mp3s_mono dl vid _ _ _ _ (hrecmono _ hq))
        · rw [post_acq, attempt_acq, List.count_cons_of_ne (Ne.symm hne), hreca]

theorem process_entry_skip (search : String → Option String) (dl : String → Bool)
    (convert : String → Bool) (st : DLState) (e : DLEntry)
    (h : (entry_file_path e ++ ".mp3") ∈ st.mp3s) :
    process_entry ⟨true, false⟩ search dl convert st e = st := by
  unfold process_entry
  dsimp only
  rw [if_pos]
  exact ⟨rfl, by decide, h⟩

theorem process_entry_success (search : String → Option String) (dl : String → Bool)
    (convert : String → Bool) (st : DLState) (e : DLEntry) (vid : String)
    (hm : (entry_file_path e ++ ".mp3") ∉ st.mp3s)
    (hw : entry_file_path e ∉ st.webms)
    (hs : search (entry_query e) = some vid)
    (hd : dl vid = true) :
    process_entry ⟨true, false⟩ search dl convert st e =
      { mp3s := (entry_file_path e ++ ".mp3") :: st.mp3s,
        webms := st.webms.erase (entry_file_path e),
        acquisitions := entry_file_path e :: st.acquisitions } := by
  unfold process_entry
  dsimp only
  rw [if_neg (by simp [hm])]
  have hrec : recover_orphan_webm convert st (entry_file_path e) = (false, st) := by
    unfold recover_orphan_webm
    rw [if_neg hm, if_neg hw]
  simp only [hrec, ite_self]
  rw [if_neg (by simp)]
  rw [hs]
  dsimp only
  unfold attempt_download
  dsimp only
  rw [if_pos hd]
  unfold post_download
  dsimp only
  rw [if_pos (by decide)]
  rw [if_pos (by exact List.mem_cons_self _ _)]
  unfold cleanup_webm_after_download
  rw [if_pos (by exact List.mem_cons_self _ _)]

theorem find_count_after (search : String → Option String) (dl : String → Bool)
    (convert : String → Bool) (fp : String) :
    ∀ (entries : List DLEntry) (st : DLState), (fp ++ ".mp3") ∈ st.mp3s →
    (find_and_download_songs ⟨true, false⟩ search dl convert entries st).acquisitions.count fp
      = st.acquisitions.count fp ∧
    (fp ++ ".mp3") ∈ (find_and_download_songs ⟨true, false⟩ search dl convert entries
      st).mp3s := by
  intro entries
  induction entries with
  | nil => intro st h; exact ⟨rfl, h⟩
  | cons e rest ih =>
    intro st h
    unfold find_and_download_songs at ih ⊢
    rw [List.foldl_cons]
    by_cases hp : entry_file_path e = fp
    · rw [process_entry_skip search dl convert st e (by rwa [hp])]
      exact ih st h
    · have hc := process_entry_other_path ⟨true, false⟩ search dl convert st e fp hp
      have := ih (process_entry ⟨true, false⟩ search dl convert st e) (hc.1.mpr h)
      rw [this.1, hc.2]
      exact ⟨rfl, this.2⟩

theorem find_success_once (search : String → Option String) (dl : String → Bool)
    (convert : String → Bool) (fp : String) (e : DLEntry) (vid : String)
    (hfp : entry_file_path e = fp)
    (hs : search (entry_query e) = some vid) (hd : dl vid = true) :
    ∀ (entries : List DLEntry) (st : DLState),
    (fp ++ ".mp3") ∉ st.mp3s → fp ∉ st.webms →
    (∀ e2 ∈ entries, entry_file_path e2 = fp → e2 = e) →
    e ∈ entries →
    (find_and_download_songs ⟨true, false⟩ search dl convert entries st).acquisitions.count fp
      = st.acquisitions.count fp + 1 ∧
    (fp ++ ".mp3") ∈ (find_and_download_songs ⟨true, false⟩ search dl convert entries
      st).mp3s := by
  intro entries
  induction entries with
  | nil => intro st _ _ _ hmem; cases hmem
  | cons e1 rest ih =>
    intro st hm hw hall hmem
    unfold find_and_download_songs at ih ⊢
    rw [List.foldl_cons]
    by_cases hp : entry_file_path e1 = fp
    · have he1 : e1 = e := hall e1 (List.mem_cons_self _ _) hp
      subst he1
      rw [process_entry_success search dl convert st e1 vid (by rwa [hp]) (by rwa [hp]) hs hd]
      have hafter := find_count_after search dl convert fp rest
        { mp3s := (entry_file_path e1 ++ ".mp3") :: st.mp3s,
          webms := st.webms.erase (entry_file_path e1),
          acquisitions := entry_file_path e1 :: st.acquisitions }
        (by rw [hp]; exact List.mem_cons_self _ _)
      unfold find_and_download_songs at hafter
      rw [hafter.1]
      constructor
      · dsimp only
        rw [hp, List.count_cons_self]
      · exact hafter.2
    · have he1 : e ∈ rest := by
        rcases List.mem_cons.mp hmem with h1 | h1
        · exact absurd (h1 ▸ hfp) hp
        · exact h1
      have hc := process_entry_other_path ⟨true, false⟩ search dl convert st e1 fp hp
      refine ih (process_entry ⟨true, false⟩ search dl convert st e1) ?_ ?_
        (fun e2 h2 => hall e2 (List.mem_cons_of_mem _ h2)) he1 |>.imp ?_ id
      · intro hq
        exact hm (hc.1.mp hq)
      · intro hq
        exact hw (process_entry_webms_sub ⟨true, false⟩ search dl convert st e1 fp hq)
      · intro hcount
        rw [hcount, hc.2]

theorem batch_partition_snd_mono (cd : String) (st0 : DLState) (x : String × Track × String) :
    ∀ (tracks : List (String × Track)) (acc : List (String × String) × List (String × Track × String)),
    x ∈ acc.2 →
    x ∈ (tracks.foldl
      (fun (acc : List (String × String) × List (String × Track × String)) p =>
        let filename := generate_filename p.2 200 ++ ".mp3"
        if (cd ++ "/" ++ filename) ∈ st0.mp3s then (dictInsert p.1 filename acc.1, acc.2)
        else (acc.1, acc.2 ++ [(p.1, p.2, filename)])) acc).2 := by
  intro tracks
  induction tracks with
  | nil => intro acc h; exact h
  | cons p rest ih =>
    intro acc h
    rw [List.foldl_cons]
    apply ih
    dsimp only
    split
    · exact h
    · exact List.mem_append_left _ h

theorem batch_partition_mem_snd (cd : String) (st0 : DLState) (sid : String) (t : Track)
    (hnc : (cd ++ "/" ++ (generate_filename t 200 ++ ".mp3")) ∉ st0.mp3s) :
    ∀ (tracks : List (String × Track)),
    (sid, t) ∈ tracks →
    (sid, t, generate_filename t 200 ++ ".mp3") ∈ (batch_partition cd st0 tracks).2 := by
  have main : ∀ (tracks : List (String × Track))
      (acc : List (String × String) × List (String × Track × String)),
      (sid, t) ∈ tracks →
      (sid, t, generate_filename t 200 ++ ".mp3") ∈ (tracks.foldl
        (fun (acc : List (String × String) × List (String × Track × String)) p =>
          let filename := generate_filename p.2 200 ++ ".mp3"
          if (cd ++ "/" ++ filename) ∈ st0.mp3s then (dictInsert p.1 filename acc.1, acc.2)
          else (acc.1, acc.2 ++ [(p.1, p.2, filename)])) acc).2 := by
    intro tracks
    induction tracks with
    | nil => intro acc h; cases h
    | cons p rest ih =>
      intro acc hmem
      rw [List.foldl_cons]
      rcases List.mem_cons.mp hmem with h1 | h1
      · apply batch_partition_snd_mono
        dsimp only
        rw [← h1]
        rw [if_neg hnc]
        exact List.mem_append_right _ (List.mem_singleton.mpr rfl)
      · exact ih _ h1
  intro tracks hmem
  exact main tracks ([], []) hmem

theorem batch_acq_once (cd : String) (search : String → Option String) (dl : String → Bool)
    (convert : String → Bool) (st0 : DLState) (tracks : List (String × Track))
    (sid : String) (t : Track) (vid : String)
    (hmem : (sid, t) ∈ tracks)
    (hlen : utf8Len (default_filename t.name t.artist).toList ≤ 200)
    (hnotc : (cd ++ "/" ++ (default_filename t.name t.artist ++ ".mp3")) ∉ st0.mp3s)
    (hwebm : (cd ++ "/" ++ default_filename t.name t.artist) ∉ st0.webms)
    (huniq : ∀ q ∈ tracks, generate_filename q.2 200 = default_filename t.name t.artist →
      q.2.name = t.name ∧ q.2.artist = t.artist)
    (hs : search (entry_query ⟨t.name, t.artist, cd⟩) = some vid)
    (hd : dl vid = true) :
    (download_to_cache_batch cd ⟨true, false⟩ search dl convert st0
        tracks).st.acquisitions.count (cd ++ "/" ++ default_filename t.name t.artist)
      = st0.acquisitions.count (cd ++ "/" ++ default_filename t.name t.artist) + 1 ∧
    ((cd ++ "/" ++ default_filename t.name t.artist) ++ ".mp3") ∈
      (download_to_cache_batch cd ⟨true, false⟩ search dl convert st0 tracks).st.mp3s := by
  have hgen : generate_filename t 200 = default_filename t.name t.artist :=
    generate_eq_default t hlen
  have hassoc : (cd ++ "/" ++ default_filename t.name t.artist) ++ ".mp3"
      = cd ++ "/" ++ (default_filename t.name t.artist ++ ".mp3") :=
    String.append_assoc _ _ _
  have hpart : (sid, t, generate_filename t 200 ++ ".mp3") ∈ (batch_partition cd st0 tracks).2 :=
    batch_partition_mem_snd cd st0 sid t (by rwa [hgen]) tracks hmem
  have hne : ¬ (batch_partition cd st0 tracks).2.isEmpty = true := by
    rw [List.isEmpty_iff]
    intro hc
    rw [hc] at hpart
    cases hpart
  unfold download_to_cache_batch
  dsimp only
  rw [if_neg hne]
  dsimp only
  set e : DLEntry := { name := t.name, artist := t.artist, save_path := cd } with he
  have hemem : e ∈ (batch_partition cd st0 tracks).2.map (fun q =>
      ({ name := q.2.1.name, artist := q.2.1.artist, save_path := cd } : DLEntry)) := by
    refine List.mem_map.mpr ⟨(sid, t, generate_filename t 200 ++ ".mp3"), hpart, rfl⟩
  have hfpe : entry_file_path e = cd ++ "/" ++ default_filename t.name t.artist := rfl
  have hall : ∀ e2 ∈ (batch_partition cd st0 tracks).2.map (fun q =>
      ({ name := q.2.1.name, artist := q.2.1.artist, save_path := cd } : DLEntry)),
      entry_file_path e2 = cd ++ "/" ++ default_filename t.name t.artist → e2 = e := by
    intro e2 h2 hp2
    obtain ⟨q, hq, hq2⟩ := List.mem_map.mp h2
    have hqt : (q.1, q.2.1) ∈ tracks := (batch_partition_snd_char cd st0 tracks _ _ _
      (by rw [← Prod.mk.eta (p := q), ← Prod.mk.eta (p := q.2)] at hq; exact hq)).1
    have hdf : default_filename q.2.1.name q.2.1.artist = default_filename t.name t.artist := by
      have : (cd ++ "/") ++ default_filename q.2.1.name q.2.1.artist
          = (cd ++ "/") ++ default_filename t.name t.artist := by
        rw [← hq2] at hp2
        exact hp2
      exact string_append_cancel _ _ _ this
    have hgq : generate_filename q.2.1 200 = default_filename t.name t.artist := by
      have hlq : utf8Len (default_filename q.2.1.name q.2.1.artist).toList ≤ 200 := by
        rw [hdf]; exact hlen
      rw [generate_eq_default q.2.1 hlq, hdf]
    have := huniq (q.1, q.2.1) hqt hgq
    rw [← hq2]
    rw [he]
    simp only [DLEntry.mk.injEq]
    exact ⟨this.1, this.2, trivial⟩
  have := find_success_once search dl convert (cd ++ "/" ++ default_filename t.name t.artist)
    e vid hfpe (by rwa [he]) hd _ st0 (by rwa [hassoc]) hwebm hall hemem
  exact this

theorem copy_step_copies_mono (cd dir pid : String) (cm : List (String × CacheEntry))
    (mp3s : List String) (es : ExecState) (s : String) (x : String × String)
    (h : x ∈ es.copies) : x ∈ (copy_step cd dir pid cm mp3s es s).copies := by
  unfold copy_step
  split
  · exact h
  · split
    · exact List.mem_append_left _ h
    · exact h

theorem remove_step_copies (dir pid : String) (cm : List (String × CacheEntry))
    (es : ExecState) (s : String) :
    (remove_step dir pid cm es s).copies = es.copies := by
  unfold remove_step
  split
  · rfl
  · split <;> rfl

theorem copy_fold_copies_mono (cd dir pid : String) (cm : List (String × CacheEntry))
    (mp3s : List String) (x : String × String) :
    ∀ (l : List String) (es : ExecState), x ∈ es.copies →
    x ∈ (l.foldl (copy_step cd dir pid cm mp3s) es).copies := by
  intro l
  induction l with
  | nil => intro es h; exact h
  | cons s rest ih =>
    intro es h
    rw [List.foldl_cons]
    exact ih _ (copy_step_copies_mono cd dir pid cm mp3s es s x h)

theorem remove_fold_copies (dir pid : String) (cm : List (String × CacheEntry)) :
    ∀ (l : List String) (es : ExecState),
    (l.foldl (remove_step dir pid cm) es).copies = es.copies := by
  intro l
  induction l with
  | nil => intro es; rfl
  | cons s rest ih =>
    intro es
    rw [List.foldl_cons, ih, remove_step_copies]

theorem run_playlist_phase2_copies_mono (cd : String) (cm : List (String × CacheEntry))
    (mp3s : List String) (now : String) (es : ExecState) (pa : String × SyncAction)
    (x : String × String) (h : x ∈ es.copies) :
    x ∈ (run_playlist_phase2 cd cm mp3s now es pa).copies := by
  unfold run_playlist_phase2
  dsimp only
  rw [remove_fold_copies]
  exact copy_fold_copies_mono cd _ _ cm mp3s x _ es h

theorem phase2_fold_copies_mono (cd : String) (cm : List (String × CacheEntry))
    (mp3s : List String) (now : String) (x : String × String) :
    ∀ (acts : List (String × SyncAction)) (es : ExecState), x ∈ es.copies →
    x ∈ (acts.foldl (run_playlist_phase2 cd cm mp3s now) es).copies := by
  intro acts
  induction acts with
  | nil => intro es h; exact h
  | cons pa rest ih =>
    intro es h
    rw [List.foldl_cons]
    exact ih _ (run_playlist_phase2_copies_mono cd cm mp3s now es pa x h)

theorem copy_step_dirs_other (cd dir pid : String) (cm : List (String × CacheEntry))
    (mp3s : List String) (es : ExecState) (s : String) (d : String) (hne : d ≠ dir) :
    (copy_step cd dir pid cm mp3s es s).dirs d = es.dirs d := by
  unfold copy_step
  split
  · rfl
  · split
    · dsimp only
      rw [if_neg hne]
    · rfl

theorem remove_step_dirs_other (dir pid : String) (cm : List (String × CacheEntry))
    (es : ExecState) (s : String) (d : String) (hne : d ≠ dir) :
    (remove_step dir pid cm es s).dirs d = es.dirs d := by
  unfold remove_step
  split
  · rfl
  · split
    · dsimp only
      rw [if_neg hne]
    · rfl

theorem copy_fold_dirs_other (cd dir pid : String) (cm : List (String × CacheEntry))
    (mp3s : List String) (d : String) (hne : d ≠ dir) :
    ∀ (l : List String) (es : ExecState),
    (l.foldl (copy_step cd dir pid cm mp3s) es).dirs d = es.dirs d := by
  intro l
  induction l with
  | nil => intro es; rfl
  | cons s rest ih =>
    intro es
    rw [List.foldl_cons, ih, copy_step_dirs_other cd dir pid cm mp3s es s d hne]

theorem remove_fold_dirs_other (dir pid : String) (cm : List (String × CacheEntry))
    (d : String) (hne : d ≠ dir) :
    ∀ (l : List String) (es : ExecState),
    (l.foldl (remove_step dir pid cm) es).dirs d = es.dirs d := by
  intro l
  induction l with
  | nil => intro es; rfl
  | cons s rest ih =>
    intro es
    rw [List.foldl_cons, ih, remove_step_dirs_other dir pid cm es s d hne]

theorem run_playlist_phase2_dirs_other (cd : String) (cm : List (String × CacheEntry))
    (mp3s : List String) (now : String) (es : ExecState) (pa : String × SyncAction)
    (d : String) (hne : d ≠ pa.2.playlist_dir) :
    (run_playlist_phase2 cd cm mp3s now es pa).dirs d = es.dirs d := by
  unfold run_playlist_phase2
  dsimp only
  rw [remove_fold_dirs_other _ _ _ _ hne, copy_fold_dirs_other _ _ _ _ _ _ hne]

theorem copy_fold_copy_event (cd dir pid : String) (cm : List (String × CacheEntry))
    (mp3s : List String) (sid fname : String) (e : CacheEntry)
    (hlook : dictLookup sid cm = some e)
    (hfn : e.filename = fname)
    (hsrc : (cd ++ "/" ++ fname) ∈ mp3s)
    (huniq : ∀ s2 e2, dictLookup s2 cm = some e2 → e2.filename = fname → s2 = sid) :
    ∀ (l : List String) (es : ExecState), sid ∈ l → fname ∉ es.dirs dir →
    (pid, fname) ∈ (l.foldl (copy_step cd dir pid cm mp3s) es).copies := by
  intro l
  induction l with
  | nil => intro es h; cases h
  | cons s rest ih =>
    intro es hmem hdir
    rw [List.foldl_cons]
    by_cases hss : s = sid
    · subst hss
      have hstep : (pid, fname) ∈ (copy_step cd dir pid cm mp3s es s).copies := by
        unfold copy_step
        rw [hlook]
        dsimp only
        rw [if_pos ⟨by rwa [hfn], by rwa [hfn]⟩]
        dsimp only
        rw [hfn]
        exact List.mem_append_right _ (List.mem_singleton.mpr rfl)
      exact copy_fold_copies_mono cd dir pid cm mp3s _ rest _ hstep
    · have hmem2 : sid ∈ rest := by
        rcases List.mem_cons.mp hmem with h1 | h1
        · exact absurd h1.symm hss
        · exact h1
      refine ih _ hmem2 ?_
      unfold copy_step
      cases hl2 : dictLookup s cm with
      | none => exact hdir
      | some e2 =>
        dsimp only
        split
        · dsimp only
          rw [if_pos rfl]
          intro hc
          rcases List.mem_cons.mp hc with h1 | h1
          · exact hss (huniq s e2 hl2 h1.symm)
          · exact hdir h1
        · exact hdir

theorem phase2_fold_copy_event (cd : String) (cm : List (String × CacheEntry))
    (mp3s : List String) (now : String) (pid : String) (a : SyncAction)
    (sid fname : String) (e : CacheEntry)
    (hlook : dictLookup sid cm = some e)
    (hfn : e.filename = fname)
    (hsrc : (cd ++ "/" ++ fname) ∈ mp3s)
    (huniq : ∀ s2 e2, dictLookup s2 cm = some e2 → e2.filename = fname → s2 = sid)
    (hadd : sid ∈ a.to_add) :
    ∀ (acts : List (String × SyncAction)) (es : ExecState),
    (pid, a) ∈ acts →
    (∀ pa ∈ acts, pa.2.playlist_dir = a.playlist_dir → pa = (pid, a)) →
    fname ∉ es.dirs a.playlist_dir →
    (pid, fname) ∈ (acts.foldl (run_playlist_phase2 cd cm mp3s now) es).copies := by
  intro acts
  induction acts with
  | nil => intro es h; cases h
  | cons pa rest ih =>
    intro es hmem hdu hdir
    rw [List.foldl_cons]
    by_cases hpa : pa = (pid, a)
    · subst hpa
      have hstep : (pid, fname) ∈ (run_playlist_phase2 cd cm mp3s now es (pid, a)).copies := by
        unfold run_playlist_phase2
        dsimp only
        rw [remove_fold_copies]
        exact copy_fold_copy_event cd a.playlist_dir pid cm mp3s sid fname e hlook hfn hsrc
          huniq a.to_add es hadd hdir
      exact phase2_fold_copies_mono cd cm mp3s now _ rest _ hstep
    · have hdne : a.playlist_dir ≠ pa.2.playlist_dir := by
        intro hc
        exact hpa (hdu pa (List.mem_cons_self _ _) hc.symm)
      have hmem2 : (pid, a) ∈ rest := by
        rcases List.mem_cons.mp hmem with h1 | h1
        · exact absurd h1.symm hpa
        · exact h1
      refine ih _ hmem2 (fun pa2 h2 => hdu pa2 (List.mem_cons_of_mem _ h2)) ?_
      rw [run_playlist_phase2_dirs_other cd cm mp3s now es pa _ hdne]
      exact hdir

theorem apply_downloads_cache_char (now : String) (ad : List (String × Track)) :
    ∀ (rs : List (String × String)) (m : Manifest) (s2 : String) (e2 : CacheEntry),
    dictLookup s2 (apply_downloads now ad rs m).cache = some e2 →
    dictLookup s2 m.cache = some e2 ∨ ∃ fn2, (s2, fn2) ∈ rs ∧ e2.filename = fn2 := by
  intro rs
  induction rs with
  | nil => intro m s2 e2 h; exact Or.inl h
  | cons pr rest ih =>
    intro m s2 e2 h
    unfold apply_downloads at h ih
    rw [List.foldl_cons] at h
    rcases hf : ad.find? (fun q => q.1 == pr.1) with _ | q
    · rw [hf] at h
      dsimp only at h
      rcases ih _ _ _ h with h1 | ⟨fn2, h2, h3⟩
      · exact Or.inl h1
      · exact Or.inr ⟨fn2, List.mem_cons_of_mem _ h2, h3⟩
    · rw [hf] at h
      dsimp only at h
      rcases ih _ _ _ h with h1 | ⟨fn2, h2, h3⟩
      · by_cases hss : s2 = pr.1
        · subst hss
          rw [dictLookup_dictInsert_self] at h1
          cases h1
          exact Or.inr ⟨pr.2, List.mem_cons_self _ _, rfl⟩
        · rw [dictLookup_dictInsert_ne _ _ _ _ hss] at h1
          exact Or.inl h1
      · exact Or.inr ⟨fn2, List.mem_cons_of_mem _ h2, h3⟩

theorem batch_partition_fst_mem (cd : String) (st0 : DLState) (s2 fn : String) :
    ∀ (tracks : List (String × Track))
      (acc : List (String × String) × List (String × Track × String)),
    (s2, fn) ∈ (tracks.foldl
      (fun (acc : List (String × String) × List (String × Track × String)) p =>
        let filename := generate_filename p.2 200 ++ ".mp3"
        if (cd ++ "/" ++ filename) ∈ st0.mp3s then (dictInsert p.1 filename acc.1, acc.2)
        else (acc.1, acc.2 ++ [(p.1, p.2, filename)])) acc).1 →
    (s2, fn) ∈ acc.1 ∨ ∃ tq, (s2, tq) ∈ tracks ∧ fn = generate_filename tq 200 ++ ".mp3" := by
  intro tracks
  induction tracks with
  | nil => intro acc h; exact Or.inl h
  | cons p rest ih =>
    intro acc h
    rw [List.foldl_cons] at h
    rcases ih _ h with h1 | ⟨tq, h2, h3⟩
    · dsimp only at h1
      split at h1
      · rcases mem_dictInsert _ _ _ _ _ h1 with ⟨he1, he2⟩ | h2
        · exact Or.inr ⟨p.2, by rw [he1, Prod.mk.eta]; exact List.mem_cons_self _ _, he2⟩
        · exact Or.inl h2
      · exact Or.inl h1
    · exact Or.inr ⟨tq, List.mem_cons_of_mem _ h2, h3⟩

theorem batch_collect_mem (cd : String) (st1 : DLState) (s2 fn : String) :
    ∀ (td : List (String × Track × String)) (r0 : List (String × String)),
    (s2, fn) ∈ batch_collect_results cd st1 td r0 →
    (s2, fn) ∈ r0 ∨ ∃ tq, (s2, tq, fn) ∈ td := by
  intro td
  induction td with
  | nil => intro r0 h; exact Or.inl h
  | cons q rest ih =>
    intro r0 h
    unfold batch_collect_results at h ih
    rw [List.foldl_cons] at h
    rcases ih _ h with h1 | ⟨tq, h2⟩
    · split at h1
      · rcases mem_dictInsert _ _ _ _ _ h1 with ⟨he1, he2⟩ | h2
        · exact Or.inr ⟨q.2.1, by
            rw [he1, he2]
            exact List.mem_cons_self _ _⟩
        · exact Or.inl h2
      · exact Or.inl h1
    · exact Or.inr ⟨tq, List.mem_cons_of_mem _ h2⟩

theorem batch_results_mem_char (cd : String) (cfg : DLConfig)
    (search : String → Option String) (dl : String → Bool) (convert : String → Bool)
    (st0 : DLState) (tracks : List (String × Track)) (s2 fn : String)
    (h : (s2, fn) ∈ (download_to_cache_batch cd cfg search dl convert st0 tracks).results) :
    ∃ tq, (s2, tq) ∈ tracks ∧ fn = generate_filename tq 200 ++ ".mp3" := by
  unfold download_to_cache_batch at h
  dsimp only at h
  split at h
  · dsimp only at h
    rcases batch_partition_fst_mem cd st0 s2 fn tracks ([], []) h with h1 | h1
    · cases h1
    · exact h1
  · dsimp only at h
    rcases batch_collect_mem cd _ s2 fn _ _ h with h1 | ⟨tq, h2⟩
    · rcases batch_partition_fst_mem cd st0 s2 fn tracks ([], []) h1 with h3 | h3
      · cases h3
      · exact h3
    · have := batch_partition_snd_char cd st0 tracks s2 fn tq h2
      exact ⟨tq, this.1, this.2⟩

theorem compute_action_to_add_of_nd (od : String) (fm : List (String × String))
    (m : Manifest) (nm pid sid : String) (songs : List (String × Track))
    (h : sid ∈ (compute_action od fm m nm pid songs).needs_download) :
    sid ∈ (compute_action od fm m nm pid songs).to_add := by
  have he : (compute_action od fm m nm pid songs).needs_download
      = (compute_action od fm m nm pid songs).to_add.filter
          (fun s => !(dictMem s m.cache)) := rfl
  rw [he] at h
  exact (List.mem_filter.mp h).1

/-- C5: a track in the membership of two synced playlists and absent from the
manifest cache at plan time is acquired exactly once by the single global
batch of the run (the second entry of the batch is skipped by the
no-overwrites check once the first has produced the file), its cached file
lands in the cache directory, and phase 2 copies it into each of the two
playlists' folders (hypotheses: consistent track metadata and no filename
collisions across the plan or prior cache, clean initial cache-directory and
folder state, and the search/download collaborators succeeding for this
track). -/
theorem content_dedup_spec (m0 : Manifest) (pls : List RemotePlaylist)
    (fetch : String → List Track) (od : String) (fm : List (String × String))
    (search : String → Option String) (dl : String → Bool) (convert : String → Bool)
    (st0 : DLState) (dirs0 : String → List String) (now : String) (lp : Nat)
    (pid1 pid2 : String) (a1 a2 : SyncAction) (sid : String) (t : Track) (vid : String)
    (hact1 : dictLookup pid1 (run_sync m0 pls fetch od fm ⟨true, false⟩ search dl convert st0
      dirs0 now false 0 lp).actions = some a1)
    (hact2 : dictLookup pid2 (run_sync m0 pls fetch od fm ⟨true, false⟩ search dl convert st0
      dirs0 now false 0 lp).actions = some a2)
    (hnd1 : sid ∈ a1.needs_download)
    (hnd2 : sid ∈ a2.needs_download)
    (hmem_t : (sid, t) ∈ (run_sync m0 pls fetch od fm ⟨true, false⟩ search dl convert st0
      dirs0 now false 0 lp).planned_downloads)
    (htr : ∀ q ∈ (run_sync m0 pls fetch od fm ⟨true, false⟩ search dl convert st0
      dirs0 now false 0 lp).planned_downloads, q.1 = sid → q.2 = t)
    (hlen : utf8Len (default_filename t.name t.artist).toList ≤ 200)
    (hnotc : (od ++ "/" ++ ".cache" ++ "/" ++ (default_filename t.name t.artist ++ ".mp3"))
      ∉ st0.mp3s)
    (hwebm : (od ++ "/" ++ ".cache" ++ "/" ++ default_filename t.name t.artist) ∉ st0.webms)
    (huniq : ∀ q ∈ (run_sync m0 pls fetch od fm ⟨true, false⟩ search dl convert st0
      dirs0 now false 0 lp).planned_downloads,
      generate_filename q.2 200 = default_filename t.name t.artist →
      q.1 = sid ∧ q.2.name = t.name ∧ q.2.artist = t.artist)
    (hm0fn : ∀ pr ∈ m0.cache, pr.2.filename ≠ default_filename t.name t.artist ++ ".mp3")
    (hs : search (entry_query ⟨t.name, t.artist, od ++ "/" ++ ".cache"⟩) = some vid)
    (hd : dl vid = true)
    (hdir1 : (default_filename t.name t.artist ++ ".mp3") ∉ dirs0 a1.playlist_dir)
    (hdir2 : (default_filename t.name t.artist ++ ".mp3") ∉ dirs0 a2.playlist_dir)
    (hdu1 : ∀ pa ∈ (run_sync m0 pls fetch od fm ⟨true, false⟩ search dl convert st0
      dirs0 now false 0 lp).actions, pa.2.playlist_dir = a1.playlist_dir → pa = (pid1, a1))
    (hdu2 : ∀ pa ∈ (run_sync m0 pls fetch od fm ⟨true, false⟩ search dl convert st0
      dirs0 now false 0 lp).actions, pa.2.playlist_dir = a2.playlist_dir → pa = (pid2, a2)) :
    (run_sync m0 pls fetch od fm ⟨true, false⟩ search dl convert st0 dirs0 now false 0
        lp).dl_state.acquisitions.count
        (od ++ "/" ++ ".cache" ++ "/" ++ default_filename t.name t.artist)
      = st0.acquisitions.count
          (od ++ "/" ++ ".cache" ++ "/" ++ default_filename t.name t.artist) + 1 ∧
    ((od ++ "/" ++ ".cache" ++ "/" ++ default_filename t.name t.artist) ++ ".mp3") ∈
      (run_sync m0 pls fetch od fm ⟨true, false⟩ search dl convert st0 dirs0 now false 0
        lp).dl_state.mp3s ∧
    (pid1, default_filename t.name t.artist ++ ".mp3") ∈
      (run_sync m0 pls fetch od fm ⟨true, false⟩ search dl convert st0 dirs0 now false 0
        lp).copies ∧
    (pid2, default_filename t.name t.artist ++ ".mp3") ∈
      (run_sync m0 pls fetch od fm ⟨true, false⟩ search dl convert st0 dirs0 now false 0
        lp).copies := by
  rw [run_sync_false_planned, apply_limit_zero] at hmem_t htr huniq
  rw [run_sync_false_actions] at hact1 hact2 hdu1 hdu2
  have hgen : generate_filename t 200 = default_filename t.name t.artist :=
    generate_eq_default t hlen
  have hADne : ¬ (sync_all_downloads (sync_plan m0 pls fetch od fm lp)).isEmpty = true := by
    rw [List.isEmpty_iff]
    intro hc
    rw [hc] at hmem_t
    cases hmem_t
  have hacq := batch_acq_once (od ++ "/" ++ ".cache") search dl convert st0
    (sync_all_downloads (sync_plan m0 pls fetch od fm lp)) sid t vid hmem_t hlen hnotc hwebm
    (fun q hq hg => (huniq q hq hg).2) hs hd
  have hph : run_phase1 (od ++ "/" ++ ".cache") ⟨true, false⟩ search dl convert st0 now
      (register_all fm (url_cache_init m0) (apply_limit lp pls))
      (sync_all_downloads (sync_plan m0 pls fetch od fm lp))
      = (apply_downloads now (sync_all_downloads (sync_plan m0 pls fetch od fm lp))
          (download_to_cache_batch (od ++ "/" ++ ".cache") ⟨true, false⟩ search dl convert st0
            (sync_all_downloads (sync_plan m0 pls fetch od fm lp))).results
          (register_all fm (url_cache_init m0) (apply_limit lp pls)),
         (download_to_cache_batch (od ++ "/" ++ ".cache") ⟨true, false⟩ search dl convert st0
            (sync_all_downloads (sync_plan m0 pls fetch od fm lp))).to_download,
         (download_to_cache_batch (od ++ "/" ++ ".cache") ⟨true, false⟩ search dl convert st0
            (sync_all_downloads (sync_plan m0 pls fetch od fm lp))).st) := by
    unfold run_phase1
    rw [if_neg hADne]
  -- plan-side facts for playlist 1
  have hPS1 : ∃ songs, (pid1, songs) ∈ build_playlist_songs fetch (apply_limit lp pls) ∧
      a1 = compute_action od fm (register_all fm (url_cache_init m0) (apply_limit lp pls))
        ((dictLookup pid1 (build_playlist_names (apply_limit lp pls))).getD "") pid1 songs := by
    have h := hact1
    unfold sync_plan at h
    exact compute_actions_mem _ _ _ _ _ _ _ (mem_of_dictLookup _ _ _ h)
  obtain ⟨songs1, hps1, hval1⟩ := hPS1
  have hndspec1 := compute_action_needs_download_spec od fm
    (register_all fm (url_cache_init m0) (apply_limit lp pls))
    ((dictLookup pid1 (build_playlist_names (apply_limit lp pls))).getD "") pid1 sid songs1
    (hval1 ▸ hnd1)
  have hnone : dictLookup sid
      (register_all fm (url_cache_init m0) (apply_limit lp pls)).cache = none := by
    have := hndspec1.1
    unfold dictMem at this
    exact Option.not_isSome_iff_eq_none.mp (by simp [this])
  have hadd1 : sid ∈ a1.to_add := by
    rw [hval1]
    exact compute_action_to_add_of_nd _ _ _ _ _ _ _ (hval1 ▸ hnd1)
  have hPS2 : ∃ songs, (pid2, songs) ∈ build_playlist_songs fetch (apply_limit lp pls) ∧
      a2 = compute_action od fm (register_all fm (url_cache_init m0) (apply_limit lp pls))
        ((dictLookup pid2 (build_playlist_names (apply_limit lp pls))).getD "") pid2 songs := by
    have h := hact2
    unfold sync_plan at h
    exact compute_actions_mem _ _ _ _ _ _ _ (mem_of_dictLookup _ _ _ h)
  obtain ⟨songs2, hps2, hval2⟩ := hPS2
  have hadd2 : sid ∈ a2.to_add := by
    rw [hval2]
    exact compute_action_to_add_of_nd _ _ _ _ _ _ _ (hval2 ▸ hnd2)
  -- batch results facts
  have hassoc : (od ++ "/" ++ ".cache" ++ "/" ++ default_filename t.name t.artist) ++ ".mp3"
      = od ++ "/" ++ ".cache" ++ "/" ++ (default_filename t.name t.artist ++ ".mp3") :=
    String.append_assoc _ _ _
  have hpart : (sid, t, generate_filename t 200 ++ ".mp3") ∈
      (batch_partition (od ++ "/" ++ ".cache") st0
        (sync_all_downloads (sync_plan m0 pls fetch od fm lp))).2 :=
    batch_partition_mem_snd _ st0 sid t (by rwa [hgen]) _ hmem_t
  have hpne2 : ¬ (batch_partition (od ++ "/" ++ ".cache") st0
      (sync_all_downloads (sync_plan m0 pls fetch od fm lp))).2.isEmpty = true := by
    rw [List.isEmpty_iff]
    intro hc
    rw [hc] at hpart
    cases hpart
  have hTD : (sid, t, default_filename t.name t.artist ++ ".mp3") ∈
      (download_to_cache_batch (od ++ "/" ++ ".cache") ⟨true, false⟩ search dl convert st0
        (sync_all_downloads (sync_plan m0 pls fetch od fm lp))).to_download := by
    have hbrtd : (download_to_cache_batch (od ++ "/" ++ ".cache") ⟨true, false⟩ search dl
        convert st0 (sync_all_downloads (sync_plan m0 pls fetch od fm lp))).to_download
        = (batch_partition (od ++ "/" ++ ".cache") st0
            (sync_all_downloads (sync_plan m0 pls fetch od fm lp))).2 := by
      unfold download_to_cache_batch
      dsimp only
      rw [if_neg hpne2]
    rw [hbrtd, ← hgen]
    exact hpart
  have hsucc := batch_success_recorded (od ++ "/" ++ ".cache") ⟨true, false⟩ search dl convert
    st0 (sync_all_downloads (sync_plan m0 pls fetch od fm lp)) sid
    (default_filename t.name t.artist ++ ".mp3") t hTD (by rw [← hassoc]; exact hacq.2)
  unfold dictMem at hsucc
  obtain ⟨fn0, hlookres⟩ := Option.isSome_iff_exists.mp hsucc
  have hsid_fn : ∀ fn2, (sid, fn2) ∈ (download_to_cache_batch (od ++ "/" ++ ".cache")
      ⟨true, false⟩ search dl convert st0
      (sync_all_downloads (sync_plan m0 pls fetch od fm lp))).results →
      fn2 = default_filename t.name t.artist ++ ".mp3" := by
    intro fn2 hf2
    obtain ⟨tq, htq, hfq⟩ := batch_results_mem_char _ _ _ _ _ _ _ _ _ hf2
    have htt : tq = t := htr (sid, tq) htq rfl
    rw [hfq, htt, hgen]
  -- manifest cache entry for sid
  have hCMmem := apply_downloads_cache_mem now
    (sync_all_downloads (sync_plan m0 pls fetch od fm lp))
    (download_to_cache_batch (od ++ "/" ++ ".cache") ⟨true, false⟩ search dl convert st0
      (sync_all_downloads (sync_plan m0 pls fetch od fm lp))).results
    (register_all fm (url_cache_init m0) (apply_limit lp pls)) sid fn0
    (mem_of_dictLookup _ _ _ hlookres) ⟨t, hmem_t⟩
  unfold dictMem at hCMmem
  obtain ⟨eC, hlookCM⟩ := Option.isSome_iff_exists.mp hCMmem
  have heCfn : eC.filename = default_filename t.name t.artist ++ ".mp3" := by
    rcases apply_downloads_cache_char now _ _ _ sid eC hlookCM with h1 | ⟨fn2, hf2, hf3⟩
    · rw [hnone] at h1
      cases h1
    · rw [hf3]
      exact hsid_fn fn2 hf2
  have huniqCM : ∀ s2 e2, dictLookup s2 (apply_downloads now
      (sync_all_downloads (sync_plan m0 pls fetch od fm lp))
      (download_to_cache_batch (od ++ "/" ++ ".cache") ⟨true, false⟩ search dl convert st0
        (sync_all_downloads (sync_plan m0 pls fetch od fm lp))).results
      (register_all fm (url_cache_init m0) (apply_limit lp pls))).cache = some e2 →
      e2.filename = default_filename t.name t.artist ++ ".mp3" → s2 = sid := by
    intro s2 e2 hl2 hfn2
    rcases apply_downloads_cache_char now _ _ _ s2 e2 hl2 with h1 | ⟨fn2, hf2, hf3⟩
    · rw [register_all_cache, url_cache_init_cache] at h1
      exact absurd hfn2 (hm0fn (s2, e2) (mem_of_dictLookup _ _ _ h1))
    · obtain ⟨tq, htq, hfq⟩ := batch_results_mem_char _ _ _ _ _ _ _ _ _ hf2
      have hgq : generate_filename tq 200 = default_filename t.name t.artist := by
        apply string_append_cancel_right _ _ ".mp3"
        rw [← hfq, ← hf3, hfn2]
      have hq1 : s2 = sid := (huniq (s2, tq) htq hgq).1
      exact hq1
  have hsrc : (od ++ "/" ++ ".cache" ++ "/" ++ (default_filename t.name t.artist ++ ".mp3"))
      ∈ (download_to_cache_batch (od ++ "/" ++ ".cache") ⟨true, false⟩ search dl convert st0
        (sync_all_downloads (sync_plan m0 pls fetch od fm lp))).st.mp3s := by
    rw [← hassoc]
    exact hacq.2
  refine ⟨?_, ?_, ?_, ?_⟩
  · rw [run_sync_false_dl_state]
    unfold sync_phase1
    rw [apply_limit_zero, hph]
    exact hacq.1
  · rw [run_sync_false_dl_state]
    unfold sync_phase1
    rw [apply_limit_zero, hph]
    exact hacq.2
  · rw [run_sync_false_copies]
    unfold sync_phase1
    rw [apply_limit_zero, hph]
    exact phase2_fold_copy_event _ _ _ now pid1 a1 sid _ eC hlookCM heCfn hsrc huniqCM hadd1
      (sync_plan m0 pls fetch od fm lp) _ (mem_of_dictLookup _ _ _ hact1) hdu1 hdir1
  · rw [run_sync_false_copies]
    unfold sync_phase1
    rw [apply_limit_zero, hph]
    exact phase2_fold_copy_event _ _ _ now pid2 a2 sid _ eC hlookCM heCfn hsrc huniqCM hadd2
      (sync_plan m0 pls fetch od fm lp) _ (mem_of_dictLookup _ _ _ hact2) hdu2 hdir2

/-- Concrete content-dedup scenario: one track shared by two playlists. -/
def c5_track : Track := { spotify_id := "t1", name := "Song", artist := "Artist" }

def c5_pls : List RemotePlaylist :=
  [{ id := "p1", url := "u1", name := "P" }, { id := "p2", url := "u2", name := "Q" }]

def c5_r : SyncResult :=
  run_sync { version := 1, cache := [], playlists := [], playlist_url_cache := none } c5_pls
    (fun _ => [c5_track]) "out" [] ⟨true, false⟩ (fun _ => some "vid") (fun _ => true)
    (fun _ => false) { mp3s := [], webms := [], acquisitions := [] } (fun _ => []) "n1"
    false 0 0

def c5_a1 : SyncAction :=
  { playlist_name := "P", folder := none, playlist_dir := "out/P",
    songs := [("t1", c5_track)], to_add := ["t1"], to_remove := [],
    needs_download := ["t1"], needs_copy := [] }

def c5_a2 : SyncAction :=
  { playlist_name := "Q", folder := none, playlist_dir := "out/Q",
    songs := [("t1", c5_track)], to_add := ["t1"], to_remove := [],
    needs_download := ["t1"], needs_copy := [] }


set_option maxRecDepth 10000 in
/-- C5 witness: the content-dedup theorem at the concrete two-playlist
scenario; the shared track is acquired once and copied into both folders. -/
theorem content_dedup_spec_witness :
    default_filename c5_track.name c5_track.artist = "Artist - Song" ∧
    c5_r.dl_state.acquisitions.count
      ("out" ++ "/" ++ ".cache" ++ "/" ++ default_filename c5_track.name c5_track.artist) = 1 ∧
    (("out" ++ "/" ++ ".cache" ++ "/" ++ default_filename c5_track.name c5_track.artist)
      ++ ".mp3") ∈ c5_r.dl_state.mp3s ∧
    ("p1", default_filename c5_track.name c5_track.artist ++ ".mp3") ∈ c5_r.copies ∧
    ("p2", default_filename c5_track.name c5_track.artist ++ ".mp3") ∈ c5_r.copies := by
  have h := content_dedup_spec (Manifest.mk 1 [] [] none) c5_pls (fun _ => [c5_track]) "out" []
    (fun _ => some "vid") (fun _ => true) (fun _ => false)
    (DLState.mk [] [] []) (fun _ => []) "n1" 0 "p1" "p2" c5_a1 c5_a2
    "t1" c5_track "vid"
    (by decide) (by decide) (by decide) (by decide) (by decide) (by decide) (by decide)
    (by decide) (by decide) (by decide) (by decide) (by decide) (by decide) (by decide)
    (by decide) (by decide) (by decide)
  exact ⟨by decide, h.1, h.2.1, h.2.2.1, h.2.2.2⟩
